import Mathlib

/-! cluster.dev: state reconciler, dependency resolution, markers and keys.

A shallow embedding of the orchestration core of `cluster.dev`
(`pkg/project/state.go`, `pkg/project/helpers.go`, `pkg/project/infrastructure.go`,
`pkg/modules/terraform/common/utils.go`, `pkg/modules/terraform/common/module.go`,
`pkg/cmd/cdev/apply.go`) together with theorems about it.

Conventions of the embedding.

* Go strings are Lean `String`s; `fmt.Sprintf("%v.%v", a, b)` on strings is `a ++ "." ++ b`,
  and the test `len(s) > 0` is `s.length > 0` (both say that `s` is not empty).
* A Go `map[string]T` is a function `String → Option T` (`none` = key absent).
* Live units form an object graph: a unit refers to the units it requires by
  reference.  References are natural numbers and `heap : Nat → Unit D` dereferences
  them, so graphs with shared ancestors and cyclic graphs are both representable.
* Recursion of the source that need not terminate is embedded with a `fuel`
  argument bounding the recursion depth; `none` means that the bound was hit.
* Functions of packages that are not part of the embedded sources (`utils.Diff`,
  `utils.Md5`, the `colors` formatter, the executor, the JSON encoder, the template
  engine) are parameters.
* A function that changes its arguments or the file system returns the new state next to
  its result; a Go `error` is its text, `none` is `nil`; `Status` tells a returned error
  from a panic and from the end of the process through `log.Fatal`.
-/

namespace Cdev

/-! ## State reconciler (`pkg/project/state.go`) -/

/-- The part of the `Unit` interface the reconciler uses.  `D` is the type of diff
fingerprints (`GetDiffData() interface{}`); `RequiredUnits` holds references into the
heap of live units. -/
structure Unit (D : Type) where
  Key : String
  GetDiffData : D
  WasApplied : Bool
  RequiredUnits : List Nat

/-- The functions of other packages used by the reconciler: `utils.Diff(a, b, colored)`
(its first argument may be `nil`) and `colors.Fmt(colors.Yellow).Sprintf`. -/
structure Utils (D : Type) where
  Diff : Option D → D → Bool → String
  Yellow : String → String

/-- The fields of `StateProject` read by the reconciler: the persisted unit registry
`Units` and the set `ChangedUnits` of units changed during this run. -/
structure StateProject (D : Type) where
  Units : String → Option (Unit D)
  ChangedUnits : String → Option (Unit D)

/-- The text handed to the yellow formatter in `CheckUnitChanges`. -/
def depsChangedText : String := "+/- There are changes in the unit dependencies."

/-- The loop `for _, u := range unit.RequiredUnits() { ... }` of
`checkUnitChangesRecursive`: first the `ChangedUnits` lookup, then the recursive call
`recCall`; the first `true` ends the loop, a call that does not return ends it with `none`. -/
def requiredLoopRec {D : Type} (heap : Nat → Unit D) (sp : StateProject D)
    (recCall : Unit D → Option Bool) : List Nat → Option Bool
  | [] => some false
  | r :: rs =>
    if (sp.ChangedUnits (heap r).Key).isSome then some true
    else
      match recCall (heap r) with
      | none => none
      | some true => some true
      | some false => requiredLoopRec heap sp recCall rs

/-- `StateProject.checkUnitChangesRecursive`, with recursion depth bounded by the fuel. -/
def checkUnitChangesRecursive {D : Type} (ut : Utils D) (heap : Nat → Unit D)
    (sp : StateProject D) : Nat → Unit D → Option Bool
  | 0, _ => none
  | fuel + 1, unit =>
    if unit.WasApplied then some true
    else
      match sp.Units unit.Key with
      | none => some true
      | some unitInState =>
        if (ut.Diff (some unitInState.GetDiffData) unit.GetDiffData true).length > 0 then
          some true
        else
          requiredLoopRec heap sp (checkUnitChangesRecursive ut heap sp fuel) unit.RequiredUnits

/-- The loop `for _, u := range unit.RequiredUnits() { ... }` of `CheckUnitChanges`:
`some true` when a call of `checkUnitChangesRecursive` returned `true`, `some false` when
all returned `false`, `none` when a call did not return. -/
def requiredLoop {D : Type} (heap : Nat → Unit D) (recCall : Unit D → Option Bool) :
    List Nat → Option Bool
  | [] => some false
  | r :: rs =>
    match recCall (heap r) with
    | none => none
    | some true => some true
    | some false => requiredLoop heap recCall rs

/-- `StateProject.CheckUnitChanges`: the human diff and the matched prior unit
(`none` = `nil`).  The fuel bounds the depth of the calls of `checkUnitChangesRecursive`. -/
def CheckUnitChanges {D : Type} (ut : Utils D) (heap : Nat → Unit D) (sp : StateProject D)
    (fuel : Nat) (unit : Unit D) : Option (String × Option (Unit D)) :=
  match sp.Units unit.Key with
  | none => some (ut.Diff none unit.GetDiffData true, none)
  | some unitInState =>
    let df := ut.Diff (some unitInState.GetDiffData) unit.GetDiffData true
    if df.length > 0 then some (df, some unitInState)
    else
      match requiredLoop heap (checkUnitChangesRecursive ut heap sp fuel) unit.RequiredUnits with
      | none => none
      | some true => some (ut.Yellow depsChangedText, some unitInState)
      | some false => some ("", some unitInState)

/-- Unit `b` is reachable from unit `a` through `RequiredUnits`, in one step or more. -/
inductive Reach {D : Type} (heap : Nat → Unit D) : Nat → Nat → Prop
  | step {a b : Nat} : b ∈ (heap a).RequiredUnits → Reach heap a b
  | more {a r b : Nat} : r ∈ (heap a).RequiredUnits → Reach heap r b → Reach heap a b

/-- The `RequiredUnits` graph is acyclic: references can be ranked so that every unit
ranks strictly above the units it requires.  Every finite graph in which no unit reaches
itself has such a ranking (`Acyclic_of_finite_of_irrefl`), and a ranked graph has no
cycle (`Acyclic_irrefl`). -/
def Acyclic {D : Type} (heap : Nat → Unit D) : Prop :=
  ∃ rank : Nat → Nat, ∀ i r, r ∈ (heap i).RequiredUnits → rank r < rank i

/-- A unit is changed on its own account: it was applied in this run, its key is absent
from the persisted registry, or its diff against the persisted unit is not empty. -/
def Changed {D : Type} (ut : Utils D) (sp : StateProject D) (u : Unit D) : Prop :=
  u.WasApplied = true ∨
    match sp.Units u.Key with
    | none => True
    | some unitInState => (ut.Diff (some unitInState.GetDiffData) u.GetDiffData true).length > 0

/-- A unit is clean on its own account: not applied in this run, present in the persisted
registry with an empty diff, and not a key of `ChangedUnits`. -/
def Clean {D : Type} (ut : Utils D) (sp : StateProject D) (u : Unit D) : Prop :=
  u.WasApplied = false ∧ sp.ChangedUnits u.Key = none ∧
    ∃ unitInState, sp.Units u.Key = some unitInState ∧
      (ut.Diff (some unitInState.GetDiffData) u.GetDiffData true).length = 0

/-- The four classes of the plan summary (the four lists of `showPlanResults`). -/
inductive PlanClass where
  | deploy
  | update
  | unchanged
  | destroy
  deriving DecidableEq, Repr

/-- Modelled from the spec: the class of a live unit given the pair returned by
`CheckUnitChanges` (the classifying loop of `Project.Plan` is not among the embedded
sources): deploy when there is no matched prior unit, update when there is one and the
diff is not empty, unchanged when there is one and the diff is empty. -/
def classifyResult {D : Type} : String × Option (Unit D) → PlanClass
  | (_, none) => PlanClass.deploy
  | (df, some _) => if df.length > 0 then PlanClass.update else PlanClass.unchanged

/-- Modelled from the spec: the class of a unit key for a live registry (key to reference
of the live unit) and a persisted `StateProject` (the classifying loop of `Project.Plan`
is not among the embedded sources): a live key gets the class of the result of
`CheckUnitChanges` on its unit, a persisted key absent from the live registry is destroy.
`none` means that the key gets no class (`CheckUnitChanges` did not return within the
fuel, or the key occurs in neither registry). -/
def classify {D : Type} (ut : Utils D) (heap : Nat → Unit D) (sp : StateProject D)
    (live : String → Option Nat) (fuel : Nat) (key : String) : Option PlanClass :=
  match live key with
  | some r => (CheckUnitChanges ut heap sp fuel (heap r)).map classifyResult
  | none => if (sp.Units key).isSome then some PlanClass.destroy else none

/-! ### Example projects for the reconciler -/

/-- A diff on numeric fingerprints (empty when they agree) and a formatter that keeps
the text. -/
def exUtils : Utils Nat where
  Diff := fun a b _ => if a = some b then "" else "changed"
  Yellow := fun s => s

/-- The live units of the scenario of the spec: reference 0 is `net.subnet`, which
requires `net.vpc`, held by every other reference. -/
def exHeap : Nat → Unit Nat
  | 0 => { Key := "net.subnet", GetDiffData := 1, WasApplied := false, RequiredUnits := [1] }
  | _ => { Key := "net.vpc", GetDiffData := 2, WasApplied := false, RequiredUnits := [] }

/-- A persisted state in which `net.vpc` was saved with another fingerprint. -/
def exDirtyState : StateProject Nat where
  Units := fun k =>
    if k = "net.subnet" then
      some { Key := "net.subnet", GetDiffData := 1, WasApplied := false, RequiredUnits := [] }
    else if k = "net.vpc" then
      some { Key := "net.vpc", GetDiffData := 7, WasApplied := false, RequiredUnits := [] }
    else none
  ChangedUnits := fun _ => none

/-- A persisted state that agrees with the live units. -/
def exCleanState : StateProject Nat where
  Units := fun k =>
    if k = "net.subnet" then
      some { Key := "net.subnet", GetDiffData := 1, WasApplied := false, RequiredUnits := [] }
    else if k = "net.vpc" then
      some { Key := "net.vpc", GetDiffData := 2, WasApplied := false, RequiredUnits := [] }
    else none
  ChangedUnits := fun _ => none

/-- An empty persisted state (first run). -/
def exEmptyState : StateProject Nat where
  Units := fun _ => none
  ChangedUnits := fun _ => none

/-- The live registry of the scenario. -/
def exLive : String → Option Nat := fun k =>
  if k = "net.subnet" then some 0 else if k = "net.vpc" then some 1 else none

/-- A live unit `net.vpc` that requires itself (`depends_on: this.vpc`). -/
def loopHeap : Nat → Unit Nat := fun _ =>
  { Key := "net.vpc", GetDiffData := 2, WasApplied := false, RequiredUnits := [0] }

/-- The live registry holding the self-requiring unit. -/
def loopLive : String → Option Nat := fun k => if k = "net.vpc" then some 0 else none

/-! ## Dependency resolution (`pkg/project/helpers.go`, `pkg/project/module.go`) -/

/-- The struct `Dependency`.  `M` is the type of the module objects held by the registry;
`Module = none` is the `nil` target of an unresolved dependency. -/
structure Dependency (M : Type) where
  Module : Option M
  ModuleName : String
  InfraName : String
  Output : String

/-- The field of `Project` read by dependency resolution: the module registry. -/
structure Project (M : Type) where
  Modules : String → Option M

/-- The part of the `Module` interface used by dependency resolution. -/
structure Module (M : Type) where
  InfraName : String
  Name : String
  ProjectPtr : Project M
  Dependencies : List (Dependency M)

/-- `BuildDep(m, dep)`: the dependency as the call leaves it, and the returned error
(`none` = `nil`). -/
def BuildDep {M : Type} (m : Module M) (dep : Dependency M) : Dependency M × Option String :=
  match dep.Module with
  | none =>
    if dep.ModuleName = "" ∨ dep.InfraName = "" then
      (dep, some ("Empty dependency in module '" ++ m.InfraName ++ "." ++ m.Name ++ "'"))
    else
      match m.ProjectPtr.Modules (dep.InfraName ++ "." ++ dep.ModuleName) with
      | none =>
        (dep, some ("Error in module '" ++ m.InfraName ++ "." ++ m.Name ++
          "' dependency, target '" ++ dep.InfraName ++ "." ++ dep.ModuleName ++
          "' does not exist"))
      | some depMod => ({ dep with Module := some depMod }, none)
  | some _ => (dep, none)

/-- The loop of `BuildModuleDeps` over the dependency list: the list as the loop leaves it
and the returned error.  The loop stops at the first error; the dependencies before it
have been resolved, the ones after it are untouched. -/
def BuildModuleDepsLoop {M : Type} (m : Module M) :
    List (Dependency M) → List (Dependency M) × Option String
  | [] => ([], none)
  | dep :: rest =>
    match BuildDep m dep with
    | (dep', some err) => (dep' :: rest, some err)
    | (dep', none) =>
      match BuildModuleDepsLoop m rest with
      | (rest', res) => (dep' :: rest', res)

/-- `BuildModuleDeps(m)`: the dependency list of `m` after the call and the returned error. -/
def BuildModuleDeps {M : Type} (m : Module M) : List (Dependency M) × Option String :=
  BuildModuleDepsLoop m m.Dependencies

/-- A dependency on which `BuildDep` succeeds: already resolved, or with both names set
and its key present in the registry. -/
def Resolvable {M : Type} (p : Project M) (dep : Dependency M) : Prop :=
  dep.Module.isSome ∨
    (dep.ModuleName ≠ "" ∧ dep.InfraName ≠ "" ∧
      (p.Modules (dep.InfraName ++ "." ++ dep.ModuleName)).isSome)

/-- An unresolved dependency with both names set whose key is absent from the registry. -/
def MissingTarget {M : Type} (p : Project M) (dep : Dependency M) : Prop :=
  dep.Module = none ∧ dep.ModuleName ≠ "" ∧ dep.InfraName ≠ "" ∧
    p.Modules (dep.InfraName ++ "." ++ dep.ModuleName) = none

/-- The relation between a dependency `d` before a successful resolution and the same
dependency `d'` after it: the target is set; it is the registry entry under
`"<InfraName>.<ModuleName>"` when `d` was unresolved and the old target otherwise; the
names and the output are the old ones. -/
def ResolvedFrom {M : Type} (p : Project M) (d d' : Dependency M) : Prop :=
  d'.Module.isSome ∧
    (d.Module = none → d'.Module = p.Modules (d.InfraName ++ "." ++ d.ModuleName)) ∧
    (d.Module.isSome → d'.Module = d.Module) ∧
    d'.InfraName = d.InfraName ∧ d'.ModuleName = d.ModuleName ∧ d'.Output = d.Output

/-- Module `a` has a dependency that names module `b`. -/
def DependsOn {M : Type} (a b : Module M) : Prop :=
  ∃ d ∈ a.Dependencies, d.InfraName = b.InfraName ∧ d.ModuleName = b.Name

/-! ### Example registries for dependency resolution -/

/-- A registry with the two modules `net.a` (object 0) and `net.b` (object 1). -/
def exProject : Project Nat where
  Modules := fun k => if k = "net.a" then some 0 else if k = "net.b" then some 1 else none

/-- An unresolved dependency on the module `infra.name`. -/
def exDep (infra name : String) : Dependency Nat :=
  { Module := none, ModuleName := name, InfraName := infra, Output := "" }

/-- Module `net.a`, which depends on `net.b`. -/
def exModuleA : Module Nat :=
  { InfraName := "net", Name := "a", ProjectPtr := exProject, Dependencies := [exDep "net" "b"] }

/-- Module `net.b`, which depends on `net.a`. -/
def exModuleB : Module Nat :=
  { InfraName := "net", Name := "b", ProjectPtr := exProject, Dependencies := [exDep "net" "a"] }

/-- Module `net.c`, whose first dependency has empty names (`depends_on: "."`) and whose
second dependency names the module `net.zz`, which the registry does not hold. -/
def exModuleC : Module Nat :=
  { InfraName := "net", Name := "c", ProjectPtr := exProject,
    Dependencies := [exDep "" "", exDep "net" "zz"] }

/-- Module `net.d`, whose dependency names the module `net.zz`, which the registry does
not hold. -/
def exModuleD : Module Nat :=
  { InfraName := "net", Name := "d", ProjectPtr := exProject,
    Dependencies := [exDep "net" "a", exDep "net" "zz"] }

/-- String `t` occurs in string `s`. -/
def Contains (s t : String) : Prop := ∃ a b : String, s = a ++ t ++ b

/-! ## Dependency parsing (`pkg/modules/terraform/common/utils.go`) -/

/-- The field of `Infrastructure` read by `readDeps`. -/
structure Infrastructure where
  Name : String

/-- The dynamic type of the `depsData interface{}` argument of `readDeps`: a string, a
`[]string`, or anything else. -/
inductive DepsData where
  | str (s : String)
  | strs (l : List String)
  | other

/-- `strings.Split(s, ".")`. -/
def splitDot (s : String) : List String :=
  (List.splitOn '.' s.data).map String.mk

/-- The loop of `readDeps` over `rawDepsList`, with the slice `res` built so far. -/
def readDepsLoop {M : Type} (infra : Infrastructure) :
    List String → List (Dependency M) → Except String (List (Dependency M))
  | [], res => Except.ok res
  | dep :: rest, res =>
    match splitDot dep with
    | [s0, s1] =>
      let infNm := if s0 = "this" then infra.Name else s0
      readDepsLoop infra rest
        (res ++ [{ Module := none, ModuleName := s1, InfraName := infNm, Output := "" }])
    | _ => Except.error ("Incorrect module dependency '" ++ dep ++ "'")

/-- `readDeps(depsData, infra)`: the dependencies, or the error. -/
def readDeps {M : Type} (depsData : DepsData) (infra : Infrastructure) :
    Except String (List (Dependency M)) :=
  let rawDepsList : List String :=
    match depsData with
    | DepsData.str s => [s]
    | DepsData.strs l => l
    | DepsData.other => []
  readDepsLoop infra rawDepsList []

/-! ## Markers (`pkg/project/helpers.go`) -/

/-- `CreateMarker(markerPath, dataForHash)`; `Md5` is `utils.Md5`. -/
def CreateMarker (Md5 : String → String) (markerPath dataForHash : String) : String :=
  let hash := Md5 dataForHash
  hash ++ "." ++ markerPath ++ "." ++ hash

/-! ## The terraform module (`pkg/modules/terraform/common/module.go`) -/

namespace Common

/-- The fields of the terraform `Module` that its key is computed from. -/
structure Module where
  infraPtr : Infrastructure
  name : String

/-- `(m *Module) InfraName()`. -/
def Module.InfraName (m : Module) : String := m.infraPtr.Name

/-- `(m *Module) Name()`. -/
def Module.Name (m : Module) : String := m.name

/-- `(m *Module) Key()`. -/
def Module.Key (m : Module) : String := m.InfraName ++ "." ++ m.name

/-- The struct `hookSpec`. -/
structure hookSpec where
  Command : String
  OnDestroy : Bool
  OnApply : Bool
  OnPlan : Bool

/-- The fields `preHook` and `postHook` of the terraform `Module` (`none` = `nil`). -/
structure ModuleHooks where
  preHook : Option hookSpec
  postHook : Option hookSpec

/-- The three results of `rn.Run(cmd)`: the output, the error output and the error
(`none` = `nil`, otherwise the text of the error). -/
structure RunResult where
  output : String
  errMsg : String
  err : Option String

/-- The condition `hook != nil && hook.On<Op>` for a hook and the flag of the operation. -/
def hookEnabled (hook : Option hookSpec) (flag : hookSpec → Bool) : Bool :=
  match hook with
  | none => false
  | some h => flag h

/-- The value of `cmd` that `InitCommon` hands to `rn.Run`. -/
def InitCommon.cmd (terraformBin : String) : String := "" ++ (terraformBin ++ " init")

/-- The value of `cmd` that `ApplyCommon` hands to `rn.Run`. -/
def ApplyCommon.cmd (terraformBin : String) (m : ModuleHooks) : String :=
  let cmd := if hookEnabled m.preHook hookSpec.OnApply then "./pre_hook.sh && " else ""
  let cmd := cmd ++ (terraformBin ++ " init && " ++ terraformBin ++ " apply -auto-approve")
  if hookEnabled m.postHook hookSpec.OnApply then cmd ++ " && ./post_hook.sh" else cmd

/-- The value of `cmd` that `Plan` hands to `rn.Run`. -/
def Plan.cmd (terraformBin : String) (m : ModuleHooks) : String :=
  let cmd := if hookEnabled m.preHook hookSpec.OnPlan then "./pre_hook.sh && " else ""
  let cmd := cmd ++ (terraformBin ++ " init && " ++ terraformBin ++ " plan")
  if hookEnabled m.postHook hookSpec.OnPlan then cmd ++ " && ./post_hook.sh" else cmd

/-- The value of `cmd` that `Destroy` hands to `rn.Run`. -/
def Destroy.cmd (terraformBin : String) (m : ModuleHooks) : String :=
  let cmd := if hookEnabled m.preHook hookSpec.OnDestroy then "./pre_hook.sh && " else ""
  let cmd := cmd ++ (terraformBin ++ " init && " ++ terraformBin ++ " destroy -auto-approve")
  if hookEnabled m.postHook hookSpec.OnDestroy then cmd ++ " && ./post_hook.sh" else cmd

/-- The error returned after `rn.Run` in `InitCommon`, `ApplyCommon` and `Destroy`:
`if err != nil { if len(errMsg) > 1 { return fmt.Errorf(...) } }; return err`. -/
def runError (r : RunResult) : Option String :=
  match r.err with
  | some err =>
    if r.errMsg.utf8ByteSize > 1 then some (err ++ ", error output:\n " ++ r.errMsg)
    else some err
  | none => none

/-- `(m *Module) InitCommon()` once the executor `rn` exists; `Run` is `rn.Run`. -/
def InitCommon (terraformBin : String) (Run : String → RunResult) : Option String :=
  runError (Run (InitCommon.cmd terraformBin))

/-- `(m *Module) ApplyCommon()` once the executor `rn` exists; `Run` is `rn.Run`. -/
def ApplyCommon (terraformBin : String) (m : ModuleHooks) (Run : String → RunResult) :
    Option String :=
  runError (Run (ApplyCommon.cmd terraformBin m))

/-- `(m *Module) Plan()` once the executor `rn` exists; `Run` is `rn.Run`.  With an error
the function returns as `runError` says; without one it prints the output and returns
`nil`. -/
def Plan (terraformBin : String) (m : ModuleHooks) (Run : String → RunResult) :
    Option String :=
  match (Run (Plan.cmd terraformBin m)).err with
  | some err =>
    if (Run (Plan.cmd terraformBin m)).errMsg.utf8ByteSize > 1 then
      some (err ++ ", error output:\n " ++ (Run (Plan.cmd terraformBin m)).errMsg)
    else some err
  | none => none

/-- `(m *Module) Destroy()` once the executor `rn` exists; `Run` is `rn.Run`. -/
def Destroy (terraformBin : String) (m : ModuleHooks) (Run : String → RunResult) :
    Option String :=
  runError (Run (Destroy.cmd terraformBin m))

/-- A module with a pre-hook enabled for apply and destroy and a post-hook enabled for
apply only. -/
def exHooks : ModuleHooks :=
  { preHook := some { Command := "echo pre", OnDestroy := true, OnApply := true, OnPlan := false }
    postHook :=
      some { Command := "echo post", OnDestroy := false, OnApply := true, OnPlan := false } }

/-- A runner whose command fails with the error output `no credentials`. -/
def exFailingRun : String → RunResult :=
  fun _ => { output := "", errMsg := "no credentials", err := some "exit status 1" }

end Common

/-! ## Marker scanner (`ScanMarkers` in `pkg/project/helpers.go`) -/

/-- The Go values that `ScanMarkers` is given, by dynamic type: the `nil` interface, a
string, an integer, a boolean, a `[]string`, a `[]interface{}`, a
`map[string]interface{}` (its entries in the order in which the run iterates over them),
a pointer (`ptr nil` is the nil pointer, `ptr v` points to a variable whose static type is
the dynamic type of `v`) and a struct.  A nil slice or map is not distinguished from an
empty one: `ScanMarkers` returns `nil` and changes nothing on both.  Pointers to
variables of static type `interface{}` are not represented, so the branch
`case reflect.Interface` of the source has no counterpart. -/
inductive Val where
  | nil
  | str (s : String)
  | int (n : Int)
  | bool (b : Bool)
  | strs (xs : List String)
  | seq (xs : List Val)
  | map (kvs : List (String × Val))
  | ptr (target : Val)
  | struct (fields : List (String × Val))
  deriving Repr

/-- How a call ends: it returns `nil`, it returns an error, it panics, or it ends the
process through `log.Fatal`. -/
inductive Status where
  | ok
  | error (e : String)
  | panic
  | fatal
  deriving DecidableEq, Repr

/-- The kinds on which `reflect.Value.IsNil` is defined (chan, func, interface, map,
pointer, slice); on a value of any other kind `IsNil` panics. -/
def Val.isNilable : Val → Bool
  | Val.strs _ => true
  | Val.seq _ => true
  | Val.map _ => true
  | Val.ptr _ => true
  | _ => false

/-- The loop of `case reflect.Slice` over a `[]string`: every element has kind `String`,
so `procFunc` is called on it, a result of another kind is fatal, and the result is set
in place.  The slice as the loop leaves it, and how the loop ends. -/
def scanStrings {Mod : Type} (procFunc : Val → Mod → Except String Val) (module : Mod) :
    List String → List String × Status
  | [] => ([], Status.ok)
  | s :: rest =>
    match procFunc (Val.str s) module with
    | Except.error e => (s :: rest, Status.error e)
    | Except.ok (Val.str t) =>
      ((t :: (scanStrings procFunc module rest).1), (scanStrings procFunc module rest).2)
    | Except.ok _ => (s :: rest, Status.fatal)

/-- The loop of `case reflect.Slice` over a `[]interface{}`: on an element holding a string
`procFunc` is called and its result is set in place; on any other element `ScanMarkers` is
called (`recCall`), which changes the element in place.  The first call that does not
return `nil` ends the loop. -/
def scanSlice {Mod : Type} (procFunc : Val → Mod → Except String Val) (module : Mod)
    (recCall : Val → Option (Val × Status)) : List Val → Option (List Val × Status)
  | [] => some ([], Status.ok)
  | elem :: rest =>
    match elem with
    | Val.str _ =>
      match procFunc elem module with
      | Except.error e => some (elem :: rest, Status.error e)
      | Except.ok val =>
        (scanSlice procFunc module recCall rest).map fun r => (val :: r.1, r.2)
    | _ =>
      match recCall elem with
      | none => none
      | some (elem', Status.ok) =>
        (scanSlice procFunc module recCall rest).map fun r => (elem' :: r.1, r.2)
      | some (elem', st) => some (elem' :: rest, st)

/-- The loop of `case reflect.Map` over the keys of a `map[string]interface{}`, as
`scanSlice`; the keys are left as they are. -/
def scanMap {Mod : Type} (procFunc : Val → Mod → Except String Val) (module : Mod)
    (recCall : Val → Option (Val × Status)) :
    List (String × Val) → Option (List (String × Val) × Status)
  | [] => some ([], Status.ok)
  | (key, elem) :: rest =>
    match elem with
    | Val.str _ =>
      match procFunc elem module with
      | Except.error e => some ((key, elem) :: rest, Status.error e)
      | Except.ok val =>
        (scanMap procFunc module recCall rest).map fun r => ((key, val) :: r.1, r.2)
    | _ =>
      match recCall elem with
      | none => none
      | some (elem', Status.ok) =>
        (scanMap procFunc module recCall rest).map fun r => ((key, elem') :: r.1, r.2)
      | some (elem', st) => some ((key, elem') :: rest, st)

/-- The part of `ScanMarkers` after the pointer has been followed: the call of
`out.IsNil()`, which panics on a string, a number, a boolean and a struct (so that
`case reflect.String` and `case reflect.Struct` are never reached), and the switch on the
kind of `out`, whose default branch only logs. -/
def scanOut {Mod : Type} (procFunc : Val → Mod → Except String Val) (module : Mod)
    (recCall : Val → Option (Val × Status)) (out : Val) : Option (Val × Status) :=
  if out.isNilable = false then some (out, Status.panic)
  else
    match out with
    | Val.strs xs =>
      some (Val.strs (scanStrings procFunc module xs).1, (scanStrings procFunc module xs).2)
    | Val.seq xs => (scanSlice procFunc module recCall xs).map fun r => (Val.seq r.1, r.2)
    | Val.map kvs => (scanMap procFunc module recCall kvs).map fun r => (Val.map r.1, r.2)
    | _ => some (out, Status.ok)

/-- `ScanMarkers(data, procFunc, module)`: the data as the call leaves it (containers are
changed in place) and how the call ends.  The fuel bounds the depth of the recursion;
`none` means that the bound was hit. -/
def ScanMarkers {Mod : Type} (procFunc : Val → Mod → Except String Val) (module : Mod) :
    Nat → Val → Option (Val × Status)
  | 0, _ => none
  | fuel + 1, data =>
    match data with
    | Val.nil => some (data, Status.ok)
    | Val.ptr Val.nil => some (data, Status.ok)
    | Val.ptr target =>
      (scanOut procFunc module (ScanMarkers procFunc module fuel) target).map
        fun r => (Val.ptr r.1, r.2)
    | _ => scanOut procFunc module (ScanMarkers procFunc module fuel) data

mutual
/-- The string leaves of a value in traversal order. -/
def Val.leaves : Val → List String
  | Val.str s => [s]
  | Val.strs xs => xs
  | Val.seq xs => leavesList xs
  | Val.map kvs => leavesEntries kvs
  | Val.ptr target => target.leaves
  | Val.struct fields => leavesEntries fields
  | _ => []
/-- The string leaves of the elements of a sequence. -/
def leavesList : List Val → List String
  | [] => []
  | x :: xs => x.leaves ++ leavesList xs
/-- The string leaves of the values of a mapping. -/
def leavesEntries : List (String × Val) → List String
  | [] => []
  | (_, v) :: kvs => v.leaves ++ leavesEntries kvs
end

mutual
/-- The value with every string leaf blanked: what remains are the containers, the keys
of every mapping, the length and order of every sequence, and the leaves that are not
strings. -/
def Val.skeleton : Val → Val
  | Val.str _ => Val.str ""
  | Val.strs xs => Val.strs (xs.map fun _ => "")
  | Val.seq xs => Val.seq (skeletonList xs)
  | Val.map kvs => Val.map (skeletonEntries kvs)
  | Val.ptr target => Val.ptr target.skeleton
  | Val.struct fields => Val.struct (skeletonEntries fields)
  | v => v
/-- The skeletons of the elements of a sequence. -/
def skeletonList : List Val → List Val
  | [] => []
  | x :: xs => x.skeleton :: skeletonList xs
/-- The skeletons of the values of a mapping, under their keys. -/
def skeletonEntries : List (String × Val) → List (String × Val)
  | [] => []
  | (k, v) :: kvs => (k, v.skeleton) :: skeletonEntries kvs
end

mutual
/-- The depth of nesting of containers in a value. -/
def Val.depth : Val → Nat
  | Val.seq xs => depthList xs + 1
  | Val.map kvs => depthEntries kvs + 1
  | Val.ptr target => target.depth + 1
  | Val.struct fields => depthEntries fields + 1
  | _ => 0
/-- The largest depth of an element of a sequence. -/
def depthList : List Val → Nat
  | [] => 0
  | x :: xs => max x.depth (depthList xs)
/-- The largest depth of a value of a mapping. -/
def depthEntries : List (String × Val) → Nat
  | [] => 0
  | (_, v) :: kvs => max v.depth (depthEntries kvs)
end

mutual
/-- A nesting of `map[string]interface{}`, `[]interface{}` and `[]string` all of whose
leaves are strings. -/
def Val.isStringTree : Val → Bool
  | Val.strs _ => true
  | Val.seq xs => allStringElems xs
  | Val.map kvs => allStringEntries kvs
  | _ => false
/-- Every element of the sequence is a string or a nesting with string leaves. -/
def allStringElems : List Val → Bool
  | [] => true
  | Val.str _ :: xs => allStringElems xs
  | x :: xs => x.isStringTree && allStringElems xs
/-- Every value of the mapping is a string or a nesting with string leaves. -/
def allStringEntries : List (String × Val) → Bool
  | [] => true
  | (_, Val.str _) :: kvs => allStringEntries kvs
  | (_, v) :: kvs => v.isStringTree && allStringEntries kvs
end

/-- The substitution of the leaves in traversal order, in the words of the spec: each leaf
`s` is replaced by `f s`, up to the first leaf on which `f` fails; that leaf and the
leaves after it stay, and the error is the result. -/
def substLeaves (f : String → Except String String) : List String → List String × Status
  | [] => ([], Status.ok)
  | s :: rest =>
    match f s with
    | Except.error e => (s :: rest, Status.error e)
    | Except.ok t => (t :: (substLeaves f rest).1, (substLeaves f rest).2)

/-! ### Example data for the marker scanner -/

/-- A substitution that puts every string in brackets. -/
def exProc : Val → Unit Nat → Except String Val
  | Val.str s, _ => Except.ok (Val.str ("<" ++ s ++ ">"))
  | v, _ => Except.ok v

/-- A substitution that fails on the string `bad`. -/
def exProcFailing : Val → Unit Nat → Except String Val
  | Val.str s, _ =>
    if s = "bad" then Except.error "unknown marker" else Except.ok (Val.str ("<" ++ s ++ ">"))
  | v, _ => Except.ok v

/-- The inputs `{name: vpc, tags: [a, b], zones: {list: [x]}}`. -/
def exInputs : Val :=
  Val.map [("name", Val.str "vpc"), ("tags", Val.seq [Val.str "a", Val.str "b"]),
    ("zones", Val.map [("list", Val.strs ["x"])])]

/-- The inputs `{name: vpc, count: 3}`, a string next to a number. -/
def exMixedInputs : Val := Val.map [("name", Val.str "vpc"), ("count", Val.int 3)]

/-- The sequence `[a, bad, c]`. -/
def exFailingInputs : Val := Val.strs ["a", "bad", "c"]

/-! ## Locking and persisted state (`pkg/project/state.go`) -/

namespace State

/-- The file system as explicit state: the content of every file that exists.  Reading
succeeds exactly on the files that exist; writing and removing an existing file succeed. -/
abbrev Files := String → Option String

/-- `ioutil.WriteFile(name, content, perm)`. -/
def Files.write (fs : Files) (name content : String) : Files :=
  fun n => if n = name then some content else fs n

/-- `os.Remove(name)` on a file that exists. -/
def Files.remove (fs : Files) (name : String) : Files :=
  fun n => if n = name then none else fs n

/-- The values of `config.Global` that the state functions read. -/
structure Config where
  Version : String
  StateLocalFileName : String
  StateLocalLockFile : String

/-- The methods of the `Backend` interface that the state functions call, by their
results (the storage of a backend is external): the error of `LockState()`, of
`UnlockState()` and of `WriteState(blob)`; `none` is `nil`. -/
structure Backend where
  LockState : Option String
  UnlockState : Option String
  WriteState : String → Option String

/-- The fields of `Project` that the state functions read.  `U` is the type of the units,
`V` the type of the marker values. -/
structure Project (U V : Type) where
  StateBackendName : String
  Backends : String → Option Backend
  Markers : String → Option V
  Units : String → Option U

/-- `(p *Project) LockState()`: the file system after the call and the returned error. -/
def LockState {U V : Type} (cfg : Config) (p : Project U V) (fs : Files) :
    Files × Option String :=
  if p.StateBackendName ≠ "" then
    match p.Backends p.StateBackendName with
    | none =>
      (fs, some ("lock state: state backend '" ++ p.StateBackendName ++ "' does not found"))
    | some sBk => (fs, sBk.LockState)
  else
    match fs cfg.StateLocalLockFile with
    | some _ => (fs, some "state is locked by another process")
    | none => (fs.write cfg.StateLocalLockFile "", none)

/-- `(p *Project) UnLockState()`: the file system after the call and the returned error
(`os.Remove` fails on a file that does not exist). -/
def UnLockState {U V : Type} (cfg : Config) (p : Project U V) (fs : Files) :
    Files × Option String :=
  if p.StateBackendName ≠ "" then
    match p.Backends p.StateBackendName with
    | none =>
      (fs, some ("lock state: state backend '" ++ p.StateBackendName ++ "' does not found"))
    | some sBk => (fs, sBk.UnlockState)
  else
    match fs cfg.StateLocalLockFile with
    | some _ => (fs.remove cfg.StateLocalLockFile, none)
    | none => (fs, some ("remove " ++ cfg.StateLocalLockFile ++ ": no such file or directory"))

/-- The struct `stateData`, the document that `SaveState` encodes.  `S` is the type of
the state payloads of the units (`GetState() interface{}`). -/
structure stateData (V S : Type) where
  CdevVersion : String
  Markers : String → Option V
  Units : String → Option S

/-- The value `st` that `SaveState` builds: the version, the markers table of the
project, and under every key of `p.Units` the state of that unit. -/
def SaveState.st {U V S : Type} (cfg : Config) (GetState : U → S) (p : Project U V) :
    stateData V S :=
  { CdevVersion := cfg.Version
    Markers := p.Markers
    Units := fun key => (p.Units key).map GetState }

/-- `(p *Project) SaveState()`: the file system after the call and the returned error.
`Encode` is the JSON encoder applied to the document. -/
def SaveState {U V S : Type} (cfg : Config) (GetState : U → S)
    (Encode : stateData V S → Except String String) (p : Project U V) (fs : Files) :
    Files × Option String :=
  match Encode (SaveState.st cfg GetState p) with
  | Except.error e => (fs, some ("saving project state: " ++ e))
  | Except.ok buffer =>
    if p.StateBackendName ≠ "" then
      match p.Backends p.StateBackendName with
      | none =>
        (fs, some ("lock state: state backend '" ++ p.StateBackendName ++ "' does not found"))
      | some sBk => (fs, sBk.WriteState buffer)
    else (fs.write cfg.StateLocalFileName buffer, none)

/-! ### The keys of the encoded document -/

/-- The loop of `reflect.StructTag.Lookup` that scans the name of a pair: it stops at a
space, a colon, a quote or a control character.  The name and the rest of the tag. -/
def tagName : List Char → List Char × List Char
  | [] => ([], [])
  | c :: cs =>
    if c.toNat > 32 ∧ c ≠ ':' ∧ c ≠ '"' ∧ c.toNat ≠ 127 then
      ((c :: (tagName cs).1), (tagName cs).2)
    else ([], c :: cs)

/-- The loop of `reflect.StructTag.Lookup` that scans a quoted value after its opening
quote: the characters up to the closing quote (a backslash takes the next character with
it) and the rest of the tag after the closing quote; `none` when the quote is not closed. -/
def tagValue : List Char → Option (List Char × List Char)
  | [] => none
  | '"' :: rest => some ([], rest)
  | '\\' :: c :: rest => (tagValue rest).map fun r => ('\\' :: c :: r.1, r.2)
  | c :: rest => (tagValue rest).map fun r => (c :: r.1, r.2)

/-- `reflect.StructTag.Lookup(key)` on the conventional format `name:"value"`, pairs
separated by spaces; the fuel bounds the number of pairs.  A pair that is not in this
format ends the search.  Values with escape sequences are not unquoted (result `none`). -/
def tagLookup (key : List Char) : Nat → List Char → Option (List Char)
  | 0, _ => none
  | fuel + 1, tag =>
    let tag := tag.dropWhile (fun c => c = ' ')
    match tagName tag with
    | ([], _) => none
    | (name, ':' :: '"' :: rest) =>
      match tagValue rest with
      | none => none
      | some (value, tag') =>
        if name = key then (if '\\' ∈ value then none else some value)
        else tagLookup key fuel tag'
    | _ => none

/-- `StructTag.Get(key)`: the value of `Lookup`, or the empty string. -/
def tagGet (tag key : String) : String :=
  match tagLookup key.data (tag.length + 1) tag.data with
  | some v => String.mk v
  | none => ""

/-- The characters that `encoding/json` accepts in a key given by a tag (`isValidTag`):
the listed punctuation, and every character on which `unicode.IsLetter` or
`unicode.IsDigit` holds.  On ASCII these are the letters and digits of `[a-zA-Z0-9]`;
beyond ASCII the tables of the package `unicode` are the parameter
`unicodeLetterOrDigit`. -/
def isValidTagChar (unicodeLetterOrDigit : Char → Bool) (c : Char) : Bool :=
  "!#$%&()*+-./:;<=>?@[]^_\x7b|\x7d~ ".data.contains c ||
    (if c.toNat < 128 then c.isAlphanum else unicodeLetterOrDigit c)

/-- The key under which `encoding/json` encodes an exported struct field with the given
name and tag: the part of the `json` tag before the first comma when it is a valid key,
the name of the field otherwise; `none` when the tag is `-` (field left out). -/
def jsonKey (unicodeLetterOrDigit : Char → Bool) (fieldName tag : String) : Option String :=
  let t := tagGet tag "json"
  if t = "-" then none
  else
    let name := String.mk (t.data.takeWhile (fun c => c ≠ ','))
    if name ≠ "" ∧ name.data.all (isValidTagChar unicodeLetterOrDigit) then some name
    else some fieldName

/-- The fields of the struct `stateData` with their tags, as written in the source. -/
def stateDataFields : List (String × String) :=
  [("CdevVersion", "json:version"), ("Markers", "json:\"markers\""),
    ("Units", "json:\"units\"")]

/-- The top-level keys of the JSON document encoded from a `stateData`. -/
def stateDataKeys (unicodeLetterOrDigit : Char → Bool) : List String :=
  stateDataFields.filterMap fun ft => jsonKey unicodeLetterOrDigit ft.1 ft.2

end State

/-! ## The apply command (`pkg/cmd/cdev/apply.go`) -/

namespace Cmd

/-- The function `RunE` of `applyCmd`.  `loadErr` is the error of
`project.LoadProjectFull()`; `Apply` and `PrintOutputs` are the project methods of these
names, which are not among the embedded sources: they act on the file system and return
an error.  `NewCmdErr(project, "apply", err)` is taken to carry `err`.  The result is the
file system after the command, the project methods called on the way (in order), and the
error carried by the returned value. -/
def applyRunE {U V : Type} (cfg : State.Config) (p : State.Project U V)
    (loadErr : Option String) (Apply PrintOutputs : State.Files → State.Files × Option String)
    (fs : State.Files) : State.Files × List String × Option String :=
  match loadErr with
  | some err => (fs, [], some err)
  | none =>
    match State.LockState cfg p fs with
    | (fs₁, some err) => (fs₁, ["LockState"], some err)
    | (fs₁, none) =>
      match Apply fs₁ with
      | (fs₂, some err) => (fs₂, ["LockState", "Apply"], some err)
      | (fs₂, none) =>
        match PrintOutputs fs₂ with
        | (fs₃, some err) => (fs₃, ["LockState", "Apply", "PrintOutputs"], some err)
        | (fs₃, none) =>
          ((State.UnLockState cfg p fs₃).1,
            ["LockState", "Apply", "PrintOutputs", "UnLockState"], none)

end Cmd

/-! ### Example data for the state functions -/

/-- The local state file and lock file. -/
def exConfig : State.Config :=
  { Version := "v0.4.0", StateLocalFileName := "cdev.state", StateLocalLockFile := "cdev.lock" }

/-- A project that keeps its state in local files and has one unit `net.vpc`. -/
def exStateProject : State.Project Nat String :=
  { StateBackendName := ""
    Backends := fun _ => none
    Markers := fun k => if k = "h1" then some "net.vpc.id" else none
    Units := fun k => if k = "net.vpc" then some 7 else none }

/-- A file system without files. -/
def exNoFiles : State.Files := fun _ => none

/-- An `Apply` that fails and does not touch the files. -/
def exFailingApply : State.Files → State.Files × Option String :=
  fun fs => (fs, some "terraform apply failed")

/-- An operation that succeeds and does not touch the files. -/
def exSucceeding : State.Files → State.Files × Option String := fun fs => (fs, none)

/-! ## Infrastructure objects (`pkg/project/infrastructure.go`) -/

namespace Infra

/-- The functions of other packages that `ReadTemplates` and `tmplWithMissingKey` call:
`config.Global.WorkingDir`, `utils.IsLocalPath`, `utils.IsAbsolutePath`, `utils.IsDir`,
`filepath.Join`, `filepath.Glob`, `ioutil.ReadFile`, the execution of a `text/template`
on the configuration data with the given `missingkey` option (its output and its error),
and `NewInfraTemplate`.  `T` is the type `InfraTemplate`. -/
structure TemplateEnv (T : Type) where
  WorkingDir : String
  IsLocalPath : String → Bool
  IsAbsolutePath : String → Bool
  IsDir : String → Except String Bool
  Join : String → String → String
  Glob : String → Except String (List String)
  ReadFile : String → Except String String
  Execute : (String → Option Val) → String → String → String × Option String
  NewInfraTemplate : String → Except String T

/-- The struct `Infrastructure` without its back reference to the project and its unused
field `Template`.  `B` is the type of the backends; `Backend = none` is `nil`. -/
structure Infrastructure (B T : Type) where
  Backend : Option B
  Name : String
  BackendName : String
  TemplateSrc : String
  TemplateDir : String
  Templates : List T
  Variables : List (String × Val)
  ConfigData : String → Option Val

/-- The fields of `Project` that `readInfrastructureObj` reads and writes. -/
structure Project (B T : Type) where
  Infrastructures : String → Option (Infrastructure B T)
  Backends : String → Option B
  configData : String → Option Val

/-- `(i *Infrastructure) tmplWithMissingKey(data, missingKey)`. -/
def tmplWithMissingKey {B T : Type} (env : TemplateEnv T) (i : Infrastructure B T)
    (data missingKey : String) : String × Option String :=
  env.Execute i.ConfigData data ("missingkey=" ++ missingKey)

/-- `(i *Infrastructure) TemplateTry(data)`: the result, the warning flag and the error. -/
def TemplateTry {B T : Type} (env : TemplateEnv T) (i : Infrastructure B T) (data : String) :
    String × Bool × Option String :=
  match tmplWithMissingKey env i data "default" with
  | (res, some err) => (res, false, some err)
  | (res, none) =>
    let missingKeysErr := (tmplWithMissingKey env i data "error").2
    (res, missingKeysErr.isSome, missingKeysErr)

/-- The loop of `ReadTemplates` over the template files: the templates read so far and
how the loop ends.  A template that cannot be executed ends the process (`log.Fatal`). -/
def readTemplateFiles {B T : Type} (env : TemplateEnv T) (i : Infrastructure B T) :
    List String → List T × Status
  | [] => ([], Status.ok)
  | fn :: rest =>
    match env.ReadFile fn with
    | Except.error err => ([], Status.error err)
    | Except.ok tmplData =>
      match TemplateTry env i tmplData with
      | (_, false, some _) => ([], Status.fatal)
      | (template, _, _) =>
        match env.NewInfraTemplate template with
        | Except.error err => ([], Status.error err)
        | Except.ok infraTemplate =>
          (infraTemplate :: (readTemplateFiles env i rest).1, (readTemplateFiles env i rest).2)

/-- `(i *Infrastructure) ReadTemplates(src)`: the infrastructure after the call and how
the call ends. -/
def ReadTemplates {B T : Type} (env : TemplateEnv T) (i : Infrastructure B T) (src : String) :
    Infrastructure B T × Status :=
  let templatesDir :=
    if env.IsLocalPath src then
      (if env.IsAbsolutePath src then src else env.Join env.WorkingDir src)
    else ""
  let checked : Infrastructure B T × Status :=
    if env.IsLocalPath src then
      match env.IsDir templatesDir with
      | Except.error err => (i, Status.error err)
      | Except.ok false => (i, Status.error "reading templates: local source should be a dir")
      | Except.ok true => ({ i with TemplateDir := templatesDir }, Status.ok)
    else (i, Status.ok)
  match checked with
  | (i₁, Status.ok) =>
    match env.Glob (templatesDir ++ "/*.yaml") with
    | Except.error err => (i₁, Status.error err)
    | Except.ok templatesFilesList =>
      match readTemplateFiles env i₁ templatesFilesList with
      | (ts, Status.ok) => ({ i₁ with Templates := ts, TemplateSrc := src }, Status.ok)
      | (ts, st) => ({ i₁ with Templates := ts }, st)
  | (i₁, st) => (i₁, st)

/-- `(p *Project) readInfrastructureObj(infraSpec)` on the mapping `data` of the object:
the project after the call and how the call ends. -/
def readInfrastructureObj {B T : Type} (env : TemplateEnv T) (p : Project B T)
    (data : String → Option Val) : Project B T × Status :=
  match data "name" with
  | some (Val.str name) =>
    if (p.Infrastructures name).isSome then
      (p, Status.error ("Duplicate infrastructure name '" ++ name ++ "'"))
    else
      let data : String → Option Val := fun k =>
        if k = "secret" then some ((p.configData "secret").getD Val.nil) else data k
      let infra : Infrastructure B T :=
        { Backend := none, Name := "", BackendName := "", TemplateSrc := "", TemplateDir := "",
          Templates := [], Variables := [], ConfigData := data }
      match data "template" with
      | some (Val.str tmplSource) =>
        match data "variables" with
        | some (Val.map vars) =>
          match ReadTemplates env { infra with Variables := vars } tmplSource with
          | (infra, Status.ok) =>
            match data "backend" with
            | some (Val.str backendName) =>
              match p.Backends backendName with
              | none =>
                (p, Status.error ("Backend '" ++ backendName ++ "' not found, infra: '" ++
                  infra.Name ++ "'"))
              | some bPtr =>
                ({ p with
                    Infrastructures := fun k =>
                      if k = name then
                        some { infra with
                          BackendName := backendName, Backend := some bPtr, Name := name }
                      else p.Infrastructures k },
                  Status.ok)
            | _ => (p, Status.error "infrastructure object must contain field 'backend'")
          | (_, st) => (p, st)
        | _ => (p, Status.error "infrastructure object must contain field 'variables'")
      | _ => (p, Status.error "infrastructure object must contain field 'template'")
  | _ => (p, Status.error "infrastructure object must contain field 'name'")

/-! ### Example data for infrastructure objects -/

/-- A template directory `tmpl` with the single file `tmpl/main.yaml`, whose template
cannot be parsed. -/
def exBrokenTemplates : TemplateEnv String :=
  { WorkingDir := "/work"
    IsLocalPath := fun _ => true
    IsAbsolutePath := fun _ => false
    IsDir := fun _ => Except.ok true
    Join := fun a b => a ++ "/" ++ b
    Glob := fun _ => Except.ok ["/work/tmpl/main.yaml"]
    ReadFile := fun _ => Except.ok "name: \x7b\x7b .name"
    Execute := fun _ _ _ => ("", some "template: main:1: unclosed action")
    NewInfraTemplate := fun s => Except.ok s }

/-- The same directory with a template that parses and refers to no missing key. -/
def exGoodTemplates : TemplateEnv String :=
  { exBrokenTemplates with
    ReadFile := fun _ => Except.ok "name: vpc"
    Execute := fun _ data _ => (data, none) }

/-- A project with the backend `s3` (object 1) and no infrastructure. -/
def exInfraProject : Project Nat String :=
  { Infrastructures := fun _ => none
    Backends := fun k => if k = "s3" then some 1 else none
    configData := fun _ => none }

/-- An infrastructure object that names the unknown backend `gcs`. -/
def exInfraObj : String → Option Val := fun k =>
  if k = "name" then some (Val.str "net")
  else if k = "template" then some (Val.str "tmpl")
  else if k = "variables" then some (Val.map [])
  else if k = "backend" then some (Val.str "gcs")
  else none

/-- An infrastructure object that names the backend `s3`. -/
def exGoodInfraObj : String → Option Val := fun k =>
  if k = "backend" then some (Val.str "s3") else exInfraObj k

end Infra

/-! ## Changes of the state registry (`UpdateUnit`, `DeleteUnit` in `pkg/project/state.go`) -/

/-- `(sp *StateProject) UpdateUnit(mod)`: the state project after the call. -/
def StateProject.UpdateUnit {D : Type} (sp : StateProject D) (mod : Unit D) : StateProject D :=
  { Units := fun k => if k = mod.Key then some mod else sp.Units k
    ChangedUnits := fun k => if k = mod.Key then some mod else sp.ChangedUnits k }

/-- `(sp *StateProject) DeleteUnit(mod)`: the state project after the call. -/
def StateProject.DeleteUnit {D : Type} (sp : StateProject D) (mod : Unit D) : StateProject D :=
  { sp with Units := fun k => if k = mod.Key then none else sp.Units k }

/-- A call of `UpdateUnit` or of `DeleteUnit`. -/
inductive StateCall (D : Type) where
  | update (mod : Unit D)
  | delete (mod : Unit D)

/-- The state project after one call. -/
def StateProject.call {D : Type} (sp : StateProject D) : StateCall D → StateProject D
  | StateCall.update mod => sp.UpdateUnit mod
  | StateCall.delete mod => sp.DeleteUnit mod

/-- The state project after a sequence of calls. -/
def StateProject.calls {D : Type} (sp : StateProject D) (cs : List (StateCall D)) :
    StateProject D :=
  cs.foldl StateProject.call sp

/-- Every key of `ChangedUnits` is a key of `Units`. -/
def ChangedWithinUnits {D : Type} (sp : StateProject D) : Prop :=
  ∀ k, (sp.ChangedUnits k).isSome = true → (sp.Units k).isSome = true

/-- No call of `DeleteUnit` in the sequence deletes a unit whose key is, at the time of
the call, a key of `ChangedUnits`. -/
def DeletesUnchanged {D : Type} : StateProject D → List (StateCall D) → Prop
  | _, [] => True
  | sp, StateCall.update mod :: cs => DeletesUnchanged (sp.UpdateUnit mod) cs
  | sp, StateCall.delete mod :: cs =>
    sp.ChangedUnits mod.Key = none ∧ DeletesUnchanged (sp.DeleteUnit mod) cs

/-! ### Further example projects for the reconciler -/

/-- A persisted state that agrees with the live units `net.subnet`, `net.vpc` and
`net.dns`, in a run in which the unit with the given key has been changed. -/
def exChangedState (changed : String) : StateProject Nat where
  Units := fun k =>
    if k = "net.subnet" then
      some { Key := "net.subnet", GetDiffData := 1, WasApplied := false, RequiredUnits := [] }
    else if k = "net.vpc" then
      some { Key := "net.vpc", GetDiffData := 2, WasApplied := false, RequiredUnits := [] }
    else if k = "net.dns" then
      some { Key := "net.dns", GetDiffData := 3, WasApplied := false, RequiredUnits := [] }
    else none
  ChangedUnits := fun k =>
    if k = changed then
      some { Key := changed, GetDiffData := 0, WasApplied := false, RequiredUnits := [] }
    else none

/-- The chain `net.subnet` (reference 0) requires `net.vpc` (reference 1), which requires
`net.dns` (every other reference). -/
def chainHeap : Nat → Unit Nat
  | 0 => { Key := "net.subnet", GetDiffData := 1, WasApplied := false, RequiredUnits := [1] }
  | 1 => { Key := "net.vpc", GetDiffData := 2, WasApplied := false, RequiredUnits := [2] }
  | _ => { Key := "net.dns", GetDiffData := 3, WasApplied := false, RequiredUnits := [] }

/-- The chain with a cycle: `net.vpc` requires itself and then `net.dns`. -/
def cycleHeap : Nat → Unit Nat
  | 0 => { Key := "net.subnet", GetDiffData := 1, WasApplied := false, RequiredUnits := [1] }
  | 1 => { Key := "net.vpc", GetDiffData := 2, WasApplied := false, RequiredUnits := [1, 2] }
  | _ => { Key := "net.dns", GetDiffData := 3, WasApplied := false, RequiredUnits := [] }

/-- A graph with a shared ancestor: unit 0 requires the units 1 and 2, which both
require unit 3 (held by every other reference). -/
def diamondHeap : Nat → Unit Nat
  | 0 => { Key := "net.app", GetDiffData := 0, WasApplied := false, RequiredUnits := [1, 2] }
  | 1 => { Key := "net.subnet", GetDiffData := 1, WasApplied := false, RequiredUnits := [3] }
  | 2 => { Key := "net.vpc", GetDiffData := 2, WasApplied := false, RequiredUnits := [3] }
  | _ => { Key := "net.dns", GetDiffData := 3, WasApplied := false, RequiredUnits := [] }

/-! ## Variable names (`ConvertToTfVarName` in `pkg/project/helpers.go`) -/

/-- `regexp.MustCompile("[^a-zA-Z0-9]+").ReplaceAllString(s, "_")` on the characters of
`s`: every maximal run of characters outside `[a-zA-Z0-9]` becomes one underscore.
`inRun` tells that the character before belonged to such a run. -/
def replaceRuns (inRun : Bool) : List Char → List Char
  | [] => []
  | c :: cs =>
    if c.isAlphanum then c :: replaceRuns false cs
    else if inRun then replaceRuns true cs
    else '_' :: replaceRuns true cs

/-- `ConvertToTfVarName(name)`.  `strings.ToLower` is applied to a string of ASCII
letters, digits and underscores, on which it is the lower-casing of the ASCII letters. -/
def ConvertToTfVarName (name : String) : String :=
  let processedString := replaceRuns false name.data
  String.mk (processedString.map Char.toLower)

/-- A normalised name: letters and digits that lower-casing does not change, and
underscores, none right after an underscore; `afterUnderscore` tells that the character
before was one. -/
def Normalised : Bool → List Char → Prop
  | _, [] => True
  | afterUnderscore, c :: cs =>
    (c.isAlphanum = true ∧ c.toLower = c ∧ Normalised false cs) ∨
    (c = '_' ∧ afterUnderscore = false ∧ Normalised true cs)

/-! ## Markers in hooks (`ReplaceMarkersCommon` in
`pkg/modules/terraform/common/module.go`) -/

namespace Common

/-- The call `project.ScanMarkers(&hook.Command, m.RemoteStatesScanner, inheritedModule)`:
the hook after the call and how the call ends.  The data is a pointer to the string. -/
def scanHookCommand {Mod : Type} (RemoteStatesScanner : Val → Mod → Except String Val)
    (inheritedModule : Mod) (fuel : Nat) (hook : hookSpec) : Option (hookSpec × Status) :=
  match ScanMarkers RemoteStatesScanner inheritedModule fuel (Val.ptr (Val.str hook.Command)) with
  | none => none
  | some (Val.ptr (Val.str command), st) => some ({ hook with Command := command }, st)
  | some (_, st) => some (hook, st)

/-- `(m *Module) ReplaceMarkersCommon(inheritedModule)`: the hooks after the call and how
the call ends; the fuel is the recursion bound of `ScanMarkers`. -/
def ReplaceMarkersCommon {Mod : Type} (RemoteStatesScanner : Val → Mod → Except String Val)
    (inheritedModule : Mod) (fuel : Nat) (m : ModuleHooks) : Option (ModuleHooks × Status) :=
  let afterPre : Option (ModuleHooks × Status) :=
    match m.preHook with
    | none => some (m, Status.ok)
    | some hook =>
      (scanHookCommand RemoteStatesScanner inheritedModule fuel hook).map
        fun r => ({ m with preHook := some r.1 }, r.2)
  match afterPre with
  | none => none
  | some (m₁, Status.ok) =>
    match m₁.postHook with
    | none => some (m₁, Status.ok)
    | some hook =>
      (scanHookCommand RemoteStatesScanner inheritedModule fuel hook).map
        fun r => ({ m₁ with postHook := some r.1 }, r.2)
  | some (m₁, st) => some (m₁, st)

/-- A module without hooks. -/
def exNoHooks : ModuleHooks := { preHook := none, postHook := none }

end Common

end Cdev

namespace Cdev

/-! ## Lemmas on the dirtiness check -/

theorem requiredLoopRec_mono {D : Type} (heap : Nat → Unit D) (sp : StateProject D)
    (f g : Unit D → Option Bool) (hfg : ∀ u b, f u = some b → g u = some b) :
    ∀ (rs : List Nat) (b : Bool),
      requiredLoopRec heap sp f rs = some b → requiredLoopRec heap sp g rs = some b := by
  intro rs
  induction rs with
  | nil => intro b h; simpa [requiredLoopRec] using h
  | cons r rs ih =>
    intro b h
    by_cases hc : (sp.ChangedUnits (heap r).Key).isSome = true
    · simpa [requiredLoopRec, hc] using h
    · cases hf : f (heap r) with
      | none => simp [requiredLoopRec, hc, hf] at h
      | some v =>
        have hg := hfg _ _ hf
        cases v with
        | true => simpa [requiredLoopRec, hc, hf, hg] using h
        | false =>
          simp only [requiredLoopRec, hc, hf, hg] at h ⊢
          exact ih b h

theorem requiredLoop_mono {D : Type} (heap : Nat → Unit D)
    (f g : Unit D → Option Bool) (hfg : ∀ u b, f u = some b → g u = some b) :
    ∀ (rs : List Nat) (b : Bool),
      requiredLoop heap f rs = some b → requiredLoop heap g rs = some b := by
  intro rs
  induction rs with
  | nil => intro b h; simpa [requiredLoop] using h
  | cons r rs ih =>
    intro b h
    cases hf : f (heap r) with
    | none => simp [requiredLoop, hf] at h
    | some v =>
      have hg := hfg _ _ hf
      cases v with
      | true => simpa [requiredLoop, hf, hg] using h
      | false =>
        simp only [requiredLoop, hf, hg] at h ⊢
        exact ih b h

/-- More fuel does not change a result of `checkUnitChangesRecursive`. -/
theorem checkUnitChangesRecursive_succ {D : Type} (ut : Utils D) (heap : Nat → Unit D)
    (sp : StateProject D) :
    ∀ (fuel : Nat) (u : Unit D) (b : Bool),
      checkUnitChangesRecursive ut heap sp fuel u = some b →
      checkUnitChangesRecursive ut heap sp (fuel + 1) u = some b := by
  intro fuel
  induction fuel with
  | zero => intro u b h; simp [checkUnitChangesRecursive] at h
  | succ n ih =>
    intro u b h
    rw [checkUnitChangesRecursive] at h ⊢
    by_cases ha : u.WasApplied = true
    · simpa [ha] using h
    · cases hs : sp.Units u.Key with
      | none => simpa [ha, hs] using h
      | some st =>
        by_cases hd : (ut.Diff (some st.GetDiffData) u.GetDiffData true).length > 0
        · simpa [ha, hs, hd] using h
        · simp only [ha, hs, hd, if_false] at h ⊢
          exact requiredLoopRec_mono heap sp _ _ ih _ _ h

theorem checkUnitChangesRecursive_mono {D : Type} (ut : Utils D) (heap : Nat → Unit D)
    (sp : StateProject D) (fuel fuel' : Nat) (hle : fuel ≤ fuel') (u : Unit D) (b : Bool)
    (h : checkUnitChangesRecursive ut heap sp fuel u = some b) :
    checkUnitChangesRecursive ut heap sp fuel' u = some b := by
  induction hle with
  | refl => exact h
  | step _ ih => exact checkUnitChangesRecursive_succ ut heap sp _ u b ih

/-- More fuel does not change a result of `CheckUnitChanges`. -/
theorem CheckUnitChanges_mono {D : Type} (ut : Utils D) (heap : Nat → Unit D)
    (sp : StateProject D) (fuel fuel' : Nat) (hle : fuel ≤ fuel') (u : Unit D)
    (res : String × Option (Unit D))
    (h : CheckUnitChanges ut heap sp fuel u = some res) :
    CheckUnitChanges ut heap sp fuel' u = some res := by
  unfold CheckUnitChanges at h ⊢
  cases hs : sp.Units u.Key with
  | none => simpa [hs] using h
  | some st =>
    by_cases hd : (ut.Diff (some st.GetDiffData) u.GetDiffData true).length > 0
    · simpa [hs, hd] using h
    · simp only [hs, hd, if_false] at h ⊢
      cases hl : requiredLoop heap (checkUnitChangesRecursive ut heap sp fuel) u.RequiredUnits with
      | none => simp [hl] at h
      | some v =>
        have hl' := requiredLoop_mono heap _ _
          (fun u b hb => checkUnitChangesRecursive_mono ut heap sp fuel fuel' hle u b hb) _ _ hl
        rw [hl] at h
        rw [hl']
        exact h

/-- A unit that requires something reaches one of its required units or the target itself. -/
theorem Reach_cases {D : Type} (heap : Nat → Unit D) (a b : Nat) (h : Reach heap a b) :
    ∃ r, r ∈ (heap a).RequiredUnits ∧ (r = b ∨ Reach heap r b) := by
  cases h with
  | step hm => exact ⟨b, hm, Or.inl rfl⟩
  | more hm hr => exact ⟨_, hm, Or.inr hr⟩

theorem requiredLoopRec_total {D : Type} (heap : Nat → Unit D) (sp : StateProject D)
    (f : Unit D → Option Bool) :
    ∀ rs : List Nat, (∀ r ∈ rs, ∃ b, f (heap r) = some b) →
      ∃ b, requiredLoopRec heap sp f rs = some b := by
  intro rs
  induction rs with
  | nil => intro _; exact ⟨false, rfl⟩
  | cons r rs ih =>
    intro h
    by_cases hc : (sp.ChangedUnits (heap r).Key).isSome = true
    · exact ⟨true, by simp [requiredLoopRec, hc]⟩
    · obtain ⟨v, hv⟩ := h r (List.mem_cons_self _ _)
      cases v with
      | true => exact ⟨true, by simp [requiredLoopRec, hc, hv]⟩
      | false =>
        obtain ⟨b, hb⟩ := ih (fun x hx => h x (List.mem_cons_of_mem _ hx))
        exact ⟨b, by simp only [requiredLoopRec, hc, hv]; exact hb⟩

theorem requiredLoopRec_true {D : Type} (heap : Nat → Unit D) (sp : StateProject D)
    (f : Unit D → Option Bool) :
    ∀ rs : List Nat, (∀ r ∈ rs, ∃ b, f (heap r) = some b) →
      (∃ r ∈ rs, f (heap r) = some true) →
      requiredLoopRec heap sp f rs = some true := by
  intro rs
  induction rs with
  | nil => intro _ h; obtain ⟨r, hr, _⟩ := h; cases hr
  | cons r rs ih =>
    intro h hex
    by_cases hc : (sp.ChangedUnits (heap r).Key).isSome = true
    · simp [requiredLoopRec, hc]
    · obtain ⟨v, hv⟩ := h r (List.mem_cons_self _ _)
      cases v with
      | true => simp [requiredLoopRec, hc, hv]
      | false =>
        simp only [requiredLoopRec, hc, hv]
        apply ih (fun x hx => h x (List.mem_cons_of_mem _ hx))
        obtain ⟨x, hx, hxt⟩ := hex
        rcases List.mem_cons.mp hx with rfl | hx'
        · rw [hv] at hxt; cases hxt
        · exact ⟨x, hx', hxt⟩

theorem requiredLoopRec_false {D : Type} (heap : Nat → Unit D) (sp : StateProject D)
    (f : Unit D → Option Bool) :
    ∀ rs : List Nat,
      (∀ r ∈ rs, sp.ChangedUnits (heap r).Key = none ∧ f (heap r) = some false) →
      requiredLoopRec heap sp f rs = some false := by
  intro rs
  induction rs with
  | nil => intro _; rfl
  | cons r rs ih =>
    intro h
    obtain ⟨hc, hv⟩ := h r (List.mem_cons_self _ _)
    simp only [requiredLoopRec, hc, hv]
    exact ih (fun x hx => h x (List.mem_cons_of_mem _ hx))

theorem requiredLoop_true {D : Type} (heap : Nat → Unit D) (f : Unit D → Option Bool) :
    ∀ rs : List Nat, (∀ r ∈ rs, ∃ b, f (heap r) = some b) →
      (∃ r ∈ rs, f (heap r) = some true) →
      requiredLoop heap f rs = some true := by
  intro rs
  induction rs with
  | nil => intro _ h; obtain ⟨r, hr, _⟩ := h; cases hr
  | cons r rs ih =>
    intro h hex
    obtain ⟨v, hv⟩ := h r (List.mem_cons_self _ _)
    cases v with
    | true => simp [requiredLoop, hv]
    | false =>
      simp only [requiredLoop, hv]
      apply ih (fun x hx => h x (List.mem_cons_of_mem _ hx))
      obtain ⟨x, hx, hxt⟩ := hex
      rcases List.mem_cons.mp hx with rfl | hx'
      · rw [hv] at hxt; cases hxt
      · exact ⟨x, hx', hxt⟩

theorem requiredLoop_false {D : Type} (heap : Nat → Unit D) (f : Unit D → Option Bool) :
    ∀ rs : List Nat, (∀ r ∈ rs, f (heap r) = some false) →
      requiredLoop heap f rs = some false := by
  intro rs
  induction rs with
  | nil => intro _; rfl
  | cons r rs ih =>
    intro h
    have hv := h r (List.mem_cons_self _ _)
    simp only [requiredLoop, hv]
    exact ih (fun x hx => h x (List.mem_cons_of_mem _ hx))

/-- On a ranked (acyclic) graph the recursive check returns once the fuel exceeds the
rank of the unit. -/
theorem checkUnitChangesRecursive_total {D : Type} (ut : Utils D) (heap : Nat → Unit D)
    (sp : StateProject D) (rank : Nat → Nat)
    (hrank : ∀ i r, r ∈ (heap i).RequiredUnits → rank r < rank i) :
    ∀ (fuel r : Nat), rank r < fuel →
      ∃ b, checkUnitChangesRecursive ut heap sp fuel (heap r) = some b := by
  intro fuel
  induction fuel with
  | zero => intro r h; exact absurd h (Nat.not_lt_zero _)
  | succ n ih =>
    intro r hr
    rw [checkUnitChangesRecursive]
    by_cases ha : (heap r).WasApplied = true
    · exact ⟨true, by simp [ha]⟩
    · cases hs : sp.Units (heap r).Key with
      | none => exact ⟨true, by simp [ha]⟩
      | some st =>
        by_cases hd : (ut.Diff (some st.GetDiffData) (heap r).GetDiffData true).length > 0
        · exact ⟨true, by simp [ha, hd]⟩
        · simp only [ha, hd, if_false]
          apply requiredLoopRec_total
          intro x hx
          exact ih x (by have := hrank r x hx; omega)

/-- On a ranked (acyclic) graph the recursive check answers `true` on every unit that is
changed itself or reaches a changed unit. -/
theorem checkUnitChangesRecursive_dirty {D : Type} (ut : Utils D) (heap : Nat → Unit D)
    (sp : StateProject D) (rank : Nat → Nat)
    (hrank : ∀ i r, r ∈ (heap i).RequiredUnits → rank r < rank i)
    (b : Nat) (hB : Changed ut sp (heap b)) :
    ∀ (fuel r : Nat), rank r < fuel → (r = b ∨ Reach heap r b) →
      checkUnitChangesRecursive ut heap sp fuel (heap r) = some true := by
  intro fuel
  induction fuel with
  | zero => intro r h; exact absurd h (Nat.not_lt_zero _)
  | succ n ih =>
    intro r hr hreach
    rw [checkUnitChangesRecursive]
    by_cases ha : (heap r).WasApplied = true
    · simp [ha]
    · cases hs : sp.Units (heap r).Key with
      | none => simp [ha]
      | some st =>
        by_cases hd : (ut.Diff (some st.GetDiffData) (heap r).GetDiffData true).length > 0
        · simp [ha, hd]
        · simp only [ha, hd, if_false]
          have hne : Reach heap r b := by
            rcases hreach with rfl | h
            · exfalso
              rcases hB with h1 | h2
              · exact ha h1
              · rw [hs] at h2; exact hd h2
            · exact h
          obtain ⟨x, hx, hxb⟩ := Reach_cases heap r b hne
          have hlt : ∀ y ∈ (heap r).RequiredUnits, rank y < n := by
            intro y hy; have := hrank r y hy; omega
          apply requiredLoopRec_true
          · intro y hy
            exact checkUnitChangesRecursive_total ut heap sp rank hrank n y (hlt y hy)
          · exact ⟨x, hx, ih x (hlt x hx) hxb⟩

/-- On a ranked (acyclic) graph the recursive check answers `false` on a unit that is
clean together with everything it reaches. -/
theorem checkUnitChangesRecursive_clean {D : Type} (ut : Utils D) (heap : Nat → Unit D)
    (sp : StateProject D) (rank : Nat → Nat)
    (hrank : ∀ i r, r ∈ (heap i).RequiredUnits → rank r < rank i) :
    ∀ (fuel r : Nat), rank r < fuel → Clean ut sp (heap r) →
      (∀ x, Reach heap r x → Clean ut sp (heap x)) →
      checkUnitChangesRecursive ut heap sp fuel (heap r) = some false := by
  intro fuel
  induction fuel with
  | zero => intro r h; exact absurd h (Nat.not_lt_zero _)
  | succ n ih =>
    intro r hr hc hall
    obtain ⟨ha, _, st, hs, hd⟩ := hc
    rw [checkUnitChangesRecursive]
    simp only [ha, hs, hd]
    simp only [Bool.false_eq_true, if_false, gt_iff_lt, Nat.lt_irrefl]
    apply requiredLoopRec_false
    intro x hx
    have hcx := hall x (Reach.step hx)
    refine ⟨hcx.2.1, ih x (by have := hrank r x hx; omega) hcx ?_⟩
    intro y hy
    exact hall y (Reach.more hx hy)

theorem requiredLoop_total {D : Type} (heap : Nat → Unit D) (f : Unit D → Option Bool) :
    ∀ rs : List Nat, (∀ r ∈ rs, ∃ b, f (heap r) = some b) →
      ∃ b, requiredLoop heap f rs = some b := by
  intro rs
  induction rs with
  | nil => intro _; exact ⟨false, rfl⟩
  | cons r rs ih =>
    intro h
    obtain ⟨v, hv⟩ := h r (List.mem_cons_self _ _)
    cases v with
    | true => exact ⟨true, by simp [requiredLoop, hv]⟩
    | false =>
      obtain ⟨b, hb⟩ := ih (fun x hx => h x (List.mem_cons_of_mem _ hx))
      exact ⟨b, by simp only [requiredLoop, hv]; exact hb⟩

/-- On a ranked (acyclic) graph `CheckUnitChanges` returns on every live unit once the
fuel reaches the rank of the unit. -/
theorem CheckUnitChanges_total {D : Type} (ut : Utils D) (heap : Nat → Unit D)
    (sp : StateProject D) (rank : Nat → Nat)
    (hrank : ∀ i r, r ∈ (heap i).RequiredUnits → rank r < rank i) (r : Nat) :
    ∃ res, ∀ fuel, rank r ≤ fuel → CheckUnitChanges ut heap sp fuel (heap r) = some res := by
  have h0 : ∃ res, CheckUnitChanges ut heap sp (rank r) (heap r) = some res := by
    unfold CheckUnitChanges
    cases hs : sp.Units (heap r).Key with
    | none => exact ⟨_, rfl⟩
    | some st =>
      by_cases hd : (ut.Diff (some st.GetDiffData) (heap r).GetDiffData true).length > 0
      · exact ⟨(ut.Diff (some st.GetDiffData) (heap r).GetDiffData true, some st), by simp [hd]⟩
      · simp only [hd, if_false]
        obtain ⟨b, hb⟩ := requiredLoop_total heap
          (checkUnitChangesRecursive ut heap sp (rank r)) (heap r).RequiredUnits
          (fun x hx => checkUnitChangesRecursive_total ut heap sp rank hrank _ x (hrank r x hx))
        rw [hb]
        cases b with
        | true => exact ⟨_, rfl⟩
        | false => exact ⟨_, rfl⟩
  obtain ⟨res, hres⟩ := h0
  exact ⟨res, fun fuel hle => CheckUnitChanges_mono ut heap sp _ fuel hle _ res hres⟩

/-- A unit reaches what the units it reaches reach. -/
theorem Reach_trans {D : Type} (heap : Nat → Unit D) {a b c : Nat} (hab : Reach heap a b)
    (hbc : Reach heap b c) : Reach heap a c := by
  induction hab with
  | step hm => exact Reach.more hm hbc
  | more hm _ ih => exact Reach.more hm (ih hbc)

/-- A finite graph without cycles is `Acyclic`: when all units that require something and
all required units have references below `n` and no unit reaches itself, the number of
units that a unit reaches is a ranking. -/
theorem Acyclic_of_finite_of_irrefl {D : Type} (heap : Nat → Unit D) (n : Nat)
    (hfin : ∀ i r, r ∈ (heap i).RequiredUnits → r < n)
    (hirr : ∀ a, ¬ Reach heap a a) : Acyclic heap := by
  classical
  refine ⟨fun i => ((Finset.range n).filter (fun y => Reach heap i y)).card, ?_⟩
  intro i r hr
  apply Finset.card_lt_card
  rw [Finset.ssubset_iff_of_subset]
  · refine ⟨r, ?_, ?_⟩
    · exact Finset.mem_filter.mpr ⟨Finset.mem_range.mpr (hfin i r hr), Reach.step hr⟩
    · intro hmem
      exact hirr r (Finset.mem_filter.mp hmem).2
  · intro y hy
    have hy' := Finset.mem_filter.mp hy
    exact Finset.mem_filter.mpr ⟨hy'.1, Reach.more hr hy'.2⟩

/-- An `Acyclic` graph has no cycle. -/
theorem Acyclic_irrefl {D : Type} (heap : Nat → Unit D) (hacyc : Acyclic heap) (a : Nat) :
    ¬ Reach heap a a := by
  obtain ⟨rank, hrank⟩ := hacyc
  have hlt : ∀ x y, Reach heap x y → rank y < rank x := by
    intro x y h
    induction h with
    | step hm => exact hrank _ _ hm
    | more hm _ ih => exact Nat.lt_trans ih (hrank _ _ hm)
  intro h
  exact Nat.lt_irrefl _ (hlt a a h)

/-- The live graph of the scenario is acyclic. -/
theorem exHeap_acyclic : Acyclic exHeap := by
  refine ⟨fun i => if i = 0 then 1 else 0, ?_⟩
  intro i r h
  cases i with
  | zero =>
    have hr : r = 1 := by simpa [exHeap] using h
    subst hr
    decide
  | succ n => simp [exHeap] at h

/-- Every unit of the self-requiring example is clean on its own account. -/
theorem loopHeap_clean (x : Nat) : Clean exUtils exCleanState (loopHeap x) := by
  refine ⟨rfl, rfl, _, rfl, ?_⟩
  rfl

theorem loopHeap_requiredLoopRec (f : Unit Nat → Option Bool) (hf : f (loopHeap 0) = none) :
    requiredLoopRec loopHeap exCleanState f [0] = none := by
  have hc : (exCleanState.ChangedUnits (loopHeap 0).Key).isSome = false := rfl
  simp [requiredLoopRec, hc, hf]

theorem loopHeap_requiredLoop (f : Unit Nat → Option Bool) (hf : f (loopHeap 0) = none) :
    requiredLoop loopHeap f [0] = none := by
  simp [requiredLoop, hf]

/-- On the self-requiring unit the recursive check returns for no recursion depth. -/
theorem loopHeap_checkUnitChangesRecursive :
    ∀ fuel r : Nat,
      checkUnitChangesRecursive exUtils loopHeap exCleanState fuel (loopHeap r) = none := by
  intro fuel
  induction fuel with
  | zero => intro r; rfl
  | succ n ih =>
    intro r
    have hstep : checkUnitChangesRecursive exUtils loopHeap exCleanState (n + 1) (loopHeap r) =
        requiredLoopRec loopHeap exCleanState
          (checkUnitChangesRecursive exUtils loopHeap exCleanState n) [0] := rfl
    rw [hstep]
    exact loopHeap_requiredLoopRec _ (ih 0)

/-- On the self-requiring unit `CheckUnitChanges` returns for no recursion depth. -/
theorem loopHeap_CheckUnitChanges (fuel : Nat) :
    CheckUnitChanges exUtils loopHeap exCleanState fuel (loopHeap 0) = none := by
  have hstep : CheckUnitChanges exUtils loopHeap exCleanState fuel (loopHeap 0) =
      match requiredLoop loopHeap
          (checkUnitChangesRecursive exUtils loopHeap exCleanState fuel) [0] with
      | none => none
      | some true => some (exUtils.Yellow depsChangedText, exCleanState.Units "net.vpc")
      | some false => some ("", exCleanState.Units "net.vpc") := rfl
  rw [hstep, loopHeap_requiredLoop _ (loopHeap_checkUnitChangesRecursive fuel 0)]

/-! ## The state reconciler: claims C1 to C4 -/

/-- C1 (transitive dirtiness).  On an acyclic `RequiredUnits` graph, let the live unit `a`
be present in the persisted registry with an empty own diff, and let some unit `b`
reachable from `a` through `RequiredUnits` (in one step or more) be changed: applied in
this run, absent from the persisted registry, or with a non-empty own diff.  Then
`CheckUnitChanges` returns, for every recursion bound from some bound on, the yellow
"There are changes in the unit dependencies." text together with the persisted unit of
`a`; the text is not empty when the formatter does not produce an empty string, so `a`
has a matched prior unit and a non-empty diff (update), never an empty one (unchanged). -/
theorem CheckUnitChanges_transitive_dirtiness {D : Type} (ut : Utils D)
    (heap : Nat → Unit D) (sp : StateProject D) (hacyc : Acyclic heap) (a b : Nat)
    (unitInState : Unit D) (hA : sp.Units (heap a).Key = some unitInState)
    (hdiff : (ut.Diff (some unitInState.GetDiffData) (heap a).GetDiffData true).length = 0)
    (hreach : Reach heap a b) (hB : Changed ut sp (heap b))
    (hyellow : (ut.Yellow depsChangedText).length > 0) :
    ∃ n, ∀ fuel, n ≤ fuel →
      CheckUnitChanges ut heap sp fuel (heap a)
          = some (ut.Yellow depsChangedText, some unitInState) ∧
        (ut.Yellow depsChangedText).length > 0 ∧
        CheckUnitChanges ut heap sp fuel (heap a) ≠ some ("", some unitInState) := by
  obtain ⟨rank, hrank⟩ := hacyc
  refine ⟨rank a, fun fuel hle => ?_⟩
  have hres : CheckUnitChanges ut heap sp fuel (heap a)
      = some (ut.Yellow depsChangedText, some unitInState) := by
    unfold CheckUnitChanges
    have hd : ¬ (ut.Diff (some unitInState.GetDiffData) (heap a).GetDiffData true).length > 0 := by
      omega
    simp only [hA, hd, if_false]
    obtain ⟨x, hx, hxb⟩ := Reach_cases heap a b hreach
    have hlt : ∀ y ∈ (heap a).RequiredUnits, rank y < fuel := by
      intro y hy; have := hrank a y hy; omega
    rw [requiredLoop_true heap _ _
      (fun y hy => checkUnitChangesRecursive_total ut heap sp rank hrank fuel y (hlt y hy))
      ⟨x, hx, checkUnitChangesRecursive_dirty ut heap sp rank hrank b hB fuel x (hlt x hx) hxb⟩]
  refine ⟨hres, hyellow, ?_⟩
  rw [hres]
  intro h
  have h1 : ut.Yellow depsChangedText = "" := congrArg Prod.fst (Option.some.inj h)
  rw [h1] at hyellow
  exact absurd hyellow (by decide)

/-- C1 at the scenario of the spec: `net.vpc` was saved with another fingerprint, so
`net.subnet`, whose own fingerprint is unchanged, gets the dependency text. -/
theorem CheckUnitChanges_transitive_dirtiness_witness :
    ∃ n, ∀ fuel, n ≤ fuel →
      CheckUnitChanges exUtils exHeap exDirtyState fuel (exHeap 0)
          = some (exUtils.Yellow depsChangedText, exDirtyState.Units "net.subnet") ∧
        (exUtils.Yellow depsChangedText).length > 0 ∧
        CheckUnitChanges exUtils exHeap exDirtyState fuel (exHeap 0)
          ≠ some ("", exDirtyState.Units "net.subnet") :=
  CheckUnitChanges_transitive_dirtiness exUtils exHeap exDirtyState exHeap_acyclic 0 1
    { Key := "net.subnet", GetDiffData := 1, WasApplied := false, RequiredUnits := [] }
    rfl (by decide) (Reach.step (by decide))
    (Or.inr (show (exUtils.Diff (some 7) 2 true).length > 0 by decide)) (by decide)

/-- C2 as stated fails on a cyclic graph: the unit `net.vpc` requires itself, it and all
it reaches are present in the persisted registry with an empty diff, not applied and not
keys of `ChangedUnits`, and `CheckUnitChanges` returns for no recursion depth. -/
theorem CheckUnitChanges_no_false_dirtiness_counterexample :
    ¬ (∀ (ut : Utils Nat) (heap : Nat → Unit Nat) (sp : StateProject Nat) (a : Nat),
        Clean ut sp (heap a) → (∀ x, Reach heap a x → Clean ut sp (heap x)) →
        ∃ fuel, CheckUnitChanges ut heap sp fuel (heap a) = some ("", sp.Units (heap a).Key)) := by
  intro h
  obtain ⟨fuel, hf⟩ := h exUtils loopHeap exCleanState 0 (loopHeap_clean 0)
    (fun x _ => loopHeap_clean x)
  rw [loopHeap_CheckUnitChanges] at hf
  cases hf

/-- C2 as amended (no false dirtiness on an acyclic graph).  On an acyclic `RequiredUnits`
graph, let the live unit `a` be present in the persisted registry with an empty own
diff, and let every unit reachable from `a` be present with an empty diff, not applied in
this run and not a key of `ChangedUnits`.  Then `CheckUnitChanges` returns, for every
recursion bound from some bound on, the empty string together with the persisted unit
of `a`. -/
theorem CheckUnitChanges_no_false_dirtiness {D : Type} (ut : Utils D)
    (heap : Nat → Unit D) (sp : StateProject D) (hacyc : Acyclic heap) (a : Nat)
    (unitInState : Unit D) (hA : sp.Units (heap a).Key = some unitInState)
    (hdiff : (ut.Diff (some unitInState.GetDiffData) (heap a).GetDiffData true).length = 0)
    (hclean : ∀ x, Reach heap a x → Clean ut sp (heap x)) :
    ∃ n, ∀ fuel, n ≤ fuel →
      CheckUnitChanges ut heap sp fuel (heap a) = some ("", some unitInState) := by
  obtain ⟨rank, hrank⟩ := hacyc
  refine ⟨rank a, fun fuel hle => ?_⟩
  unfold CheckUnitChanges
  have hd : ¬ (ut.Diff (some unitInState.GetDiffData) (heap a).GetDiffData true).length > 0 := by
    omega
  simp only [hA, hd, if_false]
  rw [requiredLoop_false heap _ _ (fun y hy =>
    checkUnitChangesRecursive_clean ut heap sp rank hrank fuel y
      (by have := hrank a y hy; omega) (hclean y (Reach.step hy))
      (fun z hz => hclean z (Reach.more hy hz)))]

/-- C2 as amended at the scenario of the spec: second run with identical specs. -/
theorem CheckUnitChanges_no_false_dirtiness_witness :
    ∃ n, ∀ fuel, n ≤ fuel →
      CheckUnitChanges exUtils exHeap exCleanState fuel (exHeap 0)
        = some ("", exCleanState.Units "net.subnet") :=
  CheckUnitChanges_no_false_dirtiness exUtils exHeap exCleanState exHeap_acyclic 0
    { Key := "net.subnet", GetDiffData := 1, WasApplied := false, RequiredUnits := [] }
    rfl (by decide) (by
      intro x hx
      have hx1 : ∃ k, x = k + 1 := by
        obtain ⟨r, hr, hrx⟩ := Reach_cases exHeap 0 x hx
        have hr1 : r = 1 := by simpa [exHeap] using hr
        subst hr1
        rcases hrx with h | h
        · exact ⟨0, h.symm⟩
        · obtain ⟨q, hq, _⟩ := Reach_cases exHeap 1 x h
          simp [exHeap] at hq
      obtain ⟨k, rfl⟩ := hx1
      exact ⟨rfl, rfl, _, rfl, rfl⟩)

/-- C3 (new unit).  When the key of a unit is not a key of the persisted registry,
`CheckUnitChanges` returns `utils.Diff(nil, unit.GetDiffData(), true)` and no matched prior
unit, for every recursion bound (zero included) and every live heap; the result stays the
same when the list of required units is replaced by any other one, so no dependency of
the unit is consulted. -/
theorem CheckUnitChanges_new_unit {D : Type} (ut : Utils D) (heap : Nat → Unit D)
    (sp : StateProject D) (fuel : Nat) (unit : Unit D) (hnew : sp.Units unit.Key = none) :
    CheckUnitChanges ut heap sp fuel unit = some (ut.Diff none unit.GetDiffData true, none) ∧
      ∀ (heap' : Nat → Unit D) (fuel' : Nat) (required : List Nat),
        CheckUnitChanges ut heap' sp fuel' { unit with RequiredUnits := required }
          = CheckUnitChanges ut heap sp fuel unit := by
  constructor
  · unfold CheckUnitChanges
    simp only [hnew]
  · intro heap' fuel' required
    unfold CheckUnitChanges
    simp only [hnew]

/-- C3 at the first run of the scenario: nothing is persisted, `net.subnet` is new. -/
theorem CheckUnitChanges_new_unit_witness :
    CheckUnitChanges exUtils exHeap exEmptyState 0 (exHeap 0) = some ("changed", none) ∧
      ∀ (heap' : Nat → Unit Nat) (fuel' : Nat) (required : List Nat),
        CheckUnitChanges exUtils heap' exEmptyState fuel'
            { exHeap 0 with RequiredUnits := required }
          = CheckUnitChanges exUtils exHeap exEmptyState 0 (exHeap 0) :=
  CheckUnitChanges_new_unit exUtils exHeap exEmptyState 0 (exHeap 0) rfl

theorem classifyResult_ne_destroy {D : Type} (res : String × Option (Unit D)) :
    classifyResult res ≠ PlanClass.destroy := by
  obtain ⟨df, prior⟩ := res
  cases prior with
  | none => simp [classifyResult]
  | some st =>
    by_cases hd : df.length > 0
    · simp [classifyResult, hd]
    · simp [classifyResult, hd]

/-- The class of a result of `CheckUnitChanges`, spelled out. -/
theorem classifyResult_spec {D : Type} (df : String) (prior : Option (Unit D)) :
    (classifyResult (df, prior) = PlanClass.deploy ↔ prior = none) ∧
      (classifyResult (df, prior) = PlanClass.update ↔ prior ≠ none ∧ df.length > 0) ∧
      (classifyResult (df, prior) = PlanClass.unchanged ↔ prior ≠ none ∧ df.length = 0) := by
  cases prior with
  | none => simp [classifyResult]
  | some st =>
    by_cases hd : df.length > 0
    · have hne : df.length ≠ 0 := by omega
      simp [classifyResult, hd, hne]
    · have hz : df.length = 0 := by omega
      simp [classifyResult, hz]

/-- C4 as stated fails on a cyclic graph: the live key `net.vpc` of a unit that requires
itself gets no class, because `CheckUnitChanges` returns for no recursion depth. -/
theorem classify_partition_counterexample :
    ¬ (∀ (ut : Utils Nat) (heap : Nat → Unit Nat) (sp : StateProject Nat)
        (live : String → Option Nat) (key : String),
        (live key).isSome ∨ (sp.Units key).isSome →
        ∃ fuel c, classify ut heap sp live fuel key = some c) := by
  intro h
  obtain ⟨fuel, c, hc⟩ := h exUtils loopHeap exCleanState loopLive "net.vpc" (Or.inl (by decide))
  have hnone : classify exUtils loopHeap exCleanState loopLive fuel "net.vpc" = none := by
    have hstep : classify exUtils loopHeap exCleanState loopLive fuel "net.vpc"
        = (CheckUnitChanges exUtils loopHeap exCleanState fuel (loopHeap 0)).map classifyResult :=
      rfl
    rw [hstep, loopHeap_CheckUnitChanges]
    rfl
  rw [hnone] at hc
  cases hc

/-- C4 as amended (the four classes partition the unit keys when the live graph is
acyclic).  For an acyclic live `RequiredUnits` graph, every key that occurs in the live
registry or in the persisted registry gets a class for every recursion bound from some
bound on, it never gets two different classes, the class is destroy exactly when the key
is absent from the live registry, and for a live key the class is deploy, update or
unchanged according to the pair returned by `CheckUnitChanges`: no matched prior unit, a
matched prior unit with a non-empty diff, a matched prior unit with an empty diff. -/
theorem classify_partition {D : Type} (ut : Utils D) (heap : Nat → Unit D)
    (sp : StateProject D) (live : String → Option Nat) (hacyc : Acyclic heap) (key : String)
    (hkey : (live key).isSome ∨ (sp.Units key).isSome) :
    (∃ c n, ∀ fuel, n ≤ fuel → classify ut heap sp live fuel key = some c) ∧
      (∀ fuel₁ fuel₂ c₁ c₂, classify ut heap sp live fuel₁ key = some c₁ →
        classify ut heap sp live fuel₂ key = some c₂ → c₁ = c₂) ∧
      (∀ fuel c, classify ut heap sp live fuel key = some c →
        (c = PlanClass.destroy ↔ live key = none)) ∧
      (∀ fuel c r, live key = some r → classify ut heap sp live fuel key = some c →
        ∃ df prior, CheckUnitChanges ut heap sp fuel (heap r) = some (df, prior) ∧
          (c = PlanClass.deploy ↔ prior = none) ∧
          (c = PlanClass.update ↔ prior ≠ none ∧ df.length > 0) ∧
          (c = PlanClass.unchanged ↔ prior ≠ none ∧ df.length = 0)) := by
  obtain ⟨rank, hrank⟩ := hacyc
  cases hl : live key with
  | none =>
    have hs : (sp.Units key).isSome = true := by
      rcases hkey with h | h
      · rw [hl] at h; cases h
      · exact h
    have hcl : ∀ fuel, classify ut heap sp live fuel key = some PlanClass.destroy := by
      intro fuel
      simp [classify, hl, hs]
    refine ⟨⟨PlanClass.destroy, 0, fun fuel _ => hcl fuel⟩, ?_, ?_, ?_⟩
    · intro f1 f2 c1 c2 h1 h2
      rw [hcl] at h1 h2
      exact (Option.some.inj h1).symm.trans (Option.some.inj h2)
    · intro fuel c h
      rw [hcl] at h
      simp [← Option.some.inj h]
    · intro fuel c r hr
      cases hr
  | some r =>
    have hcl : ∀ fuel, classify ut heap sp live fuel key
        = (CheckUnitChanges ut heap sp fuel (heap r)).map classifyResult := by
      intro fuel
      simp [classify, hl]
    have hinv : ∀ fuel c, classify ut heap sp live fuel key = some c →
        ∃ res, CheckUnitChanges ut heap sp fuel (heap r) = some res ∧ classifyResult res = c := by
      intro fuel c h
      rw [hcl] at h
      cases hres : CheckUnitChanges ut heap sp fuel (heap r) with
      | none => rw [hres] at h; cases h
      | some res =>
        rw [hres] at h
        exact ⟨res, rfl, Option.some.inj h⟩
    obtain ⟨res, hres⟩ := CheckUnitChanges_total ut heap sp rank hrank r
    refine ⟨⟨classifyResult res, rank r, fun fuel hle => ?_⟩, ?_, ?_, ?_⟩
    · rw [hcl, hres fuel hle]
      rfl
    · intro f1 f2 c1 c2 h1 h2
      obtain ⟨r1, hr1, hc1⟩ := hinv f1 c1 h1
      obtain ⟨r2, hr2, hc2⟩ := hinv f2 c2 h2
      have e1 := CheckUnitChanges_mono ut heap sp f1 (max f1 f2) (le_max_left _ _) _ _ hr1
      have e2 := CheckUnitChanges_mono ut heap sp f2 (max f1 f2) (le_max_right _ _) _ _ hr2
      rw [e1] at e2
      rw [← hc1, ← hc2, Option.some.inj e2]
    · intro fuel c h
      obtain ⟨r1, _, hc1⟩ := hinv fuel c h
      constructor
      · intro hd
        rw [hd] at hc1
        exact absurd hc1 (classifyResult_ne_destroy r1)
      · intro hn
        cases hn
    · intro fuel c r' hr' h
      cases hr'
      obtain ⟨⟨df, prior⟩, hr1, hc1⟩ := hinv fuel c h
      refine ⟨df, prior, hr1, ?_⟩
      rw [← hc1]
      exact classifyResult_spec df prior

/-- C4 as amended at the scenario of the spec, for the live key `net.subnet`. -/
theorem classify_partition_witness :
    (∃ c n, ∀ fuel, n ≤ fuel →
        classify exUtils exHeap exDirtyState exLive fuel "net.subnet" = some c) ∧
      (∀ fuel₁ fuel₂ c₁ c₂,
        classify exUtils exHeap exDirtyState exLive fuel₁ "net.subnet" = some c₁ →
        classify exUtils exHeap exDirtyState exLive fuel₂ "net.subnet" = some c₂ → c₁ = c₂) ∧
      (∀ fuel c, classify exUtils exHeap exDirtyState exLive fuel "net.subnet" = some c →
        (c = PlanClass.destroy ↔ exLive "net.subnet" = none)) ∧
      (∀ fuel c r, exLive "net.subnet" = some r →
        classify exUtils exHeap exDirtyState exLive fuel "net.subnet" = some c →
        ∃ df prior, CheckUnitChanges exUtils exHeap exDirtyState fuel (exHeap r)
            = some (df, prior) ∧
          (c = PlanClass.deploy ↔ prior = none) ∧
          (c = PlanClass.update ↔ prior ≠ none ∧ df.length > 0) ∧
          (c = PlanClass.unchanged ↔ prior ≠ none ∧ df.length = 0)) :=
  classify_partition exUtils exHeap exDirtyState exLive exHeap_acyclic "net.subnet"
    (Or.inl (by decide))

/-! ## Lemmas on dependency resolution -/

/-- `BuildDep` returns `nil` exactly on the resolvable dependencies. -/
theorem BuildDep_none_iff {M : Type} (m : Module M) (dep : Dependency M) :
    (BuildDep m dep).2 = none ↔ Resolvable m.ProjectPtr dep := by
  unfold BuildDep Resolvable
  cases hM : dep.Module with
  | some t => simp
  | none =>
    by_cases he : dep.ModuleName = "" ∨ dep.InfraName = ""
    · simp only [he, if_true]
      rcases he with h | h <;> simp [h]
    · have he' := not_or.mp he
      simp only [he, if_false]
      cases hk : m.ProjectPtr.Modules (dep.InfraName ++ "." ++ dep.ModuleName) with
      | none => simp
      | some t => simp [he'.1, he'.2]

/-- A successful `BuildDep` leaves the dependency resolved as `ResolvedFrom` says. -/
theorem BuildDep_ok {M : Type} (m : Module M) (dep dep' : Dependency M)
    (h : BuildDep m dep = (dep', none)) : ResolvedFrom m.ProjectPtr dep dep' := by
  unfold BuildDep at h
  unfold ResolvedFrom
  cases hM : dep.Module with
  | some t =>
    simp only [hM] at h
    have hd : dep = dep' := congrArg Prod.fst h
    subst hd
    simp [hM]
  | none =>
    simp only [hM] at h
    by_cases he : dep.ModuleName = "" ∨ dep.InfraName = ""
    · simp [he] at h
    · simp only [he, if_false] at h
      cases hk : m.ProjectPtr.Modules (dep.InfraName ++ "." ++ dep.ModuleName) with
      | none => simp [hk] at h
      | some t =>
        simp only [hk] at h
        have hd : { dep with Module := some t } = dep' := congrArg Prod.fst h
        subst hd
        simp

/-- On a resolved dependency `BuildDep` changes nothing and returns `nil`. -/
theorem BuildDep_resolved {M : Type} (m : Module M) (dep : Dependency M)
    (h : dep.Module.isSome) : BuildDep m dep = (dep, none) := by
  unfold BuildDep
  cases hM : dep.Module with
  | some t => rfl
  | none => rw [hM] at h; cases h

/-- An error of `BuildDep` leaves the dependency as it was. -/
theorem BuildDep_fst_of_error {M : Type} (m : Module M) (dep : Dependency M) (err : String)
    (h : (BuildDep m dep).2 = some err) : (BuildDep m dep).1 = dep := by
  unfold BuildDep at h ⊢
  cases hM : dep.Module with
  | some t => rfl
  | none =>
    simp only [hM] at h ⊢
    by_cases he : dep.ModuleName = "" ∨ dep.InfraName = ""
    · simp [he]
    · simp only [he, if_false] at h ⊢
      cases hk : m.ProjectPtr.Modules (dep.InfraName ++ "." ++ dep.ModuleName) with
      | none => rfl
      | some t => simp [hk] at h

theorem BuildModuleDepsLoop_ok {M : Type} (m : Module M) :
    ∀ deps deps' : List (Dependency M), BuildModuleDepsLoop m deps = (deps', none) →
      List.Forall₂ (ResolvedFrom m.ProjectPtr) deps deps' := by
  intro deps
  induction deps with
  | nil =>
    intro deps' h
    have hd : [] = deps' := congrArg Prod.fst h
    subst hd
    exact List.Forall₂.nil
  | cons d rest ih =>
    intro deps' h
    rw [BuildModuleDepsLoop] at h
    cases hb : BuildDep m d with
    | mk d1 e1 =>
      cases e1 with
      | some err => simp [hb] at h
      | none =>
        cases hr : BuildModuleDepsLoop m rest with
        | mk rest1 e2 =>
          simp only [hb, hr] at h
          have hd : d1 :: rest1 = deps' := congrArg Prod.fst h
          have he : e2 = none := congrArg Prod.snd h
          subst hd he
          exact List.Forall₂.cons (BuildDep_ok m d d1 hb) (ih rest1 hr)

theorem BuildModuleDepsLoop_resolved {M : Type} (m : Module M) :
    ∀ deps : List (Dependency M), (∀ d ∈ deps, d.Module.isSome) →
      BuildModuleDepsLoop m deps = (deps, none) := by
  intro deps
  induction deps with
  | nil => intro _; rfl
  | cons d rest ih =>
    intro h
    rw [BuildModuleDepsLoop, BuildDep_resolved m d (h d (List.mem_cons_self _ _)),
      ih (fun x hx => h x (List.mem_cons_of_mem _ hx))]

theorem BuildModuleDepsLoop_none_iff {M : Type} (m : Module M) :
    ∀ deps : List (Dependency M),
      (BuildModuleDepsLoop m deps).2 = none ↔ ∀ d ∈ deps, Resolvable m.ProjectPtr d := by
  intro deps
  induction deps with
  | nil => simp [BuildModuleDepsLoop]
  | cons d rest ih =>
    rw [BuildModuleDepsLoop]
    have hd := BuildDep_none_iff m d
    cases hb : BuildDep m d with
    | mk d1 e1 =>
      rw [hb] at hd
      cases e1 with
      | some err =>
        simp only [List.mem_cons, forall_eq_or_imp]
        constructor
        · intro h; cases h
        · intro h; exact absurd (hd.mpr h.1) (by simp)
      | none =>
        cases hr : BuildModuleDepsLoop m rest with
        | mk rest1 e2 =>
          rw [hr] at ih
          simp only [List.mem_cons, forall_eq_or_imp]
          constructor
          · intro h; exact ⟨hd.mp rfl, ih.mp h⟩
          · intro h; exact ih.mpr h.2

/-- The loop returns the error of `BuildDep` on the first dependency that is not
resolvable, and leaves that dependency and the ones after it as they were. -/
theorem BuildModuleDepsLoop_first_error {M : Type} (m : Module M) (dep : Dependency M)
    (post : List (Dependency M)) (err : String) (herr : (BuildDep m dep).2 = some err) :
    ∀ pre : List (Dependency M), (∀ d ∈ pre, Resolvable m.ProjectPtr d) →
      ∃ pre', BuildModuleDepsLoop m (pre ++ dep :: post) = (pre' ++ dep :: post, some err) ∧
        List.Forall₂ (ResolvedFrom m.ProjectPtr) pre pre' := by
  intro pre
  induction pre with
  | nil =>
    intro _
    refine ⟨[], ?_, List.Forall₂.nil⟩
    have hfst := BuildDep_fst_of_error m dep err herr
    rw [List.nil_append, BuildModuleDepsLoop]
    cases hb : BuildDep m dep with
    | mk d1 e1 =>
      rw [hb] at herr hfst
      simp only at herr hfst
      subst herr hfst
      rfl
  | cons d rest ih =>
    intro h
    obtain ⟨pre', hpre, hall⟩ := ih (fun x hx => h x (List.mem_cons_of_mem _ hx))
    have hd := (BuildDep_none_iff m d).mpr (h d (List.mem_cons_self _ _))
    rw [List.cons_append, BuildModuleDepsLoop]
    cases hb : BuildDep m d with
    | mk d1 e1 =>
      rw [hb] at hd
      simp only at hd
      subst hd
      refine ⟨d1 :: pre', ?_, List.Forall₂.cons (BuildDep_ok m d d1 hb) hall⟩
      simp only [hpre, List.cons_append]

theorem ResolvedFrom_forall₂_isSome {M : Type} (p : Project M) :
    ∀ deps deps' : List (Dependency M), List.Forall₂ (ResolvedFrom p) deps deps' →
      ∀ d' ∈ deps', d'.Module.isSome := by
  intro deps deps' h
  induction h with
  | nil => intro d' hd; cases hd
  | cons hr _ ih =>
    intro d' hd
    rcases List.mem_cons.mp hd with rfl | hd'
    · exact hr.1
    · exact ih d' hd'

theorem ResolvedFrom_forall₂_mem {M : Type} (p : Project M) :
    ∀ deps deps' : List (Dependency M), List.Forall₂ (ResolvedFrom p) deps deps' →
      ∀ d ∈ deps, ∃ d' ∈ deps', ResolvedFrom p d d' := by
  intro deps deps' h
  induction h with
  | nil => intro d hd; cases hd
  | cons hr _ ih =>
    intro d hd
    rcases List.mem_cons.mp hd with rfl | hd'
    · exact ⟨_, List.mem_cons_self _ _, hr⟩
    · obtain ⟨d', hm, hres⟩ := ih d hd'
      exact ⟨d', List.mem_cons_of_mem _ hm, hres⟩

/-! ## Dependency resolution: claims C5 to C7 -/

/-- C5 (dependency resolution postcondition).  If `BuildModuleDeps(m)` returns `nil`, then
afterwards every dependency of `m` has a target; position by position, a dependency that
was unresolved points to the registry entry stored under `"<InfraName>.<ModuleName>"`, a
dependency that was resolved keeps its target, and `InfraName`, `ModuleName` and `Output`
are unchanged; invoking `BuildModuleDeps` again on the resolved module returns `nil` and
changes nothing.  (The registry is an argument that the embedded code only reads.) -/
theorem BuildModuleDeps_postcondition {M : Type} (m : Module M)
    (hnil : (BuildModuleDeps m).2 = none) :
    (∀ d' ∈ (BuildModuleDeps m).1, d'.Module.isSome) ∧
      List.Forall₂ (ResolvedFrom m.ProjectPtr) m.Dependencies (BuildModuleDeps m).1 ∧
      BuildModuleDeps { m with Dependencies := (BuildModuleDeps m).1 }
        = ((BuildModuleDeps m).1, none) := by
  have hall : List.Forall₂ (ResolvedFrom m.ProjectPtr) m.Dependencies (BuildModuleDeps m).1 := by
    apply BuildModuleDepsLoop_ok m
    unfold BuildModuleDeps at hnil ⊢
    rw [← hnil]
  have hsome := ResolvedFrom_forall₂_isSome m.ProjectPtr _ _ hall
  exact ⟨hsome, hall, BuildModuleDepsLoop_resolved _ _ hsome⟩

/-- C5 at the module `net.a` of the example registry, whose dependency on `net.b` gets
resolved to the registry entry of `net.b`. -/
theorem BuildModuleDeps_postcondition_witness :
    (∀ d' ∈ (BuildModuleDeps exModuleA).1, d'.Module.isSome) ∧
      List.Forall₂ (ResolvedFrom exModuleA.ProjectPtr) exModuleA.Dependencies
        (BuildModuleDeps exModuleA).1 ∧
      BuildModuleDeps { exModuleA with Dependencies := (BuildModuleDeps exModuleA).1 }
        = ((BuildModuleDeps exModuleA).1, none) :=
  BuildModuleDeps_postcondition exModuleA (by decide)

/-- C6 as stated fails: in module `net.c` the dependency on `net.zz` is the first
unresolved dependency with both names set whose key is absent from the registry, yet
`BuildModuleDeps` does not return the error of `BuildDep` for it: it returns the
"Empty dependency" error of the dependency before it. -/
theorem BuildModuleDeps_missing_target_counterexample :
    ¬ (∀ (m : Module Nat) (pre : List (Dependency Nat)) (dep : Dependency Nat)
        (post : List (Dependency Nat)),
        m.Dependencies = pre ++ dep :: post → MissingTarget m.ProjectPtr dep →
        (∀ d ∈ pre, ¬ MissingTarget m.ProjectPtr d) →
        (BuildModuleDeps m).2 = (BuildDep m dep).2) := by
  intro h
  have hc := h exModuleC [exDep "" ""] (exDep "net" "zz") [] rfl
    ⟨rfl, by decide, by decide, by decide⟩
    (by
      intro d hd
      have hd' : d = exDep "" "" := by simpa using hd
      subst hd'
      intro hm
      exact hm.2.1 rfl)
  revert hc
  decide

/-- The "Empty dependency" message differs from every "does not exist" message. -/
theorem empty_dependency_ne (x y : String) :
    "Empty dependency in module '" ++ x ≠ "Error in module '" ++ y := by
  intro h
  have hd := congrArg String.data h
  simp only [String.data_append, List.cons_append, List.cons.injEq, true_and] at hd
  exact absurd hd.1 (by decide)

/-- On an unresolved dependency with an empty name `BuildDep` returns the "Empty
dependency" error. -/
theorem BuildDep_empty {M : Type} (m : Module M) (dep : Dependency M)
    (hM : dep.Module = none) (hempty : dep.ModuleName = "" ∨ dep.InfraName = "") :
    BuildDep m dep
      = (dep, some ("Empty dependency in module '" ++ m.InfraName ++ "." ++ m.Name ++ "'")) := by
  unfold BuildDep
  simp only [hM, hempty, if_true]

/-- C6 as amended (missing dependency target).  For an unresolved dependency with both
names set whose key is absent from the registry, `BuildDep` returns an error whose message
contains the source `"<m.InfraName()>.<m.Name()>"` and the target
`"<InfraName>.<ModuleName>"`, and leaves the dependency as it was, its target `nil`.
`BuildModuleDeps` returns the error of the first dependency in list order on which
`BuildDep` fails: it returns that error when every dependency before this one in the list
is resolvable (already resolved, or with both names set and its key in the registry); and
when the first dependency that is not resolvable is an unresolved one with an empty
`InfraName` or `ModuleName`, it returns the "Empty dependency" error, which is another
error. -/
theorem BuildDep_missing_target {M : Type} (m : Module M) (dep : Dependency M)
    (hmiss : MissingTarget m.ProjectPtr dep) :
    ∃ msg, BuildDep m dep = (dep, some msg) ∧ dep.Module = none ∧
      Contains msg (m.InfraName ++ "." ++ m.Name) ∧
      Contains msg (dep.InfraName ++ "." ++ dep.ModuleName) ∧
      (∀ pre post : List (Dependency M), m.Dependencies = pre ++ dep :: post →
        (∀ d ∈ pre, Resolvable m.ProjectPtr d) → (BuildModuleDeps m).2 = some msg) ∧
      (∀ (pre post : List (Dependency M)) (e : Dependency M),
        m.Dependencies = pre ++ e :: post → (∀ d ∈ pre, Resolvable m.ProjectPtr d) →
        e.Module = none → (e.ModuleName = "" ∨ e.InfraName = "") →
        (BuildModuleDeps m).2
            = some ("Empty dependency in module '" ++ m.InfraName ++ "." ++ m.Name ++ "'") ∧
          (BuildModuleDeps m).2 ≠ some msg) := by
  obtain ⟨hM, hmn, hin, habs⟩ := hmiss
  have he : ¬ (dep.ModuleName = "" ∨ dep.InfraName = "") := by
    intro h
    rcases h with h | h
    · exact hmn h
    · exact hin h
  have hb : BuildDep m dep = (dep, some ("Error in module '" ++ m.InfraName ++ "." ++ m.Name ++
      "' dependency, target '" ++ dep.InfraName ++ "." ++ dep.ModuleName ++
      "' does not exist")) := by
    unfold BuildDep
    simp only [hM, he, if_false, habs]
  refine ⟨_, hb, hM, ?_, ?_, ?_, ?_⟩
  · exact ⟨"Error in module '", "' dependency, target '" ++ dep.InfraName ++ "." ++
      dep.ModuleName ++ "' does not exist", by simp only [String.append_assoc]⟩
  · exact ⟨"Error in module '" ++ m.InfraName ++ "." ++ m.Name ++ "' dependency, target '",
      "' does not exist", by simp only [String.append_assoc]⟩
  · intro pre post hdeps hpre
    obtain ⟨pre', hloop, _⟩ := BuildModuleDepsLoop_first_error m dep post _
      (by rw [hb]) pre hpre
    unfold BuildModuleDeps
    rw [hdeps, hloop]
  · intro pre post e hdeps hpre heM hempty
    obtain ⟨pre', hloop, _⟩ := BuildModuleDepsLoop_first_error m e post _
      (by rw [BuildDep_empty m e heM hempty]) pre hpre
    have hres : (BuildModuleDeps m).2
        = some ("Empty dependency in module '" ++ m.InfraName ++ "." ++ m.Name ++ "'") := by
      unfold BuildModuleDeps
      rw [hdeps, hloop]
    refine ⟨hres, ?_⟩
    rw [hres]
    intro h
    have h' := Option.some.inj h
    simp only [String.append_assoc] at h'
    exact empty_dependency_ne _ _ h'

/-- C6 as amended at module `net.d`: its dependency on `net.a` resolves, its dependency
on `net.zz` names no module of the registry. -/
theorem BuildDep_missing_target_witness :
    ∃ msg, BuildDep exModuleD (exDep "net" "zz") = (exDep "net" "zz", some msg) ∧
      (exDep "net" "zz").Module = none ∧
      Contains msg (exModuleD.InfraName ++ "." ++ exModuleD.Name) ∧
      Contains msg ((exDep "net" "zz").InfraName ++ "." ++ (exDep "net" "zz").ModuleName) ∧
      (∀ pre post : List (Dependency Nat),
        exModuleD.Dependencies = pre ++ exDep "net" "zz" :: post →
        (∀ d ∈ pre, Resolvable exModuleD.ProjectPtr d) →
        (BuildModuleDeps exModuleD).2 = some msg) ∧
      (∀ (pre post : List (Dependency Nat)) (e : Dependency Nat),
        exModuleD.Dependencies = pre ++ e :: post →
        (∀ d ∈ pre, Resolvable exModuleD.ProjectPtr d) →
        e.Module = none → (e.ModuleName = "" ∨ e.InfraName = "") →
        (BuildModuleDeps exModuleD).2
            = some ("Empty dependency in module '" ++ exModuleD.InfraName ++ "." ++
                exModuleD.Name ++ "'") ∧
          (BuildModuleDeps exModuleD).2 ≠ some msg) :=
  BuildDep_missing_target exModuleD (exDep "net" "zz") ⟨rfl, by decide, by decide, by decide⟩

/-- In module `net.c` the dependency with empty names comes first and the dependency on
the missing `net.zz` second: `BuildModuleDeps` returns the "Empty dependency" error. -/
theorem BuildModuleDeps_empty_first_example :
    (BuildModuleDeps exModuleC).2 = some "Empty dependency in module 'net.c'" := by
  decide

/-- C7 as stated fails: the registry holds `net.a` and `net.b`, each depends on the
other, and `BuildModuleDeps` returns `nil` for both. -/
theorem BuildModuleDeps_cycle_counterexample :
    ¬ (∀ (p : Project Nat) (a b : Module Nat), a.ProjectPtr = p → b.ProjectPtr = p →
        (p.Modules (a.InfraName ++ "." ++ a.Name)).isSome →
        (p.Modules (b.InfraName ++ "." ++ b.Name)).isSome →
        DependsOn a b → DependsOn b a →
        (BuildModuleDeps a).2 ≠ none ∨ (BuildModuleDeps b).2 ≠ none) := by
  intro h
  have hc := h exProject exModuleA exModuleB rfl rfl (by decide) (by decide)
    ⟨exDep "net" "b", by simp [exModuleA], rfl, rfl⟩
    ⟨exDep "net" "a", by simp [exModuleB], rfl, rfl⟩
  revert hc
  decide

/-- C7 as amended (cycles are not detected by dependency resolution).  For every registry
that holds two modules `a` and `b` which depend on each other, if every dependency of
`a` and of `b` is resolvable (already resolved, or with both names set and its key in the
registry), then `BuildModuleDeps` returns `nil` for `a` and for `b` and leaves every
dependency of both with a target, the dependency of `a` on `b` and the dependency of `b`
on `a` included: the cycle is accepted. -/
theorem BuildModuleDeps_accepts_cycle {M : Type} (p : Project M) (a b : Module M)
    (ha : a.ProjectPtr = p) (hb : b.ProjectPtr = p)
    (hka : (p.Modules (a.InfraName ++ "." ++ a.Name)).isSome)
    (hkb : (p.Modules (b.InfraName ++ "." ++ b.Name)).isSome)
    (hab : DependsOn a b) (hba : DependsOn b a)
    (hra : ∀ d ∈ a.Dependencies, Resolvable p d)
    (hrb : ∀ d ∈ b.Dependencies, Resolvable p d) :
    (BuildModuleDeps a).2 = none ∧ (BuildModuleDeps b).2 = none ∧
      (∀ d' ∈ (BuildModuleDeps a).1, d'.Module.isSome) ∧
      (∀ d' ∈ (BuildModuleDeps b).1, d'.Module.isSome) ∧
      (∃ d' ∈ (BuildModuleDeps a).1,
        d'.InfraName = b.InfraName ∧ d'.ModuleName = b.Name ∧ d'.Module.isSome) ∧
      (∃ d' ∈ (BuildModuleDeps b).1,
        d'.InfraName = a.InfraName ∧ d'.ModuleName = a.Name ∧ d'.Module.isSome) ∧
      (p.Modules (a.InfraName ++ "." ++ a.Name)).isSome ∧
      (p.Modules (b.InfraName ++ "." ++ b.Name)).isSome := by
  subst ha
  have hna : (BuildModuleDeps a).2 = none :=
    (BuildModuleDepsLoop_none_iff a a.Dependencies).mpr hra
  have hnb : (BuildModuleDeps b).2 = none :=
    (BuildModuleDepsLoop_none_iff b b.Dependencies).mpr (by rw [hb]; exact hrb)
  have hfa : List.Forall₂ (ResolvedFrom a.ProjectPtr) a.Dependencies (BuildModuleDeps a).1 := by
    apply BuildModuleDepsLoop_ok a
    unfold BuildModuleDeps at hna ⊢
    rw [← hna]
  have hfb : List.Forall₂ (ResolvedFrom b.ProjectPtr) b.Dependencies (BuildModuleDeps b).1 := by
    apply BuildModuleDepsLoop_ok b
    unfold BuildModuleDeps at hnb ⊢
    rw [← hnb]
  refine ⟨hna, hnb, ResolvedFrom_forall₂_isSome _ _ _ hfa,
    ResolvedFrom_forall₂_isSome _ _ _ hfb, ?_, ?_, hka, hkb⟩
  · obtain ⟨d, hd, hi, hn⟩ := hab
    obtain ⟨d', hm, hres⟩ := ResolvedFrom_forall₂_mem _ _ _ hfa d hd
    exact ⟨d', hm, hres.2.2.2.1.trans hi, hres.2.2.2.2.1.trans hn, hres.1⟩
  · obtain ⟨d, hd, hi, hn⟩ := hba
    obtain ⟨d', hm, hres⟩ := ResolvedFrom_forall₂_mem _ _ _ hfb d hd
    exact ⟨d', hm, hres.2.2.2.1.trans hi, hres.2.2.2.2.1.trans hn, hres.1⟩

/-- C7 as amended at the example registry: `net.a` and `net.b` depend on each other and
both resolve. -/
theorem BuildModuleDeps_accepts_cycle_witness :
    (BuildModuleDeps exModuleA).2 = none ∧ (BuildModuleDeps exModuleB).2 = none ∧
      (∀ d' ∈ (BuildModuleDeps exModuleA).1, d'.Module.isSome) ∧
      (∀ d' ∈ (BuildModuleDeps exModuleB).1, d'.Module.isSome) ∧
      (∃ d' ∈ (BuildModuleDeps exModuleA).1,
        d'.InfraName = exModuleB.InfraName ∧ d'.ModuleName = exModuleB.Name ∧
          d'.Module.isSome) ∧
      (∃ d' ∈ (BuildModuleDeps exModuleB).1,
        d'.InfraName = exModuleA.InfraName ∧ d'.ModuleName = exModuleA.Name ∧
          d'.Module.isSome) ∧
      (exProject.Modules (exModuleA.InfraName ++ "." ++ exModuleA.Name)).isSome ∧
      (exProject.Modules (exModuleB.InfraName ++ "." ++ exModuleB.Name)).isSome :=
  BuildModuleDeps_accepts_cycle exProject exModuleA exModuleB rfl rfl (by decide) (by decide)
    ⟨exDep "net" "b", by simp [exModuleA], rfl, rfl⟩
    ⟨exDep "net" "a", by simp [exModuleB], rfl, rfl⟩
    (by
      intro d hd
      have hd' : d = exDep "net" "b" := by simpa [exModuleA] using hd
      subst hd'
      exact Or.inr ⟨by decide, by decide, by decide⟩)
    (by
      intro d hd
      have hd' : d = exDep "net" "a" := by simpa [exModuleB] using hd
      subst hd'
      exact Or.inr ⟨by decide, by decide, by decide⟩)

/-! ## Dependency parsing: claim C8 -/

/-- Splitting `"S.U"` with dot-free `S` and `U` on `"."` gives the two parts. -/
theorem splitDot_pair (S U : String) (hS : '.' ∉ S.data) (hU : '.' ∉ U.data) :
    splitDot (S ++ "." ++ U) = [S, U] := by
  unfold splitDot
  have hdata : (S ++ "." ++ U).data = ['.'].intercalate [S.data, U.data] := by
    simp [List.intercalate, String.data_append]
  rw [hdata, List.splitOn_intercalate [S.data, U.data] '.' (by
    intro l hl
    rcases List.mem_cons.mp hl with rfl | hl'
    · exact hS
    · rcases List.mem_cons.mp hl' with rfl | hl''
      · exact hU
      · cases hl'') (by simp)]
  rfl

theorem readDepsLoop_cons_ok {M : Type} (infra : Infrastructure) (dep s0 s1 : String)
    (rest : List String) (res : List (Dependency M)) (h : splitDot dep = [s0, s1]) :
    readDepsLoop infra (dep :: rest) res
      = readDepsLoop infra rest (res ++
          [{ Module := none, ModuleName := s1,
             InfraName := if s0 = "this" then infra.Name else s0, Output := "" }]) := by
  rw [readDepsLoop]
  simp only [h]

theorem readDepsLoop_cons_error {M : Type} (infra : Infrastructure) (dep : String)
    (rest : List String) (res : List (Dependency M)) (h : (splitDot dep).length ≠ 2) :
    readDepsLoop infra (dep :: rest) res
      = Except.error ("Incorrect module dependency '" ++ dep ++ "'") := by
  rw [readDepsLoop]
  cases hsp : splitDot dep with
  | nil => rfl
  | cons a t =>
    cases t with
    | nil => rfl
    | cons b t2 =>
      cases t2 with
      | nil => rw [hsp] at h; exact absurd rfl h
      | cons c t3 => rfl

theorem readDepsLoop_pairs {M : Type} (infra : Infrastructure) :
    ∀ (pairs : List (String × String)) (res : List (Dependency M)),
      (∀ q ∈ pairs, '.' ∉ q.1.data ∧ '.' ∉ q.2.data) →
      readDepsLoop infra (pairs.map fun q => q.1 ++ "." ++ q.2) res
        = Except.ok (res ++ pairs.map fun q =>
            { Module := none, ModuleName := q.2,
              InfraName := if q.1 = "this" then infra.Name else q.1, Output := "" }) := by
  intro pairs
  induction pairs with
  | nil => intro res _; simp [readDepsLoop]
  | cons q rest ih =>
    intro res h
    have hq := h q (List.mem_cons_self _ _)
    rw [List.map_cons, readDepsLoop_cons_ok infra _ q.1 q.2 _ _ (splitDot_pair q.1 q.2 hq.1 hq.2),
      ih _ (fun x hx => h x (List.mem_cons_of_mem _ hx))]
    simp

theorem readDepsLoop_bad {M : Type} (infra : Infrastructure) :
    ∀ (l : List String) (res : List (Dependency M)),
      (∃ s ∈ l, (splitDot s).length ≠ 2) →
      ∃ s ∈ l, (splitDot s).length ≠ 2 ∧
        readDepsLoop infra l res = Except.error ("Incorrect module dependency '" ++ s ++ "'") := by
  intro l
  induction l with
  | nil => intro res h; obtain ⟨s, hs, _⟩ := h; cases hs
  | cons x rest ih =>
    intro res h
    by_cases hx : (splitDot x).length = 2
    · obtain ⟨s0, s1, hsp⟩ := List.length_eq_two.mp hx
      have hrest : ∃ s ∈ rest, (splitDot s).length ≠ 2 := by
        obtain ⟨s, hs, hbad⟩ := h
        rcases List.mem_cons.mp hs with rfl | hs'
        · exact absurd hx hbad
        · exact ⟨s, hs', hbad⟩
      obtain ⟨s, hs, hbad, hres⟩ := ih (res ++
          [{ Module := none, ModuleName := s1,
             InfraName := if s0 = "this" then infra.Name else s0, Output := "" }]) hrest
      exact ⟨s, List.mem_cons_of_mem _ hs, hbad, by
        rw [readDepsLoop_cons_ok infra x s0 s1 rest res hsp]; exact hres⟩
    · exact ⟨x, List.mem_cons_self _ _, hx, readDepsLoop_cons_error infra x rest res hx⟩

/-- C8 (dependency parsing and the "this" alias).  For a list of strings `"S.U"` with
dot-free `S` and `U`, `readDeps` returns no error and, in the same order, one unresolved
dependency per string with `ModuleName` `U` and `InfraName` `S`, where `S = "this"` is
replaced by the name of the owning infrastructure.  For a list that holds a string which
does not split on `"."` into exactly two parts, `readDeps` returns an error (naming such a
string) and no dependencies. -/
theorem readDeps_spec {M : Type} (infra : Infrastructure) (pairs : List (String × String))
    (hpairs : ∀ q ∈ pairs, '.' ∉ q.1.data ∧ '.' ∉ q.2.data)
    (l : List String) (hl : ∃ s ∈ l, (splitDot s).length ≠ 2) :
    readDeps (DepsData.strs (pairs.map fun q => q.1 ++ "." ++ q.2)) infra
        = (Except.ok (pairs.map fun q =>
            { Module := none, ModuleName := q.2,
              InfraName := if q.1 = "this" then infra.Name else q.1, Output := "" }) :
          Except String (List (Dependency M))) ∧
      ∃ s ∈ l, (splitDot s).length ≠ 2 ∧
        readDeps (DepsData.strs l) infra
          = (Except.error ("Incorrect module dependency '" ++ s ++ "'") :
            Except String (List (Dependency M))) := by
  constructor
  · unfold readDeps
    simp only
    rw [readDepsLoop_pairs infra pairs [] hpairs]
    simp
  · unfold readDeps
    exact readDepsLoop_bad infra l [] hl

/-- C8 at `depends_on: [this.vpc, k8s.apps]` in the infrastructure `net`, and at a list
whose second string has two dots. -/
theorem readDeps_spec_witness :
    readDeps (DepsData.strs ([("this", "vpc"), ("k8s", "apps")].map fun q => q.1 ++ "." ++ q.2))
        { Name := "net" }
        = (Except.ok ([("this", "vpc"), ("k8s", "apps")].map fun q =>
            { Module := none, ModuleName := q.2,
              InfraName := if q.1 = "this" then "net" else q.1, Output := "" }) :
          Except String (List (Dependency Nat))) ∧
      ∃ s ∈ ["a.b", "a.b.c", "x"], (splitDot s).length ≠ 2 ∧
        readDeps (DepsData.strs ["a.b", "a.b.c", "x"]) { Name := "net" }
          = (Except.error ("Incorrect module dependency '" ++ s ++ "'") :
            Except String (List (Dependency Nat))) :=
  readDeps_spec { Name := "net" } [("this", "vpc"), ("k8s", "apps")] (by decide)
    ["a.b", "a.b.c", "x"] ⟨"a.b.c", by decide, by decide⟩

/-! ## Markers and keys: claims C9 and C10 -/

/-- C9 (marker form and determinism).  `CreateMarker(markerPath, dataForHash)` is
`h ++ "." ++ markerPath ++ "." ++ h` with `h = utils.Md5(dataForHash)`: the leading and the
trailing hash are the same string, and that string is fixed by `dataForHash` alone, whatever
the path.  (As a function of its two arguments, two calls with the same arguments give
the same marker.) -/
theorem CreateMarker_form (Md5 : String → String) (markerPath dataForHash : String) :
    CreateMarker Md5 markerPath dataForHash
        = Md5 dataForHash ++ "." ++ markerPath ++ "." ++ Md5 dataForHash ∧
      ∃ h, ∀ path, CreateMarker Md5 path dataForHash = h ++ "." ++ path ++ "." ++ h :=
  ⟨rfl, Md5 dataForHash, fun _ => rfl⟩

/-- Keys of modules with dot-free infrastructure and module names determine the pair
of names. -/
theorem Module_Key_injective_of_no_dot (m₁ m₂ : Common.Module)
    (h₁ : '.' ∉ m₁.InfraName.data ∧ '.' ∉ m₁.Name.data)
    (h₂ : '.' ∉ m₂.InfraName.data ∧ '.' ∉ m₂.Name.data) (hk : m₁.Key = m₂.Key) :
    m₁.InfraName = m₂.InfraName ∧ m₁.Name = m₂.Name := by
  have e₁ := splitDot_pair m₁.InfraName m₁.Name h₁.1 h₁.2
  have e₂ := splitDot_pair m₂.InfraName m₂.Name h₂.1 h₂.2
  have hk' : m₁.InfraName ++ "." ++ m₁.Name = m₂.InfraName ++ "." ++ m₂.Name := hk
  rw [hk', e₂] at e₁
  exact ⟨(List.cons.inj e₁).1.symm, (List.cons.inj (List.cons.inj e₁).2).1.symm⟩

/-- C10 at the failing input: the module `c` of the infrastructure `a.b` and the module
`b.c` of the infrastructure `a` have different pairs of names and the same key `a.b.c`;
the key is a function of the two names only. -/
theorem Module_Key_collision :
    (Common.Module.mk { Name := "a.b" } "c").Key = "a.b.c" ∧
      (Common.Module.mk { Name := "a" } "b.c").Key = "a.b.c" ∧
      ((Common.Module.mk { Name := "a.b" } "c").InfraName,
        (Common.Module.mk { Name := "a.b" } "c").Name)
        ≠ ((Common.Module.mk { Name := "a" } "b.c").InfraName,
          (Common.Module.mk { Name := "a" } "b.c").Name) ∧
      ∀ m₁ m₂ : Common.Module, m₁.InfraName = m₂.InfraName → m₁.Name = m₂.Name →
        m₁.Key = m₂.Key := by
  refine ⟨by decide, by decide, by decide, ?_⟩
  intro m₁ m₂ hi hn
  unfold Common.Module.Key
  have hn' : m₁.name = m₂.name := hn
  rw [hi, hn']

/-! ## Lemmas on the marker scanner -/

theorem substLeaves_length (f : String → Except String String) :
    ∀ l : List String, (substLeaves f l).1.length = l.length := by
  intro l
  induction l with
  | nil => rfl
  | cons s rest ih =>
    cases hf : f s with
    | error e => simp [substLeaves, hf]
    | ok t => simp [substLeaves, hf, ih]

theorem substLeaves_append (f : String → Except String String) :
    ∀ l₁ l₂ : List String,
      substLeaves f (l₁ ++ l₂) =
        if (substLeaves f l₁).2 = Status.ok then
          ((substLeaves f l₁).1 ++ (substLeaves f l₂).1, (substLeaves f l₂).2)
        else ((substLeaves f l₁).1 ++ l₂, (substLeaves f l₁).2) := by
  intro l₁ l₂
  induction l₁ with
  | nil => simp [substLeaves]
  | cons s rest ih =>
    cases hf : f s with
    | error e => simp [substLeaves, hf]
    | ok t =>
      simp only [List.cons_append, substLeaves, hf, List.append_eq]
      rw [ih]
      by_cases hok : (substLeaves f rest).2 = Status.ok
      · simp [hok]
      · simp [hok]

/-- When no leaf fails, every leaf is replaced. -/
theorem substLeaves_total (g : String → String) :
    ∀ l : List String, substLeaves (fun s => Except.ok (g s)) l = (l.map g, Status.ok) := by
  intro l
  induction l with
  | nil => rfl
  | cons s rest ih => simp [substLeaves, ih]

/-- With a first failing leaf, the leaves before it are replaced and the others stay. -/
theorem substLeaves_first_error (f : String → Except String String) (s e : String)
    (post : List String) (hs : f s = Except.error e) :
    ∀ pre : List String, (∀ x ∈ pre, ∃ t, f x = Except.ok t) →
      ∃ pre', substLeaves f (pre ++ s :: post) = (pre' ++ s :: post, Status.error e) ∧
        List.Forall₂ (fun x t => f x = Except.ok t) pre pre' := by
  intro pre
  induction pre with
  | nil =>
    intro _
    exact ⟨[], by simp [substLeaves, hs], List.Forall₂.nil⟩
  | cons x rest ih =>
    intro h
    obtain ⟨t, ht⟩ := h x (List.mem_cons_self _ _)
    obtain ⟨pre', hpre, hall⟩ := ih (fun y hy => h y (List.mem_cons_of_mem _ hy))
    exact ⟨t :: pre', by simp [substLeaves, ht, hpre], List.Forall₂.cons ht hall⟩

theorem map_blank_eq_of_length_eq (l₁ l₂ : List String) (h : l₁.length = l₂.length) :
    (l₁.map fun _ => "") = (l₂.map fun _ => "") := by
  induction l₁ generalizing l₂ with
  | nil =>
    cases l₂ with
    | nil => rfl
    | cons _ _ => simp at h
  | cons a l₁ ih =>
    cases l₂ with
    | nil => simp at h
    | cons b l₂ =>
      simp only [List.map_cons, List.cons.injEq, true_and]
      exact ih l₂ (by simpa using h)

/-- On a `[]string` the loop of the scanner is the substitution of the leaves. -/
theorem scanStrings_eq {Mod : Type} (procFunc : Val → Mod → Except String Val) (module : Mod)
    (f : String → Except String String)
    (hproc : ∀ s, procFunc (Val.str s) module = (f s).map Val.str) :
    ∀ xs : List String, scanStrings procFunc module xs = substLeaves f xs := by
  intro xs
  induction xs with
  | nil => rfl
  | cons s rest ih =>
    have hp := hproc s
    cases hf : f s with
    | error e =>
      rw [hf] at hp
      simp [scanStrings, substLeaves, hf, hp, Except.map]
    | ok t =>
      rw [hf] at hp
      simp [scanStrings, substLeaves, hf, hp, Except.map, ih]

theorem depth_le_depthList (x : Val) :
    ∀ xs : List Val, x ∈ xs → x.depth ≤ depthList xs := by
  intro xs
  induction xs with
  | nil => intro h; cases h
  | cons y ys ih =>
    intro h
    rw [depthList]
    rcases List.mem_cons.mp h with rfl | h'
    · exact le_max_left _ _
    · exact le_trans (ih h') (le_max_right _ _)

theorem depth_le_depthEntries (k : String) (v : Val) :
    ∀ kvs : List (String × Val), (k, v) ∈ kvs → v.depth ≤ depthEntries kvs := by
  intro kvs
  induction kvs with
  | nil => intro h; cases h
  | cons y ys ih =>
    intro h
    obtain ⟨k', v'⟩ := y
    rw [depthEntries]
    rcases List.mem_cons.mp h with heq | h'
    · cases heq
      exact le_max_left _ _
    · exact le_trans (ih h') (le_max_right _ _)

theorem substLeaves_status (f : String → Except String String) :
    ∀ l : List String,
      (substLeaves f l).2 = Status.ok ∨ ∃ e, (substLeaves f l).2 = Status.error e := by
  intro l
  induction l with
  | nil => exact Or.inl rfl
  | cons s rest ih =>
    cases hf : f s with
    | error e => exact Or.inr ⟨e, by simp [substLeaves, hf]⟩
    | ok t => simpa [substLeaves, hf] using ih

theorem scanSlice_cons_tree {Mod : Type} (procFunc : Val → Mod → Except String Val)
    (module : Mod) (recCall : Val → Option (Val × Status)) (x : Val) (rest : List Val)
    (hx : x.isStringTree = true) :
    scanSlice procFunc module recCall (x :: rest) =
      match recCall x with
      | none => none
      | some (elem', Status.ok) =>
        (scanSlice procFunc module recCall rest).map fun r => (elem' :: r.1, r.2)
      | some (elem', st) => some (elem' :: rest, st) := by
  cases x <;> first | rfl | simp [Val.isStringTree] at hx

theorem scanMap_cons_tree {Mod : Type} (procFunc : Val → Mod → Except String Val)
    (module : Mod) (recCall : Val → Option (Val × Status)) (k : String) (x : Val)
    (rest : List (String × Val)) (hx : x.isStringTree = true) :
    scanMap procFunc module recCall ((k, x) :: rest) =
      match recCall x with
      | none => none
      | some (elem', Status.ok) =>
        (scanMap procFunc module recCall rest).map fun r => ((k, elem') :: r.1, r.2)
      | some (elem', st) => some ((k, elem') :: rest, st) := by
  cases x <;> first | rfl | simp [Val.isStringTree] at hx

theorem allStringElems_cons (x : Val) (rest : List Val)
    (h : allStringElems (x :: rest) = true) :
    ((∃ s, x = Val.str s) ∨ x.isStringTree = true) ∧ allStringElems rest = true := by
  cases x <;> simp_all [allStringElems, Val.isStringTree]

theorem allStringEntries_cons (k : String) (x : Val) (rest : List (String × Val))
    (h : allStringEntries ((k, x) :: rest) = true) :
    ((∃ s, x = Val.str s) ∨ x.isStringTree = true) ∧ allStringEntries rest = true := by
  cases x <;> simp_all [allStringEntries, Val.isStringTree]

/-- The loop over a `[]interface{}` with string leaves is the substitution of its leaves,
when the recursive calls are. -/
theorem scanSlice_stringTree {Mod : Type} (procFunc : Val → Mod → Except String Val)
    (module : Mod) (f : String → Except String String)
    (hproc : ∀ s, procFunc (Val.str s) module = (f s).map Val.str)
    (recCall : Val → Option (Val × Status)) :
    ∀ xs : List Val, allStringElems xs = true →
      (∀ x ∈ xs, x.isStringTree = true →
        ∃ x', recCall x = some (x', (substLeaves f x.leaves).2) ∧
          x'.leaves = (substLeaves f x.leaves).1 ∧ x'.skeleton = x.skeleton) →
      ∃ xs', scanSlice procFunc module recCall xs
          = some (xs', (substLeaves f (leavesList xs)).2) ∧
        leavesList xs' = (substLeaves f (leavesList xs)).1 ∧
        skeletonList xs' = skeletonList xs := by
  intro xs
  induction xs with
  | nil => intro _ _; exact ⟨[], rfl, rfl, rfl⟩
  | cons x rest ih =>
    intro hall hrec
    obtain ⟨hx, hrest⟩ := allStringElems_cons x rest hall
    obtain ⟨rest', hr1, hr2, hr3⟩ :=
      ih hrest (fun y hy => hrec y (List.mem_cons_of_mem _ hy))
    rcases hx with ⟨s, rfl⟩ | hx
    · have hp := hproc s
      cases hf : f s with
      | error e =>
        rw [hf] at hp
        refine ⟨Val.str s :: rest, ?_, ?_, rfl⟩
        · simp [scanSlice, hp, Except.map, leavesList, Val.leaves, substLeaves, hf]
        · simp [leavesList, Val.leaves, substLeaves, hf]
      | ok t =>
        rw [hf] at hp
        refine ⟨Val.str t :: rest', ?_, ?_, ?_⟩
        · simp [scanSlice, hp, Except.map, leavesList, Val.leaves, substLeaves, hf, hr1]
        · simp [leavesList, Val.leaves, substLeaves, hf, hr2]
        · simp [skeletonList, Val.skeleton, hr3]
    · obtain ⟨x', hx1, hx2, hx3⟩ := hrec x (List.mem_cons_self _ _) hx
      rw [scanSlice_cons_tree procFunc module recCall x rest hx, hx1]
      have happ := substLeaves_append f x.leaves (leavesList rest)
      rcases substLeaves_status f x.leaves with hok | ⟨e, herr⟩
      · refine ⟨x' :: rest', ?_, ?_, ?_⟩
        · simp [hok, hr1, leavesList, happ]
        · simp [hok, leavesList, happ, hx2, hr2]
        · simp [skeletonList, hx3, hr3]
      · refine ⟨x' :: rest, ?_, ?_, ?_⟩
        · simp [herr, leavesList, happ]
        · simp [herr, leavesList, happ, hx2]
        · simp [skeletonList, hx3]

/-- The loop over a `map[string]interface{}` with string leaves is the substitution of
its leaves, when the recursive calls are. -/
theorem scanMap_stringTree {Mod : Type} (procFunc : Val → Mod → Except String Val)
    (module : Mod) (f : String → Except String String)
    (hproc : ∀ s, procFunc (Val.str s) module = (f s).map Val.str)
    (recCall : Val → Option (Val × Status)) :
    ∀ kvs : List (String × Val), allStringEntries kvs = true →
      (∀ k x, (k, x) ∈ kvs → x.isStringTree = true →
        ∃ x', recCall x = some (x', (substLeaves f x.leaves).2) ∧
          x'.leaves = (substLeaves f x.leaves).1 ∧ x'.skeleton = x.skeleton) →
      ∃ kvs', scanMap procFunc module recCall kvs
          = some (kvs', (substLeaves f (leavesEntries kvs)).2) ∧
        leavesEntries kvs' = (substLeaves f (leavesEntries kvs)).1 ∧
        skeletonEntries kvs' = skeletonEntries kvs := by
  intro kvs
  induction kvs with
  | nil => intro _ _; exact ⟨[], rfl, rfl, rfl⟩
  | cons kx rest ih =>
    obtain ⟨k, x⟩ := kx
    intro hall hrec
    obtain ⟨hx, hrest⟩ := allStringEntries_cons k x rest hall
    obtain ⟨rest', hr1, hr2, hr3⟩ :=
      ih hrest (fun k' y hy => hrec k' y (List.mem_cons_of_mem _ hy))
    rcases hx with ⟨s, rfl⟩ | hx
    · have hp := hproc s
      cases hf : f s with
      | error e =>
        rw [hf] at hp
        refine ⟨(k, Val.str s) :: rest, ?_, ?_, rfl⟩
        · simp [scanMap, hp, Except.map, leavesEntries, Val.leaves, substLeaves, hf]
        · simp [leavesEntries, Val.leaves, substLeaves, hf]
      | ok t =>
        rw [hf] at hp
        refine ⟨(k, Val.str t) :: rest', ?_, ?_, ?_⟩
        · simp [scanMap, hp, Except.map, leavesEntries, Val.leaves, substLeaves, hf, hr1]
        · simp [leavesEntries, Val.leaves, substLeaves, hf, hr2]
        · simp [skeletonEntries, Val.skeleton, hr3]
    · obtain ⟨x', hx1, hx2, hx3⟩ := hrec k x (List.mem_cons_self _ _) hx
      rw [scanMap_cons_tree procFunc module recCall k x rest hx, hx1]
      have happ := substLeaves_append f x.leaves (leavesEntries rest)
      rcases substLeaves_status f x.leaves with hok | ⟨e, herr⟩
      · refine ⟨(k, x') :: rest', ?_, ?_, ?_⟩
        · simp [hok, hr1, leavesEntries, happ]
        · simp [hok, leavesEntries, happ, hx2, hr2]
        · simp [skeletonEntries, hx3, hr3]
      · refine ⟨(k, x') :: rest, ?_, ?_, ?_⟩
        · simp [herr, leavesEntries, happ]
        · simp [herr, leavesEntries, happ, hx2]
        · simp [skeletonEntries, hx3]

/-- On a nesting of mappings and sequences with string leaves `ScanMarkers` is the
substitution of the leaves in traversal order: it returns once the fuel exceeds the depth
of the data, it ends as the substitution does, the leaves it leaves are those of the
substitution and the skeleton is unchanged. -/
theorem ScanMarkers_stringTree {Mod : Type} (procFunc : Val → Mod → Except String Val)
    (module : Mod) (f : String → Except String String)
    (hproc : ∀ s, procFunc (Val.str s) module = (f s).map Val.str) :
    ∀ (fuel : Nat) (data : Val), data.isStringTree = true → data.depth < fuel →
      ∃ data', ScanMarkers procFunc module fuel data
          = some (data', (substLeaves f data.leaves).2) ∧
        data'.leaves = (substLeaves f data.leaves).1 ∧ data'.skeleton = data.skeleton := by
  intro fuel
  induction fuel with
  | zero => intro data _ h; exact absurd h (Nat.not_lt_zero _)
  | succ n ih =>
    intro data htree hdepth
    cases data with
    | strs xs =>
      refine ⟨Val.strs (substLeaves f xs).1, ?_, rfl, ?_⟩
      · simp [ScanMarkers, scanOut, Val.isNilable, scanStrings_eq procFunc module f hproc,
          Val.leaves]
      · simp only [Val.skeleton]
        rw [map_blank_eq_of_length_eq _ _ (substLeaves_length f xs)]
    | seq xs =>
      have hd : depthList xs < n := by
        simp only [Val.depth] at hdepth
        omega
      obtain ⟨xs', h1, h2, h3⟩ := scanSlice_stringTree procFunc module f hproc
        (ScanMarkers procFunc module n) xs (by simpa [Val.isStringTree] using htree)
        (fun x hx hxt => ih x hxt (lt_of_le_of_lt (depth_le_depthList x xs hx) hd))
      refine ⟨Val.seq xs', ?_, ?_, ?_⟩
      · simp [ScanMarkers, scanOut, Val.isNilable, h1, Val.leaves]
      · simpa [Val.leaves] using h2
      · simp [Val.skeleton, h3]
    | map kvs =>
      have hd : depthEntries kvs < n := by
        simp only [Val.depth] at hdepth
        omega
      obtain ⟨kvs', h1, h2, h3⟩ := scanMap_stringTree procFunc module f hproc
        (ScanMarkers procFunc module n) kvs (by simpa [Val.isStringTree] using htree)
        (fun k x hx hxt => ih x hxt (lt_of_le_of_lt (depth_le_depthEntries k x kvs hx) hd))
      refine ⟨Val.map kvs', ?_, ?_, ?_⟩
      · simp [ScanMarkers, scanOut, Val.isNilable, h1, Val.leaves]
      · simpa [Val.leaves] using h2
      · simp [Val.skeleton, h3]
    | nil => simp [Val.isStringTree] at htree
    | str s => simp [Val.isStringTree] at htree
    | int k => simp [Val.isStringTree] at htree
    | bool b => simp [Val.isStringTree] at htree
    | ptr t => simp [Val.isStringTree] at htree
    | struct fs => simp [Val.isStringTree] at htree

/-! ## The marker scanner: claims C11 to C13 -/

/-- C11 (marker scan substitution).  For every nesting `data` of `map[string]interface{}`,
`[]interface{}` and `[]string` all of whose leaves are strings, and every substitution
function that never fails (on a string `s` it returns the string `f s`),
`ScanMarkers(data, f, m)` returns `nil` for every recursion bound above the depth of the
data; afterwards the string leaves, in traversal order, are the old leaves with `f`
applied to each, and the skeleton of the data is unchanged: every mapping has the same
keys and every sequence the same length and order. -/
theorem ScanMarkers_substitutes {Mod : Type} (procFunc : Val → Mod → Except String Val)
    (module : Mod) (f : String → String)
    (hf : ∀ s, procFunc (Val.str s) module = Except.ok (Val.str (f s)))
    (data : Val) (htree : data.isStringTree = true) :
    ∀ fuel, data.depth < fuel →
      ∃ data', ScanMarkers procFunc module fuel data = some (data', Status.ok) ∧
        data'.leaves = data.leaves.map f ∧ data'.skeleton = data.skeleton := by
  intro fuel hfuel
  obtain ⟨data', h1, h2, h3⟩ := ScanMarkers_stringTree procFunc module
    (fun s => Except.ok (f s)) (fun s => by rw [hf s]; rfl) fuel data htree hfuel
  rw [substLeaves_total] at h1 h2
  exact ⟨data', h1, h2, h3⟩

/-- C11 at the inputs `{name: vpc, tags: [a, b], zones: {list: [x]}}` with the substitution
that puts every string in brackets. -/
theorem ScanMarkers_substitutes_witness :
    ∃ data', ScanMarkers exProc (exHeap 0) 3 exInputs = some (data', Status.ok) ∧
      data'.leaves = exInputs.leaves.map (fun s => "<" ++ s ++ ">") ∧
      data'.skeleton = exInputs.skeleton :=
  ScanMarkers_substitutes exProc (exHeap 0) (fun s => "<" ++ s ++ ">") (fun _ => rfl)
    exInputs (by decide) 3 (by decide)

/-- C12 at the failing input: on the inputs `{name: vpc, count: 3}` with a substitution
that never fails, `ScanMarkers` does not return `nil`: it panics, for every recursion
bound that lets it reach the number, in the call of `IsNil` on the number; the number is
not replaced. -/
theorem ScanMarkers_panics_on_number :
    ∀ fuel, ScanMarkers exProc (exHeap 0) (fuel + 2) exMixedInputs
      = some (Val.map [("name", Val.str "<vpc>"), ("count", Val.int 3)], Status.panic) := by
  intro fuel
  rfl

/-- C13 as stated fails: on the sequence `[a, bad, c]` with a substitution that fails on
`bad`, `ScanMarkers` returns the error and the leaf `a` has been replaced. -/
theorem ScanMarkers_fail_fast_counterexample :
    ¬ (∀ (procFunc : Val → Unit Nat → Except String Val) (module : Unit Nat) (fuel : Nat)
        (data data' : Val) (e : String),
        ScanMarkers procFunc module fuel data = some (data', Status.error e) →
        data'.leaves = data.leaves) := by
  intro h
  have hc := h exProcFailing (exHeap 0) 1 exFailingInputs (Val.strs ["<a>", "bad", "c"])
    "unknown marker" rfl
  revert hc
  decide

/-- C13 as amended (marker scan fail-fast).  For every nesting `data` of mappings and
sequences with string leaves and every substitution function that fails with error `e`
on the leaf `s` and succeeds on the leaves `pre` before it in traversal order,
`ScanMarkers` returns the error `e` for every recursion bound above the depth of the data;
the leaves before `s` have been replaced by their substitutions, `s` and the leaves after
it are unchanged (no later leaf is processed), and the skeleton is unchanged. -/
theorem ScanMarkers_fail_fast {Mod : Type} (procFunc : Val → Mod → Except String Val)
    (module : Mod) (f : String → Except String String)
    (hproc : ∀ s, procFunc (Val.str s) module = (f s).map Val.str)
    (data : Val) (htree : data.isStringTree = true)
    (pre : List String) (s : String) (post : List String) (e : String)
    (hleaves : data.leaves = pre ++ s :: post)
    (hpre : ∀ x ∈ pre, ∃ t, f x = Except.ok t) (hs : f s = Except.error e) :
    ∀ fuel, data.depth < fuel →
      ∃ data' pre', ScanMarkers procFunc module fuel data = some (data', Status.error e) ∧
        data'.leaves = pre' ++ s :: post ∧
        List.Forall₂ (fun x t => f x = Except.ok t) pre pre' ∧
        data'.skeleton = data.skeleton := by
  intro fuel hfuel
  obtain ⟨data', h1, h2, h3⟩ :=
    ScanMarkers_stringTree procFunc module f hproc fuel data htree hfuel
  obtain ⟨pre', hsub, hall⟩ := substLeaves_first_error f s e post hs pre hpre
  rw [hleaves, hsub] at h1 h2
  exact ⟨data', pre', h1, h2, hall, h3⟩

/-- C13 as amended at the sequence `[a, bad, c]`: the error of `bad` is returned, `a` has
been replaced, `bad` and `c` are unchanged. -/
theorem ScanMarkers_fail_fast_witness :
    ∃ data' pre',
      ScanMarkers exProcFailing (exHeap 0) 1 exFailingInputs
        = some (data', Status.error "unknown marker") ∧
      data'.leaves = pre' ++ "bad" :: ["c"] ∧
      List.Forall₂ (fun x t =>
        (if x = "bad" then Except.error "unknown marker"
          else (Except.ok ("<" ++ x ++ ">") : Except String String)) = Except.ok t)
        ["a"] pre' ∧
      data'.skeleton = exFailingInputs.skeleton :=
  ScanMarkers_fail_fast exProcFailing (exHeap 0)
    (fun x => if x = "bad" then Except.error "unknown marker" else Except.ok ("<" ++ x ++ ">"))
    (fun s => by
      by_cases h : s = "bad"
      · simp [exProcFailing, h, Except.map]
      · simp [exProcFailing, h, Except.map])
    exFailingInputs (by decide) ["a"] "bad" ["c"] "unknown marker" rfl
    (by
      intro x hx
      have hxa : x = "a" := by simpa using hx
      subst hxa
      exact ⟨"<a>", rfl⟩)
    rfl 1 (by decide)

/-! ## Locking and persisted state: claims C14 to C17 -/

/-- C14 (lock exclusivity, local state).  With an empty `StateBackendName` and the file
system as explicit state: if the lock file exists, `LockState` returns the error "state is
locked by another process" and changes nothing; if it does not exist, `LockState` creates
it (empty, all other files unchanged) and returns `nil`, and a second `LockState` then
fails with that error; if the lock file exists, `UnLockState` returns `nil`, the lock
file is gone, and the next `LockState` returns `nil`. -/
theorem LockState_exclusive {U V : Type} (cfg : State.Config) (p : State.Project U V)
    (fs : State.Files) (hlocal : p.StateBackendName = "") :
    (∀ c, fs cfg.StateLocalLockFile = some c →
        State.LockState cfg p fs = (fs, some "state is locked by another process")) ∧
      (fs cfg.StateLocalLockFile = none →
        State.LockState cfg p fs = (fs.write cfg.StateLocalLockFile "", none) ∧
        (State.LockState cfg p fs).1 cfg.StateLocalLockFile = some "" ∧
        (∀ n, n ≠ cfg.StateLocalLockFile → (State.LockState cfg p fs).1 n = fs n) ∧
        State.LockState cfg p (State.LockState cfg p fs).1
          = ((State.LockState cfg p fs).1, some "state is locked by another process")) ∧
      (∀ c, fs cfg.StateLocalLockFile = some c →
        State.UnLockState cfg p fs = (fs.remove cfg.StateLocalLockFile, none) ∧
        (State.UnLockState cfg p fs).1 cfg.StateLocalLockFile = none ∧
        (State.LockState cfg p (State.UnLockState cfg p fs).1).2 = none) := by
  have hw : (fs.write cfg.StateLocalLockFile "") cfg.StateLocalLockFile = some "" := by
    simp [State.Files.write]
  have hr : (fs.remove cfg.StateLocalLockFile) cfg.StateLocalLockFile = none := by
    simp [State.Files.remove]
  refine ⟨?_, ?_, ?_⟩
  · intro c hc
    simp [State.LockState, hlocal, hc]
  · intro hnone
    have h1 : State.LockState cfg p fs = (fs.write cfg.StateLocalLockFile "", none) := by
      simp [State.LockState, hlocal, hnone]
    refine ⟨h1, ?_, ?_, ?_⟩
    · rw [h1]; exact hw
    · intro n hn
      rw [h1]
      simp [State.Files.write, hn]
    · rw [h1]
      simp [State.LockState, hlocal, hw]
  · intro c hc
    have h1 : State.UnLockState cfg p fs = (fs.remove cfg.StateLocalLockFile, none) := by
      simp [State.UnLockState, hlocal, hc]
    refine ⟨h1, ?_, ?_⟩
    · rw [h1]; exact hr
    · rw [h1]
      simp [State.LockState, hlocal, hr]

/-- C14 at the example project with local state. -/
theorem LockState_exclusive_witness :
    (∀ c, exNoFiles exConfig.StateLocalLockFile = some c →
        State.LockState exConfig exStateProject exNoFiles
          = (exNoFiles, some "state is locked by another process")) ∧
      (exNoFiles exConfig.StateLocalLockFile = none →
        State.LockState exConfig exStateProject exNoFiles
          = (exNoFiles.write exConfig.StateLocalLockFile "", none) ∧
        (State.LockState exConfig exStateProject exNoFiles).1 exConfig.StateLocalLockFile
          = some "" ∧
        (∀ n, n ≠ exConfig.StateLocalLockFile →
          (State.LockState exConfig exStateProject exNoFiles).1 n = exNoFiles n) ∧
        State.LockState exConfig exStateProject
            (State.LockState exConfig exStateProject exNoFiles).1
          = ((State.LockState exConfig exStateProject exNoFiles).1,
              some "state is locked by another process")) ∧
      (∀ c, exNoFiles exConfig.StateLocalLockFile = some c →
        State.UnLockState exConfig exStateProject exNoFiles
          = (exNoFiles.remove exConfig.StateLocalLockFile, none) ∧
        (State.UnLockState exConfig exStateProject exNoFiles).1 exConfig.StateLocalLockFile
          = none ∧
        (State.LockState exConfig exStateProject
          (State.UnLockState exConfig exStateProject exNoFiles).1).2 = none) :=
  LockState_exclusive exConfig exStateProject exNoFiles rfl

/-- C15 at the failing input: local state, no lock file, `LockState` succeeds and
`project.Apply()` fails.  The command returns the error of `Apply` after the calls
`LockState` and `Apply` only: `UnLockState` is not called and the lock file still exists.
The same holds when `PrintOutputs` fails.  On the path without errors `UnLockState` is
called and the lock file is gone. -/
theorem applyRunE_returns_locked :
    Cmd.applyRunE exConfig exStateProject none exFailingApply exSucceeding exNoFiles
        = (exNoFiles.write "cdev.lock" "", ["LockState", "Apply"],
            some "terraform apply failed") ∧
      (Cmd.applyRunE exConfig exStateProject none exFailingApply exSucceeding exNoFiles).1
        "cdev.lock" = some "" ∧
      (Cmd.applyRunE exConfig exStateProject none exSucceeding exFailingApply exNoFiles).2.1
        = ["LockState", "Apply", "PrintOutputs"] ∧
      (Cmd.applyRunE exConfig exStateProject none exSucceeding exFailingApply exNoFiles).1
        "cdev.lock" = some "" ∧
      (Cmd.applyRunE exConfig exStateProject none exSucceeding exSucceeding exNoFiles).2.1
        = ["LockState", "Apply", "PrintOutputs", "UnLockState"] ∧
      (Cmd.applyRunE exConfig exStateProject none exSucceeding exSucceeding exNoFiles).1
        "cdev.lock" = none := by
  refine ⟨rfl, by decide, by decide, by decide, by decide, by decide⟩

/-- C16 (content of the saved state).  The document that `SaveState` hands to the encoder
has the tool version, the markers table of the project, and a units map with exactly
the keys of `p.Units`, the value under each key being `GetState()` of the unit under
that key; when the encoder succeeds and the state is local, its output is what
`SaveState` writes to the state file. -/
theorem SaveState_content {U V S : Type} (cfg : State.Config) (GetState : U → S)
    (Encode : State.stateData V S → Except String String) (p : State.Project U V)
    (fs : State.Files) :
    (State.SaveState.st cfg GetState p).CdevVersion = cfg.Version ∧
      (State.SaveState.st cfg GetState p).Markers = p.Markers ∧
      (∀ key, ((State.SaveState.st cfg GetState p).Units key).isSome
        = (p.Units key).isSome) ∧
      (∀ key u, p.Units key = some u →
        (State.SaveState.st cfg GetState p).Units key = some (GetState u)) ∧
      (∀ buffer, Encode (State.SaveState.st cfg GetState p) = Except.ok buffer →
        p.StateBackendName = "" →
        State.SaveState cfg GetState Encode p fs
          = (fs.write cfg.StateLocalFileName buffer, none)) := by
  refine ⟨rfl, rfl, ?_, ?_, ?_⟩
  · intro key
    simp [State.SaveState.st]
  · intro key u hu
    simp [State.SaveState.st, hu]
  · intro buffer henc hlocal
    simp [State.SaveState, henc, hlocal]

/-- C17 at the struct of the source: the tag of the field `CdevVersion` is written
`json:version`, without the quotes of the conventional format, so the tag lookup finds no
`json` value and the field is encoded under its own name; the top-level keys of the
document are `CdevVersion`, `markers` and `units`, and `version` is not among them. -/
theorem stateData_keys (unicodeLetterOrDigit : Char → Bool) :
    State.stateDataKeys unicodeLetterOrDigit = ["CdevVersion", "markers", "units"] ∧
      State.tagGet "json:version" "json" = "" ∧
      "version" ∉ State.stateDataKeys unicodeLetterOrDigit ∧
      State.jsonKey unicodeLetterOrDigit "CdevVersion" "json:\"version\"" = some "version" := by
  have hkeys : State.stateDataKeys unicodeLetterOrDigit = ["CdevVersion", "markers", "units"] :=
    rfl
  refine ⟨hkeys, by decide, ?_, rfl⟩
  rw [hkeys]
  decide

/-! ## Hooks and tool errors: claims C18 and C19 -/

theorem hookEnabled_iff (hook : Option Common.hookSpec) (flag : Common.hookSpec → Bool) :
    Common.hookEnabled hook flag = true ↔ ∃ h, hook = some h ∧ flag h = true := by
  cases hook with
  | none => simp [Common.hookEnabled]
  | some h => simp [Common.hookEnabled]

/-- C18 (hook ordering).  For `ApplyCommon`, `Plan` and `Destroy` the command handed to the
runner is `P ++ "<bin> init && <bin> <op>" ++ Q`, with `<op>` being `apply -auto-approve`,
`plan` and `destroy -auto-approve`; `P` is `"./pre_hook.sh && "` when the pre-hook is set
and enabled for the operation (`OnApply`, `OnPlan`, `OnDestroy`) and empty otherwise, `Q` is
`" && ./post_hook.sh"` when the post-hook is set and enabled for the operation and empty
otherwise; a hook counts as enabled exactly when it is not `nil` and its flag is true. -/
theorem hook_ordering (terraformBin : String) (m : Common.ModuleHooks)
    (Run : String → Common.RunResult) :
    Common.ApplyCommon.cmd terraformBin m
        = (if Common.hookEnabled m.preHook Common.hookSpec.OnApply
            then "./pre_hook.sh && " else "")
          ++ (terraformBin ++ " init && " ++ terraformBin ++ " apply -auto-approve")
          ++ (if Common.hookEnabled m.postHook Common.hookSpec.OnApply
            then " && ./post_hook.sh" else "") ∧
      Common.Plan.cmd terraformBin m
        = (if Common.hookEnabled m.preHook Common.hookSpec.OnPlan
            then "./pre_hook.sh && " else "")
          ++ (terraformBin ++ " init && " ++ terraformBin ++ " plan")
          ++ (if Common.hookEnabled m.postHook Common.hookSpec.OnPlan
            then " && ./post_hook.sh" else "") ∧
      Common.Destroy.cmd terraformBin m
        = (if Common.hookEnabled m.preHook Common.hookSpec.OnDestroy
            then "./pre_hook.sh && " else "")
          ++ (terraformBin ++ " init && " ++ terraformBin ++ " destroy -auto-approve")
          ++ (if Common.hookEnabled m.postHook Common.hookSpec.OnDestroy
            then " && ./post_hook.sh" else "") ∧
      (∀ (hook : Option Common.hookSpec) (flag : Common.hookSpec → Bool),
        Common.hookEnabled hook flag = true ↔ ∃ h, hook = some h ∧ flag h = true) ∧
      Common.ApplyCommon terraformBin m Run
        = Common.runError (Run (Common.ApplyCommon.cmd terraformBin m)) ∧
      Common.Plan terraformBin m Run
        = Common.runError (Run (Common.Plan.cmd terraformBin m)) ∧
      Common.Destroy terraformBin m Run
        = Common.runError (Run (Common.Destroy.cmd terraformBin m)) := by
  refine ⟨?_, ?_, ?_, hookEnabled_iff, rfl, ?_, rfl⟩
  · unfold Common.ApplyCommon.cmd
    by_cases h1 : Common.hookEnabled m.preHook Common.hookSpec.OnApply = true <;>
      by_cases h2 : Common.hookEnabled m.postHook Common.hookSpec.OnApply = true <;>
      simp [h1, h2]
  · unfold Common.Plan.cmd
    by_cases h1 : Common.hookEnabled m.preHook Common.hookSpec.OnPlan = true <;>
      by_cases h2 : Common.hookEnabled m.postHook Common.hookSpec.OnPlan = true <;>
      simp [h1, h2]
  · unfold Common.Destroy.cmd
    by_cases h1 : Common.hookEnabled m.preHook Common.hookSpec.OnDestroy = true <;>
      by_cases h2 : Common.hookEnabled m.postHook Common.hookSpec.OnDestroy = true <;>
      simp [h1, h2]
  · unfold Common.Plan Common.runError
    cases (Run (Common.Plan.cmd terraformBin m)).err <;> rfl

/-- The error that `runError` shapes from the results of the runner. -/
theorem runError_spec (r : Common.RunResult) :
    (∀ e, r.err = some e → r.errMsg.utf8ByteSize > 1 →
        Common.runError r = some (e ++ ", error output:\n " ++ r.errMsg)) ∧
      (∀ e, r.err = some e → ¬ r.errMsg.utf8ByteSize > 1 → Common.runError r = some e) ∧
      (r.err = none → Common.runError r = none) := by
  refine ⟨?_, ?_, ?_⟩
  · intro e he hlen
    simp [Common.runError, he, hlen]
  · intro e he hlen
    simp [Common.runError, he, hlen]
  · intro he
    simp [Common.runError, he]

/-- C19 (external-tool error reporting).  Let `op` be one of `InitCommon`, `ApplyCommon`,
`Plan` and `Destroy` and let the runner return the error output `msg` and the error `e` on
the command of `op`.  If `e` is an error and `len(msg) > 1`, `op` returns the error with
text `e`, then `", error output:\n "`, then `msg`; if `e` is an error and `len(msg) <= 1`,
`op` returns the bare `e`; if the runner returns no error, `op` returns `nil`. -/
theorem tool_error_reporting (terraformBin : String) (m : Common.ModuleHooks)
    (Run : String → Common.RunResult) (op : Option String) (r : Common.RunResult)
    (hop : (op = Common.InitCommon terraformBin Run ∧
          r = Run (Common.InitCommon.cmd terraformBin)) ∨
        (op = Common.ApplyCommon terraformBin m Run ∧
          r = Run (Common.ApplyCommon.cmd terraformBin m)) ∨
        (op = Common.Plan terraformBin m Run ∧
          r = Run (Common.Plan.cmd terraformBin m)) ∨
        (op = Common.Destroy terraformBin m Run ∧
          r = Run (Common.Destroy.cmd terraformBin m))) :
    (∀ e, r.err = some e → r.errMsg.utf8ByteSize > 1 →
        op = some (e ++ ", error output:\n " ++ r.errMsg)) ∧
      (∀ e, r.err = some e → ¬ r.errMsg.utf8ByteSize > 1 → op = some e) ∧
      (r.err = none → op = none) := by
  have hplan : Common.Plan terraformBin m Run
      = Common.runError (Run (Common.Plan.cmd terraformBin m)) := by
    unfold Common.Plan Common.runError
    cases (Run (Common.Plan.cmd terraformBin m)).err <;> rfl
  have hrun : op = Common.runError r := by
    rcases hop with ⟨h1, h2⟩ | ⟨h1, h2⟩ | ⟨h1, h2⟩ | ⟨h1, h2⟩
    · rw [h1, h2]; rfl
    · rw [h1, h2]; rfl
    · rw [h1, h2]; exact hplan
    · rw [h1, h2]; rfl
  rw [hrun]
  exact runError_spec r

/-- C19 at an apply whose command fails with the error output `no credentials`. -/
theorem tool_error_reporting_witness :
    (∀ e, (Common.exFailingRun (Common.ApplyCommon.cmd "terraform" Common.exHooks)).err = some e →
        (Common.exFailingRun
          (Common.ApplyCommon.cmd "terraform" Common.exHooks)).errMsg.utf8ByteSize > 1 →
        Common.ApplyCommon "terraform" Common.exHooks Common.exFailingRun
          = some (e ++ ", error output:\n " ++
            (Common.exFailingRun (Common.ApplyCommon.cmd "terraform" Common.exHooks)).errMsg)) ∧
      (∀ e, (Common.exFailingRun (Common.ApplyCommon.cmd "terraform" Common.exHooks)).err = some e →
        ¬ (Common.exFailingRun
          (Common.ApplyCommon.cmd "terraform" Common.exHooks)).errMsg.utf8ByteSize > 1 →
        Common.ApplyCommon "terraform" Common.exHooks Common.exFailingRun = some e) ∧
      ((Common.exFailingRun (Common.ApplyCommon.cmd "terraform" Common.exHooks)).err = none →
        Common.ApplyCommon "terraform" Common.exHooks Common.exFailingRun = none) :=
  tool_error_reporting "terraform" Common.exHooks Common.exFailingRun
    (Common.ApplyCommon "terraform" Common.exHooks Common.exFailingRun)
    (Common.exFailingRun (Common.ApplyCommon.cmd "terraform" Common.exHooks))
    (Or.inr (Or.inl ⟨rfl, rfl⟩))

/-! ## Infrastructure objects: claim C20 -/

theorem readTemplateFiles_no_panic {B T : Type} (env : Infra.TemplateEnv T)
    (i : Infra.Infrastructure B T) :
    ∀ files : List String, (Infra.readTemplateFiles env i files).2 ≠ Status.panic := by
  intro files
  induction files with
  | nil => simp [Infra.readTemplateFiles]
  | cons fn rest ih =>
    unfold Infra.readTemplateFiles
    split
    · simp
    · split
      · simp
      · split
        · simp
        · exact ih

/-- `ReadTemplates` returns `nil`, returns an error or ends the process; it does not
panic. -/
theorem ReadTemplates_no_panic {B T : Type} (env : Infra.TemplateEnv T)
    (i : Infra.Infrastructure B T) (src : String) :
    (Infra.ReadTemplates env i src).2 ≠ Status.panic := by
  unfold Infra.ReadTemplates
  dsimp only
  split
  · split
    · simp
    · split
      · simp
      · rename_i _ i₁ _ _ files _ _ ts st _ hne
        have hno := readTemplateFiles_no_panic env i₁ files
        rw [hne] at hno
        exact hno
  · rename_i i₁ st hst heq
    intro hp
    have hp' : st = Status.panic := hp
    subst hp'
    split at heq
    · split at heq <;> simp at heq
    · simp at heq

/-- A call of `readInfrastructureObj` that does not return `nil` leaves the project as it
was. -/
theorem readInfrastructureObj_unchanged {B T : Type} (env : Infra.TemplateEnv T)
    (p : Infra.Project B T) (data : String → Option Val)
    (h : (Infra.readInfrastructureObj env p data).2 ≠ Status.ok) :
    (Infra.readInfrastructureObj env p data).1 = p := by
  unfold Infra.readInfrastructureObj at h ⊢
  split
  · split
    · rfl
    · dsimp only
      dsimp only at h
      split
      · split
        · split
          · split
            · split
              · rfl
              · simp_all
            · rfl
          · rfl
        · rfl
      · rfl
  · rfl

theorem readInfrastructureObj_no_panic {B T : Type} (env : Infra.TemplateEnv T)
    (p : Infra.Project B T) (data : String → Option Val) :
    (Infra.readInfrastructureObj env p data).2 ≠ Status.panic := by
  unfold Infra.readInfrastructureObj
  split
  · split
    · simp
    · dsimp only
      split
      · split
        · split
          · split
            · split
              · simp
              · simp
            · simp
          · rename_i i st _ heq
            intro hp
            have hp' : st = Status.panic := hp
            subst hp'
            exact ReadTemplates_no_panic env _ _ (congrArg Prod.snd heq)
        · simp
      · simp
  · simp

/-- The checks of `readInfrastructureObj` that come before the templates are read. -/
theorem readInfrastructureObj_early_error {B T : Type} (env : Infra.TemplateEnv T)
    (p : Infra.Project B T) (data : String → Option Val)
    (h : (∀ s, data "name" ≠ some (Val.str s)) ∨
      (∃ n, data "name" = some (Val.str n) ∧ (p.Infrastructures n).isSome) ∨
      (∀ s, data "template" ≠ some (Val.str s)) ∨
      (∀ kvs, data "variables" ≠ some (Val.map kvs))) :
    ∃ e, (Infra.readInfrastructureObj env p data).2 = Status.error e := by
  have ht : ¬ ("template" = "secret") := by decide
  have hv : ¬ ("variables" = "secret") := by decide
  unfold Infra.readInfrastructureObj
  split
  · rename_i name hname
    split
    · exact ⟨_, rfl⟩
    · rename_i hdup
      dsimp only
      simp only [ht, hv, if_false]
      split
      · rename_i tmplSource htmpl
        split
        · rename_i vars hvars
          rcases h with h | ⟨n, hn, hd⟩ | h | h
          · exact absurd hname (h name)
          · rw [hname] at hn
            cases hn
            exact absurd hd hdup
          · exact absurd htmpl (h tmplSource)
          · exact absurd hvars (h vars)
        · exact ⟨_, rfl⟩
      · exact ⟨_, rfl⟩
  · exact ⟨_, rfl⟩

/-- With a backend that is missing, not a string or not registered, the call does not
return `nil`. -/
theorem readInfrastructureObj_backend_not_ok {B T : Type} (env : Infra.TemplateEnv T)
    (p : Infra.Project B T) (data : String → Option Val)
    (h : (∀ s, data "backend" ≠ some (Val.str s)) ∨
      (∃ b, data "backend" = some (Val.str b) ∧ p.Backends b = none)) :
    (Infra.readInfrastructureObj env p data).2 ≠ Status.ok := by
  have hb : ¬ ("backend" = "secret") := by decide
  unfold Infra.readInfrastructureObj
  split
  · split
    · simp
    · dsimp only
      simp only [hb, if_false]
      split
      · split
        · split
          · split
            · rename_i b hbk
              split
              · simp
              · rename_i bPtr hsome
                rcases h with h | ⟨b', hb', hnone⟩
                · exact absurd hbk (h b)
                · rw [hbk] at hb'
                  cases hb'
                  rw [hnone] at hsome
                  cases hsome
            · simp
          · rename_i i st hne heq
            exact fun hok => hne hok
        · simp
      · simp
  · simp

/-- What a call of `readInfrastructureObj` that returns `nil` has done. -/
theorem readInfrastructureObj_ok {B T : Type} (env : Infra.TemplateEnv T)
    (p : Infra.Project B T) (data : String → Option Val) :
    (Infra.readInfrastructureObj env p data).2 = Status.ok →
      ∃ name b bPtr infra, data "name" = some (Val.str name) ∧
        p.Infrastructures name = none ∧ data "backend" = some (Val.str b) ∧
        p.Backends b = some bPtr ∧
        (Infra.readInfrastructureObj env p data).1.Infrastructures name = some infra ∧
        infra.Backend = some bPtr ∧ infra.Name = name ∧ infra.BackendName = b ∧
        (∀ k, k ≠ name →
          (Infra.readInfrastructureObj env p data).1.Infrastructures k = p.Infrastructures k) ∧
        (Infra.readInfrastructureObj env p data).1.Backends = p.Backends := by
  have hb : ¬ ("backend" = "secret") := by decide
  unfold Infra.readInfrastructureObj
  split
  · rename_i name hname
    split
    · intro h; cases h
    · rename_i hdup
      dsimp only
      simp only [hb, if_false]
      split
      · split
        · split
          · split
            · rename_i b hbk
              split
              · intro h; cases h
              · rename_i bPtr hsome
                intro _
                refine ⟨name, b, bPtr, _, hname, ?_, hbk, hsome, if_pos rfl, ?_, ?_, ?_, ?_, rfl⟩
                · simpa using hdup
                · rfl
                · rfl
                · rfl
                · intro k hk
                  simp [hk]
            · intro h; cases h
          · rename_i i st hne heq
            intro hok
            exact absurd hok hne
        · intro h; cases h
      · intro h; cases h
  · intro h; cases h

/-- C20 as stated fails: the object names the backend `gcs`, which is not registered, and
its template cannot be executed; `readInfrastructureObj` does not return an error: reading
the templates ends the process (`log.Fatal`) before the backend is looked at. -/
theorem readInfrastructureObj_atomic_counterexample :
    ¬ (∀ (env : Infra.TemplateEnv String) (p : Infra.Project Nat String)
        (data : String → Option Val) (b : String),
        data "backend" = some (Val.str b) → p.Backends b = none →
        ∃ e, (Infra.readInfrastructureObj env p data).2 = Status.error e) := by
  intro h
  obtain ⟨e, he⟩ := h Infra.exBrokenTemplates Infra.exInfraProject Infra.exInfraObj "gcs" rfl rfl
  have hf : (Infra.readInfrastructureObj Infra.exBrokenTemplates Infra.exInfraProject
      Infra.exInfraObj).2 = Status.fatal := by decide
  rw [hf] at he
  cases he

/-- C20 as amended (stack configuration errors are atomic).  Whenever
`readInfrastructureObj` does not return `nil`, `p.Infrastructures` (the whole project) is
unchanged.  It returns an error whenever `name` or `template` is missing or not a string,
`variables` is missing or not a mapping, or the name is already a key of
`p.Infrastructures`.  Whenever `backend` is missing, not a string or not a key of
`p.Backends`, it does not return `nil`, and it returns an error unless reading the
templates ends the process.  When it returns `nil`, the name was not a key of
`p.Infrastructures`, `p.Infrastructures` has gained the entry `name` for the new
infrastructure, whose `Backend` is `p.Backends[backend]`, and every other key is as
before. -/
theorem readInfrastructureObj_atomic {B T : Type} (env : Infra.TemplateEnv T)
    (p : Infra.Project B T) (data : String → Option Val) :
    ((Infra.readInfrastructureObj env p data).2 ≠ Status.ok →
        (Infra.readInfrastructureObj env p data).1 = p) ∧
      (((∀ s, data "name" ≠ some (Val.str s)) ∨
          (∃ n, data "name" = some (Val.str n) ∧ (p.Infrastructures n).isSome) ∨
          (∀ s, data "template" ≠ some (Val.str s)) ∨
          (∀ kvs, data "variables" ≠ some (Val.map kvs))) →
        ∃ e, (Infra.readInfrastructureObj env p data).2 = Status.error e) ∧
      (((∀ s, data "backend" ≠ some (Val.str s)) ∨
          (∃ b, data "backend" = some (Val.str b) ∧ p.Backends b = none)) →
        (Infra.readInfrastructureObj env p data).2 ≠ Status.ok ∧
        ((Infra.readInfrastructureObj env p data).2 ≠ Status.fatal →
          ∃ e, (Infra.readInfrastructureObj env p data).2 = Status.error e)) ∧
      ((Infra.readInfrastructureObj env p data).2 = Status.ok →
        ∃ name b bPtr infra, data "name" = some (Val.str name) ∧
          p.Infrastructures name = none ∧ data "backend" = some (Val.str b) ∧
          p.Backends b = some bPtr ∧
          (Infra.readInfrastructureObj env p data).1.Infrastructures name = some infra ∧
          infra.Backend = some bPtr ∧ infra.Name = name ∧ infra.BackendName = b ∧
          (∀ k, k ≠ name →
            (Infra.readInfrastructureObj env p data).1.Infrastructures k
              = p.Infrastructures k) ∧
          (Infra.readInfrastructureObj env p data).1.Backends = p.Backends) := by
  refine ⟨readInfrastructureObj_unchanged env p data,
    readInfrastructureObj_early_error env p data, ?_, readInfrastructureObj_ok env p data⟩
  intro h
  have hnok := readInfrastructureObj_backend_not_ok env p data h
  refine ⟨hnok, fun hnf => ?_⟩
  have hnp := readInfrastructureObj_no_panic env p data
  cases hst : (Infra.readInfrastructureObj env p data).2 with
  | ok => exact absurd hst hnok
  | error e => exact ⟨e, rfl⟩
  | panic => exact absurd hst hnp
  | fatal => exact absurd hst hnf

/-! ## The embedded functions at the example data -/

/-- The commands of the module with a pre-hook for apply and destroy and a post-hook for
apply. -/
theorem hook_ordering_example :
    Common.ApplyCommon.cmd "terraform" Common.exHooks
        = "./pre_hook.sh && terraform init && terraform apply -auto-approve && ./post_hook.sh" ∧
      Common.Plan.cmd "terraform" Common.exHooks = "terraform init && terraform plan" ∧
      Common.Destroy.cmd "terraform" Common.exHooks
        = "./pre_hook.sh && terraform init && terraform destroy -auto-approve" ∧
      Common.ApplyCommon "terraform" Common.exHooks Common.exFailingRun
        = some "exit status 1, error output:\n no credentials" := by
  refine ⟨by decide, by decide, by decide, by decide⟩

/-- The example objects: with the registered backend `s3` the infrastructure `net` is
added; with the unknown backend `gcs` and templates that can be read the error names the
backend and an empty infrastructure name. -/
theorem readInfrastructureObj_example :
    (Infra.readInfrastructureObj Infra.exGoodTemplates Infra.exInfraProject
        Infra.exGoodInfraObj).2 = Status.ok ∧
      (((Infra.readInfrastructureObj Infra.exGoodTemplates Infra.exInfraProject
        Infra.exGoodInfraObj).1.Infrastructures "net").map
          fun i => (i.Name, i.BackendName, i.Backend)) = some ("net", "s3", some 1) ∧
      (Infra.readInfrastructureObj Infra.exGoodTemplates Infra.exInfraProject
        Infra.exInfraObj).2 = Status.error "Backend 'gcs' not found, infra: ''" := by
  refine ⟨by decide, by decide, by decide⟩

/-- The marker scanner on the example inputs. -/
theorem ScanMarkers_example :
    ScanMarkers exProc (exHeap 0) 3 exInputs
        = some (Val.map [("name", Val.str "<vpc>"),
            ("tags", Val.seq [Val.str "<a>", Val.str "<b>"]),
            ("zones", Val.map [("list", Val.strs ["<x>"])])], Status.ok) ∧
      ScanMarkers exProcFailing (exHeap 0) 1 exFailingInputs
        = some (Val.strs ["<a>", "bad", "c"], Status.error "unknown marker") :=
  ⟨rfl, rfl⟩

/-! ## The state reconciler: claims C21 and C22 -/

/-- The loop of `checkUnitChangesRecursive` answers `true` when one of the required units
is a key of `ChangedUnits` and every recursive call returns. -/
theorem requiredLoopRec_changed {D : Type} (heap : Nat → Unit D) (sp : StateProject D)
    (f : Unit D → Option Bool) :
    ∀ rs : List Nat, (∀ r ∈ rs, ∃ b, f (heap r) = some b) →
      (∃ r ∈ rs, (sp.ChangedUnits (heap r).Key).isSome = true) →
      requiredLoopRec heap sp f rs = some true := by
  intro rs
  induction rs with
  | nil => intro _ h; obtain ⟨r, hr, _⟩ := h; cases hr
  | cons r rs ih =>
    intro h hex
    by_cases hc : (sp.ChangedUnits (heap r).Key).isSome = true
    · simp [requiredLoopRec, hc]
    · obtain ⟨v, hv⟩ := h r (List.mem_cons_self _ _)
      cases v with
      | true => simp [requiredLoopRec, hc, hv]
      | false =>
        simp only [requiredLoopRec, hc, hv]
        apply ih (fun x hx => h x (List.mem_cons_of_mem _ hx))
        obtain ⟨x, hx, hxt⟩ := hex
        rcases List.mem_cons.mp hx with rfl | hx'
        · exact absurd hxt hc
        · exact ⟨x, hx', hxt⟩

/-- On a ranked (acyclic) graph the recursive check answers `true` on every unit that
requires a key of `ChangedUnits` or reaches a unit that requires one. -/
theorem checkUnitChangesRecursive_changedUnits {D : Type} (ut : Utils D)
    (heap : Nat → Unit D) (sp : StateProject D) (rank : Nat → Nat)
    (hrank : ∀ i r, r ∈ (heap i).RequiredUnits → rank r < rank i) (u b : Nat)
    (hb : b ∈ (heap u).RequiredUnits)
    (hchanged : (sp.ChangedUnits (heap b).Key).isSome = true) :
    ∀ (fuel r : Nat), rank r < fuel → (r = u ∨ Reach heap r u) →
      checkUnitChangesRecursive ut heap sp fuel (heap r) = some true := by
  intro fuel
  induction fuel with
  | zero => intro r h; exact absurd h (Nat.not_lt_zero _)
  | succ n ih =>
    intro r hr hru
    rw [checkUnitChangesRecursive]
    by_cases ha : (heap r).WasApplied = true
    · simp [ha]
    · cases hs : sp.Units (heap r).Key with
      | none => simp [ha]
      | some st =>
        by_cases hd : (ut.Diff (some st.GetDiffData) (heap r).GetDiffData true).length > 0
        · simp [ha, hd]
        · simp only [ha, hd, if_false]
          have htot : ∀ x ∈ (heap r).RequiredUnits,
              ∃ v, checkUnitChangesRecursive ut heap sp n (heap x) = some v := by
            intro x hx
            exact checkUnitChangesRecursive_total ut heap sp rank hrank n x
              (by have := hrank r x hx; omega)
          rcases hru with rfl | hreach
          · exact requiredLoopRec_changed heap sp _ _ htot ⟨b, hb, hchanged⟩
          · obtain ⟨x, hx, hxu⟩ := Reach_cases heap r u hreach
            exact requiredLoopRec_true heap sp _ _ htot
              ⟨x, hx, ih x (by have := hrank r x hx; omega) hxu⟩

/-- In the two-unit scenario with `net.vpc` a key of `ChangedUnits`, `CheckUnitChanges` on
`net.subnet` does not return at depth 0 and returns the empty diff at every other depth. -/
theorem exChangedState_CheckUnitChanges (fuel : Nat) :
    CheckUnitChanges exUtils exHeap (exChangedState "net.vpc") fuel (exHeap 0) = none ∨
    CheckUnitChanges exUtils exHeap (exChangedState "net.vpc") fuel (exHeap 0)
      = some ("", (exChangedState "net.vpc").Units "net.subnet") := by
  cases fuel with
  | zero => exact Or.inl rfl
  | succ n => exact Or.inr rfl

/-- On the chain with a cycle the recursive check of `net.vpc` returns for no depth. -/
theorem cycleHeap_checkUnitChangesRecursive :
    ∀ fuel, checkUnitChangesRecursive exUtils cycleHeap (exChangedState "net.dns") fuel
      (cycleHeap 1) = none := by
  intro fuel
  induction fuel with
  | zero => rfl
  | succ n ih =>
    have hstep : checkUnitChangesRecursive exUtils cycleHeap (exChangedState "net.dns") (n + 1)
          (cycleHeap 1) =
        requiredLoopRec cycleHeap (exChangedState "net.dns")
          (checkUnitChangesRecursive exUtils cycleHeap (exChangedState "net.dns") n) [1, 2] := rfl
    rw [hstep]
    have hc : ((exChangedState "net.dns").ChangedUnits (cycleHeap 1).Key).isSome = false := by
      decide
    simp only [requiredLoopRec, hc, ih]
    rfl

/-- The changed-units short-circuit does not hold for all units, even on acyclic graphs:
`net.subnet` is present in `Units` with an empty own diff and requires `net.vpc`, a key
of `ChangedUnits`, and `CheckUnitChanges` returns the dependency text at no recursion
depth. -/
theorem CheckUnitChanges_changedUnits_refuted :
    ¬ (∀ (ut : Utils Nat) (heap : Nat → Unit Nat) (sp : StateProject Nat) (a b : Nat)
        (unitInState : Unit Nat), Acyclic heap →
        sp.Units (heap a).Key = some unitInState →
        (ut.Diff (some unitInState.GetDiffData) (heap a).GetDiffData true).length = 0 →
        Reach heap a b → (sp.ChangedUnits (heap b).Key).isSome = true →
        ∃ fuel, CheckUnitChanges ut heap sp fuel (heap a)
          = some (ut.Yellow depsChangedText, some unitInState)) := by
  intro h
  obtain ⟨fuel, hf⟩ := h exUtils exHeap (exChangedState "net.vpc") 0 1
    { Key := "net.subnet", GetDiffData := 1, WasApplied := false, RequiredUnits := [] }
    exHeap_acyclic rfl (by decide) (Reach.step (by decide)) (by decide)
  rcases exChangedState_CheckUnitChanges fuel with h0 | h1
  · rw [h0] at hf; cases hf
  · rw [h1] at hf
    have h2 : ("" : String) = exUtils.Yellow depsChangedText :=
      congrArg Prod.fst (Option.some.inj hf)
    exact absurd h2 (by decide)

/-- On a cyclic graph the check of the dependencies does not return: `net.subnet`
requires `net.vpc`, which requires itself and then `net.dns`, a key of `ChangedUnits`;
`CheckUnitChanges` on `net.subnet` returns for no recursion depth. -/
theorem CheckUnitChanges_changedUnits_cycle (fuel : Nat) :
    Reach cycleHeap 0 2 ∧
    ((exChangedState "net.dns").ChangedUnits (cycleHeap 2).Key).isSome = true ∧
    CheckUnitChanges exUtils cycleHeap (exChangedState "net.dns") fuel (cycleHeap 0) = none := by
  refine ⟨Reach.more (show 1 ∈ (cycleHeap 0).RequiredUnits by decide)
    (Reach.step (show 2 ∈ (cycleHeap 1).RequiredUnits by decide)), by decide, ?_⟩
  have hstep : CheckUnitChanges exUtils cycleHeap (exChangedState "net.dns") fuel (cycleHeap 0) =
      match requiredLoop cycleHeap
          (checkUnitChangesRecursive exUtils cycleHeap (exChangedState "net.dns") fuel) [1] with
      | none => none
      | some true => some (exUtils.Yellow depsChangedText,
          (exChangedState "net.dns").Units "net.subnet")
      | some false => some ("", (exChangedState "net.dns").Units "net.subnet") := rfl
  rw [hstep]
  simp only [requiredLoop, cycleHeap_checkUnitChangesRecursive fuel]

/-- The changed-units short-circuit below a dependency.  On an acyclic `RequiredUnits`
graph, let the live unit `a` be present in `sp.Units` with an empty own diff, and let
some unit `u` reachable from `a` through `RequiredUnits` (in one step or more) require a
unit `b` whose key is a key of `sp.ChangedUnits`.  Then `CheckUnitChanges` returns, for
every recursion bound from some bound on, the yellow "There are changes in the unit
dependencies." text together with the persisted unit of `a`, and not the empty diff when
the formatter does not produce an empty string. -/
theorem CheckUnitChanges_changedUnits_below {D : Type} (ut : Utils D)
    (heap : Nat → Unit D) (sp : StateProject D) (hacyc : Acyclic heap) (a u b : Nat)
    (unitInState : Unit D) (hA : sp.Units (heap a).Key = some unitInState)
    (hdiff : (ut.Diff (some unitInState.GetDiffData) (heap a).GetDiffData true).length = 0)
    (hreach : Reach heap a u) (hb : b ∈ (heap u).RequiredUnits)
    (hchanged : (sp.ChangedUnits (heap b).Key).isSome = true)
    (hyellow : (ut.Yellow depsChangedText).length > 0) :
    ∃ n, ∀ fuel, n ≤ fuel →
      CheckUnitChanges ut heap sp fuel (heap a)
          = some (ut.Yellow depsChangedText, some unitInState) ∧
        CheckUnitChanges ut heap sp fuel (heap a) ≠ some ("", some unitInState) := by
  obtain ⟨rank, hrank⟩ := hacyc
  refine ⟨rank a, fun fuel hle => ?_⟩
  have hres : CheckUnitChanges ut heap sp fuel (heap a)
      = some (ut.Yellow depsChangedText, some unitInState) := by
    unfold CheckUnitChanges
    have hd : ¬ (ut.Diff (some unitInState.GetDiffData) (heap a).GetDiffData true).length > 0 := by
      omega
    simp only [hA, hd, if_false]
    obtain ⟨x, hx, hxu⟩ := Reach_cases heap a u hreach
    have hlt : ∀ y ∈ (heap a).RequiredUnits, rank y < fuel := by
      intro y hy; have := hrank a y hy; omega
    rw [requiredLoop_true heap _ _
      (fun y hy => checkUnitChangesRecursive_total ut heap sp rank hrank fuel y (hlt y hy))
      ⟨x, hx, checkUnitChangesRecursive_changedUnits ut heap sp rank hrank u b hb hchanged
        fuel x (hlt x hx) hxu⟩]
  refine ⟨hres, ?_⟩
  rw [hres]
  intro h
  have h1 : ut.Yellow depsChangedText = "" := congrArg Prod.fst (Option.some.inj h)
  rw [h1] at hyellow
  exact absurd hyellow (by decide)

/-- C21 fails on directly required units.  Let the live unit `a` be present in
`sp.Units` with an empty own diff, and let every unit that `a` requires directly be not
applied in this run, present in `sp.Units` with an empty own diff and without required
units of its own.  Then `CheckUnitChanges` returns the empty diff (unchanged) with the
persisted unit of `a` for every recursion bound that lets it look at the required units,
whatever `sp.ChangedUnits` holds: the loop of `CheckUnitChanges` over the units that `a`
requires never looks them up in `ChangedUnits`, so a directly required unit that is a
key of `ChangedUnits` does not give the dependency diff. -/
theorem CheckUnitChanges_skips_direct_changedUnits {D : Type} (ut : Utils D)
    (heap : Nat → Unit D) (sp : StateProject D) (a : Nat) (unitInState : Unit D)
    (hA : sp.Units (heap a).Key = some unitInState)
    (hdiff : (ut.Diff (some unitInState.GetDiffData) (heap a).GetDiffData true).length = 0)
    (hdeps : ∀ b ∈ (heap a).RequiredUnits, (heap b).WasApplied = false ∧
      (∃ sb, sp.Units (heap b).Key = some sb ∧
        (ut.Diff (some sb.GetDiffData) (heap b).GetDiffData true).length = 0) ∧
      (heap b).RequiredUnits = [])
    (fuel : Nat) :
    CheckUnitChanges ut heap sp (fuel + 1) (heap a) = some ("", some unitInState) := by
  unfold CheckUnitChanges
  have hd : ¬ (ut.Diff (some unitInState.GetDiffData) (heap a).GetDiffData true).length > 0 := by
    omega
  simp only [hA, hd, if_false]
  rw [requiredLoop_false heap _ _ (fun b hb => by
    obtain ⟨happ, ⟨sb, hsb, hsbd⟩, hreq⟩ := hdeps b hb
    have hd' : ¬ (ut.Diff (some sb.GetDiffData) (heap b).GetDiffData true).length > 0 := by
      omega
    rw [checkUnitChangesRecursive]
    simp only [happ, hsb, hd', hreq, if_false, Bool.false_eq_true, requiredLoopRec])]

/-- C21 at the failing input: `net.subnet` requires `net.vpc` directly, the persisted
state agrees with both live units and `net.vpc` is a key of `ChangedUnits`;
`CheckUnitChanges` on `net.subnet` returns the empty diff, not the dependency text. -/
theorem CheckUnitChanges_skips_direct_changedUnits_witness :
    1 ∈ (exHeap 0).RequiredUnits ∧
    ((exChangedState "net.vpc").ChangedUnits (exHeap 1).Key).isSome = true ∧
    CheckUnitChanges exUtils exHeap (exChangedState "net.vpc") (1 + 1) (exHeap 0)
      = some ("", (exChangedState "net.vpc").Units "net.subnet") ∧
    CheckUnitChanges exUtils exHeap (exChangedState "net.vpc") (1 + 1) (exHeap 0)
      ≠ some (exUtils.Yellow depsChangedText, (exChangedState "net.vpc").Units "net.subnet") :=
  ⟨by decide, by decide,
    CheckUnitChanges_skips_direct_changedUnits exUtils exHeap (exChangedState "net.vpc") 0
      { Key := "net.subnet", GetDiffData := 1, WasApplied := false, RequiredUnits := [] }
      rfl (by decide)
      (by
        intro b hb
        have hb1 : b = 1 := by simpa [exHeap] using hb
        subst hb1
        exact ⟨rfl, ⟨_, rfl, by decide⟩, rfl⟩)
      1,
    by
      intro h
      have h1 := congrArg (fun r => r.map Prod.fst) h
      revert h1
      decide⟩

/-- The chain `net.subnet`, `net.vpc`, `net.dns` is acyclic. -/
theorem chainHeap_acyclic : Acyclic chainHeap := by
  refine ⟨fun i => 2 - i, ?_⟩
  intro i r h
  match i, h with
  | 0, h =>
    have hr : r = 1 := by simpa [chainHeap] using h
    subst hr; decide
  | 1, h =>
    have hr : r = 2 := by simpa [chainHeap] using h
    subst hr; decide
  | n + 2, h => simp [chainHeap] at h

/-- The short-circuit on the chain: `net.dns`, required by `net.vpc`, is a key of
`ChangedUnits`, the persisted state agrees with all three live units, and `net.subnet`
gets the dependency text. -/
theorem CheckUnitChanges_changedUnits_below_example :
    ∃ n, ∀ fuel, n ≤ fuel →
      CheckUnitChanges exUtils chainHeap (exChangedState "net.dns") fuel (chainHeap 0)
          = some (exUtils.Yellow depsChangedText, (exChangedState "net.dns").Units "net.subnet") ∧
        CheckUnitChanges exUtils chainHeap (exChangedState "net.dns") fuel (chainHeap 0)
          ≠ some ("", (exChangedState "net.dns").Units "net.subnet") :=
  CheckUnitChanges_changedUnits_below exUtils chainHeap (exChangedState "net.dns")
    chainHeap_acyclic
    0 1 2 { Key := "net.subnet", GetDiffData := 1, WasApplied := false, RequiredUnits := [] }
    rfl (by decide) (Reach.step (by decide)) (by decide) (by decide) (by decide)


/-- A finite graph without cycles has a ranking below the number of units: when the
units have the references below `n`, require only such references and none of them
reaches itself, the number of units that a unit reaches ranks every unit strictly above
the units it requires and is smaller than `n`. -/
theorem ranking_of_finite_of_irrefl {D : Type} (heap : Nat → Unit D) (n : Nat)
    (hfin : ∀ i, i < n → ∀ r ∈ (heap i).RequiredUnits, r < n)
    (hirr : ∀ a, a < n → ¬ Reach heap a a) :
    ∃ rank : Nat → Nat, (∀ i, i < n → ∀ r ∈ (heap i).RequiredUnits, rank r < rank i) ∧
      ∀ r, r < n → rank r < n := by
  classical
  refine ⟨fun i => ((Finset.range n).filter (fun y => Reach heap i y)).card, ?_, ?_⟩
  · intro i hi r hr
    apply Finset.card_lt_card
    rw [Finset.ssubset_iff_of_subset]
    · refine ⟨r, ?_, ?_⟩
      · exact Finset.mem_filter.mpr ⟨Finset.mem_range.mpr (hfin i hi r hr), Reach.step hr⟩
      · intro hmem
        exact hirr r (hfin i hi r hr) (Finset.mem_filter.mp hmem).2
    · intro y hy
      have hy' := Finset.mem_filter.mp hy
      exact Finset.mem_filter.mpr ⟨hy'.1, Reach.more hr hy'.2⟩
  · intro r hr
    have hsub : (Finset.range n).filter (fun y => Reach heap r y) ⊆ (Finset.range n).erase r := by
      intro y hy
      have hy' := Finset.mem_filter.mp hy
      refine Finset.mem_erase.mpr ⟨?_, hy'.1⟩
      intro hyr
      rw [hyr] at hy'
      exact hirr r hr hy'.2
    have hcard := Finset.card_le_card hsub
    rw [Finset.card_erase_of_mem (Finset.mem_range.mpr hr), Finset.card_range] at hcard
    show ((Finset.range n).filter (fun y => Reach heap r y)).card < n
    omega

/-- With a ranking of the units below `n`, the recursive check returns on each of them
once the fuel exceeds the rank of the unit. -/
theorem checkUnitChangesRecursive_total_below {D : Type} (ut : Utils D)
    (heap : Nat → Unit D) (sp : StateProject D) (n : Nat) (rank : Nat → Nat)
    (hfin : ∀ i, i < n → ∀ r ∈ (heap i).RequiredUnits, r < n)
    (hrank : ∀ i, i < n → ∀ r ∈ (heap i).RequiredUnits, rank r < rank i) :
    ∀ (fuel r : Nat), r < n → rank r < fuel →
      ∃ b, checkUnitChangesRecursive ut heap sp fuel (heap r) = some b := by
  intro fuel
  induction fuel with
  | zero => intro r _ h; exact absurd h (Nat.not_lt_zero _)
  | succ m ih =>
    intro r hrn hr
    rw [checkUnitChangesRecursive]
    by_cases ha : (heap r).WasApplied = true
    · exact ⟨true, by simp [ha]⟩
    · cases hs : sp.Units (heap r).Key with
      | none => exact ⟨true, by simp [ha]⟩
      | some st =>
        by_cases hd : (ut.Diff (some st.GetDiffData) (heap r).GetDiffData true).length > 0
        · exact ⟨true, by simp [ha, hd]⟩
        · simp only [ha, hd, if_false]
          apply requiredLoopRec_total
          intro x hx
          exact ih x (hfin r hrn x hx) (by have := hrank r hrn x hx; omega)

/-- C22 (termination of the dirtiness check).  Let the units be the references below
`n`, let every unit require only units (a finite graph) and let no unit reach itself
through `RequiredUnits` (an acyclic graph; units may share ancestors).  Then on every
unit both `checkUnitChangesRecursive` and `CheckUnitChanges` return when the recursion
depth is bounded by the number `n` of units, and by any larger bound. -/
theorem dirtiness_check_terminates {D : Type} (ut : Utils D) (heap : Nat → Unit D)
    (sp : StateProject D) (n : Nat)
    (hfin : ∀ i, i < n → ∀ r ∈ (heap i).RequiredUnits, r < n)
    (hirr : ∀ a, a < n → ¬ Reach heap a a) (r : Nat) (hr : r < n)
    (fuel : Nat) (hfuel : n ≤ fuel) :
    (∃ b, checkUnitChangesRecursive ut heap sp fuel (heap r) = some b) ∧
    (∃ res, CheckUnitChanges ut heap sp fuel (heap r) = some res) := by
  obtain ⟨rank, hrank, hbound⟩ := ranking_of_finite_of_irrefl heap n hfin hirr
  have htot : ∀ x, x < n → ∃ b, checkUnitChangesRecursive ut heap sp fuel (heap x) = some b := by
    intro x hx
    exact checkUnitChangesRecursive_total_below ut heap sp n rank hfin hrank fuel x hx
      (by have := hbound x hx; omega)
  refine ⟨htot r hr, ?_⟩
  unfold CheckUnitChanges
  cases hs : sp.Units (heap r).Key with
  | none => exact ⟨_, rfl⟩
  | some st =>
    by_cases hd : (ut.Diff (some st.GetDiffData) (heap r).GetDiffData true).length > 0
    · exact ⟨(ut.Diff (some st.GetDiffData) (heap r).GetDiffData true, some st), by simp [hd]⟩
    · simp only [hd, if_false]
      obtain ⟨b, hb⟩ := requiredLoop_total heap
        (checkUnitChangesRecursive ut heap sp fuel) (heap r).RequiredUnits
        (fun x hx => htot x (hfin r hr x hx))
      rw [hb]
      cases b with
      | true => exact ⟨_, rfl⟩
      | false => exact ⟨_, rfl⟩

/-- The graph with a shared ancestor is acyclic. -/
theorem diamondHeap_acyclic : Acyclic diamondHeap := by
  refine ⟨fun i => 3 - i, ?_⟩
  intro i r h
  match i, h with
  | 0, h =>
    have hr : r = 1 ∨ r = 2 := by simpa [diamondHeap] using h
    rcases hr with rfl | rfl <;> decide
  | 1, h =>
    have hr : r = 3 := by simpa [diamondHeap] using h
    subst hr; decide
  | 2, h =>
    have hr : r = 3 := by simpa [diamondHeap] using h
    subst hr; decide
  | n + 3, h => simp [diamondHeap] at h

/-- The units of the graph with a shared ancestor require units of the graph. -/
theorem diamondHeap_finite : ∀ i, i < 4 → ∀ r ∈ (diamondHeap i).RequiredUnits, r < 4 := by
  intro i _ r h
  match i, h with
  | 0, h =>
    have hr : r = 1 ∨ r = 2 := by simpa [diamondHeap] using h
    rcases hr with rfl | rfl <;> decide
  | 1, h =>
    have hr : r = 3 := by simpa [diamondHeap] using h
    subst hr; decide
  | 2, h =>
    have hr : r = 3 := by simpa [diamondHeap] using h
    subst hr; decide
  | n + 3, h => simp [diamondHeap] at h

/-- C22 on a graph that is not a tree: unit 0 requires the units 1 and 2, which share the
ancestor 3; with the depth bounded by the four units both checks return on unit 0. -/
theorem dirtiness_check_terminates_witness :
    (∃ b, checkUnitChangesRecursive exUtils diamondHeap (exChangedState "net.dns") 4
        (diamondHeap 0) = some b) ∧
    (∃ res, CheckUnitChanges exUtils diamondHeap (exChangedState "net.dns") 4
        (diamondHeap 0) = some res) :=
  dirtiness_check_terminates exUtils diamondHeap (exChangedState "net.dns") 4
    diamondHeap_finite (fun a _ => Acyclic_irrefl diamondHeap diamondHeap_acyclic a)
    0 (by decide) 4 (by decide)


/-! ## Markers in hooks: claim C23 -/

/-- The scan of a pointer to a string panics: after the dereference `out` is the string,
and `out.IsNil()` is called on it before the switch on its kind. -/
theorem scanHookCommand_panics {Mod : Type} (RemoteStatesScanner : Val → Mod → Except String Val)
    (inheritedModule : Mod) (fuel : Nat) (hook : Common.hookSpec) :
    Common.scanHookCommand RemoteStatesScanner inheritedModule (fuel + 1) hook
      = some (hook, Status.panic) := rfl

/-- C23 fails whenever a hook is set.  For every module with a pre-hook or a post-hook,
every scanner and every recursion bound that lets `ScanMarkers` start,
`ReplaceMarkersCommon` does not return: the first scan of a pointer to a hook command
panics in the call of `IsNil` on the string, the scanner is never applied and both hook
commands are unchanged. -/
theorem ReplaceMarkersCommon_panics {Mod : Type}
    (RemoteStatesScanner : Val → Mod → Except String Val) (inheritedModule : Mod)
    (fuel : Nat) (m : Common.ModuleHooks)
    (hhook : m.preHook.isSome = true ∨ m.postHook.isSome = true) :
    Common.ReplaceMarkersCommon RemoteStatesScanner inheritedModule (fuel + 1) m
      = some (m, Status.panic) := by
  cases m with
  | mk pre post =>
    cases pre with
    | some hook => rfl
    | none =>
      cases post with
      | some hook => rfl
      | none =>
        rcases hhook with h | h <;> exact absurd h (by decide)

/-- C23 at the failing input: on the module with the hooks `echo pre` and `echo post` and
a scanner that puts every string in brackets, `ReplaceMarkersCommon` panics and no hook
command is replaced. -/
theorem ReplaceMarkersCommon_panics_witness :
    Common.ReplaceMarkersCommon exProc (exHeap 0) (2 + 1) Common.exHooks
      = some (Common.exHooks, Status.panic) :=
  ReplaceMarkersCommon_panics exProc (exHeap 0) 2 Common.exHooks (Or.inl (by decide))

/-- Without hooks `ReplaceMarkersCommon` returns nil and changes nothing. -/
theorem ReplaceMarkersCommon_no_hooks {Mod : Type}
    (RemoteStatesScanner : Val → Mod → Except String Val) (inheritedModule : Mod)
    (fuel : Nat) :
    Common.ReplaceMarkersCommon RemoteStatesScanner inheritedModule fuel
        { preHook := none, postHook := none }
      = some ({ preHook := none, postHook := none }, Status.ok) := rfl

/-! ## The state registry: claim C24 -/

/-- `UpdateUnit` keeps the keys of `ChangedUnits` among the keys of `Units`. -/
theorem UpdateUnit_invariant {D : Type} (sp : StateProject D) (mod : Unit D)
    (hinv : ChangedWithinUnits sp) : ChangedWithinUnits (sp.UpdateUnit mod) := by
  intro k hk
  simp only [StateProject.UpdateUnit] at hk ⊢
  by_cases h : k = mod.Key
  · simp [h]
  · simp only [h, if_false] at hk ⊢
    exact hinv k hk

/-- `DeleteUnit` of a unit that is not a key of `ChangedUnits` keeps the keys of
`ChangedUnits` among the keys of `Units`. -/
theorem DeleteUnit_invariant {D : Type} (sp : StateProject D) (mod : Unit D)
    (hinv : ChangedWithinUnits sp) (hkey : sp.ChangedUnits mod.Key = none) :
    ChangedWithinUnits (sp.DeleteUnit mod) := by
  intro k hk
  simp only [StateProject.DeleteUnit] at hk ⊢
  by_cases h : k = mod.Key
  · rw [h, hkey] at hk
    cases hk
  · simp only [h, if_false]
    exact hinv k hk

/-- `DeleteUnit` of a unit that is a key of `ChangedUnits` leaves a key of `ChangedUnits`
that is no key of `Units`. -/
theorem DeleteUnit_breaks {D : Type} (sp : StateProject D) (mod : Unit D)
    (hkey : (sp.ChangedUnits mod.Key).isSome = true) :
    ¬ ChangedWithinUnits (sp.DeleteUnit mod) := by
  intro hinv
  have h := hinv mod.Key hkey
  simp [StateProject.DeleteUnit] at h

/-- Sequences of calls in which `DeleteUnit` meets no key of `ChangedUnits` keep the keys
of `ChangedUnits` among the keys of `Units`. -/
theorem calls_invariant {D : Type} :
    ∀ (cs : List (StateCall D)) (sp : StateProject D), ChangedWithinUnits sp →
      DeletesUnchanged sp cs → ChangedWithinUnits (sp.calls cs) := by
  intro cs
  induction cs with
  | nil => intro sp hinv _; exact hinv
  | cons c cs ih =>
    intro sp hinv hsafe
    cases c with
    | update mod => exact ih (sp.UpdateUnit mod) (UpdateUnit_invariant sp mod hinv) hsafe
    | delete mod =>
      exact ih (sp.DeleteUnit mod) (DeleteUnit_invariant sp mod hinv hsafe.1) hsafe.2

/-- C24 as stated fails: from the empty state project, `UpdateUnit(u)` followed by
`DeleteUnit(u)` leaves the key of `u` in `ChangedUnits` and not in `Units`. -/
theorem StateProject_invariant_counterexample :
    ¬ (∀ (sp : StateProject Nat) (cs : List (StateCall Nat)),
        ChangedWithinUnits sp → ChangedWithinUnits (sp.calls cs)) := by
  intro h
  have hinv := h exEmptyState [StateCall.update (exHeap 0), StateCall.delete (exHeap 0)]
    (fun k hk => by simp [exEmptyState] at hk)
  have hk := hinv "net.subnet" (by decide)
  revert hk
  decide

/-- C24 as amended (state registry invariant).  Starting from a state project in which
every key of `ChangedUnits` is a key of `Units`, every sequence of `UpdateUnit` and
`DeleteUnit` calls in which no `DeleteUnit` meets a unit whose key is a key of
`ChangedUnits` at the time of the call keeps that invariant.  `UpdateUnit(u)` sets both
`Units[u.Key()]` and `ChangedUnits[u.Key()]` to `u` and leaves every other key of both
maps unchanged; `DeleteUnit(u)` removes `u.Key()` from `Units`, leaves every other key of
`Units` unchanged and does not change `ChangedUnits`. -/
theorem StateProject_invariant {D : Type} (sp : StateProject D) (cs : List (StateCall D))
    (hinv : ChangedWithinUnits sp) (hsafe : DeletesUnchanged sp cs) :
    ChangedWithinUnits (sp.calls cs) ∧
    (∀ u : Unit D, (sp.UpdateUnit u).Units u.Key = some u ∧
      (sp.UpdateUnit u).ChangedUnits u.Key = some u ∧
      ∀ k, k ≠ u.Key → (sp.UpdateUnit u).Units k = sp.Units k ∧
        (sp.UpdateUnit u).ChangedUnits k = sp.ChangedUnits k) ∧
    (∀ u : Unit D, (sp.DeleteUnit u).Units u.Key = none ∧
      (sp.DeleteUnit u).ChangedUnits = sp.ChangedUnits ∧
      ∀ k, k ≠ u.Key → (sp.DeleteUnit u).Units k = sp.Units k) := by
  refine ⟨calls_invariant cs sp hinv hsafe, ?_, ?_⟩
  · intro u
    refine ⟨by simp [StateProject.UpdateUnit], by simp [StateProject.UpdateUnit], ?_⟩
    intro k hk
    simp [StateProject.UpdateUnit, hk]
  · intro u
    refine ⟨by simp [StateProject.DeleteUnit], rfl, ?_⟩
    intro k hk
    simp [StateProject.DeleteUnit, hk]

/-- C24 as amended from the empty state project: `net.subnet` is updated, `net.vpc`,
which has not been changed, is deleted, and `net.vpc` is updated. -/
theorem StateProject_invariant_witness :
    ChangedWithinUnits (exEmptyState.calls
      [StateCall.update (exHeap 0), StateCall.delete (exHeap 1), StateCall.update (exHeap 1)]) ∧
    (∀ u : Unit Nat, (exEmptyState.UpdateUnit u).Units u.Key = some u ∧
      (exEmptyState.UpdateUnit u).ChangedUnits u.Key = some u ∧
      ∀ k, k ≠ u.Key → (exEmptyState.UpdateUnit u).Units k = exEmptyState.Units k ∧
        (exEmptyState.UpdateUnit u).ChangedUnits k = exEmptyState.ChangedUnits k) ∧
    (∀ u : Unit Nat, (exEmptyState.DeleteUnit u).Units u.Key = none ∧
      (exEmptyState.DeleteUnit u).ChangedUnits = exEmptyState.ChangedUnits ∧
      ∀ k, k ≠ u.Key → (exEmptyState.DeleteUnit u).Units k = exEmptyState.Units k) :=
  StateProject_invariant exEmptyState
    [StateCall.update (exHeap 0), StateCall.delete (exHeap 1), StateCall.update (exHeap 1)]
    (fun k hk => by simp [exEmptyState] at hk) ⟨rfl, trivial⟩


/-! ## Infrastructure objects: claim C26 -/

/-- `ReadTemplates` does not change the name of the infrastructure. -/
theorem ReadTemplates_Name {B T : Type} (env : Infra.TemplateEnv T)
    (i : Infra.Infrastructure B T) (src : String) :
    (Infra.ReadTemplates env i src).1.Name = i.Name := by
  unfold Infra.ReadTemplates
  dsimp only
  split
  · rename_i i₁ heq
    have h1 : i₁.Name = i.Name := by
      split at heq
      · split at heq <;> (cases heq; try rfl)
      · cases heq; rfl
    split
    · exact h1
    · split <;> exact h1
  · rename_i i₁ st hne heq
    have h1 : i₁.Name = i.Name := by
      split at heq
      · split at heq <;> (cases heq; try rfl)
      · cases heq; rfl
    exact h1

/-- A string that occurs in another one is an infix of its characters. -/
theorem Contains_data (s t : String) (h : Contains s t) : t.data <:+: s.data := by
  obtain ⟨a, b, hab⟩ := h
  exact ⟨a.data, b.data, by rw [hab]; simp [String.data_append]⟩

/-- C26 fails on every such object.  For every infrastructure object with a new `name`, a
`template` whose templates are read without error, `variables`, and a `backend` that is
not registered in `p.Backends`, the error returned by `readInfrastructureObj` is
"Backend 'b' not found, infra: ''": it names the backend and an empty infrastructure
name, whatever the `name` field holds, because `infra.Name` is assigned only after the
backend lookup. -/
theorem readInfrastructureObj_unknown_backend {B T : Type} (env : Infra.TemplateEnv T)
    (p : Infra.Project B T) (data : String → Option Val) (name tmplSource b : String)
    (vars : List (String × Val))
    (hname : data "name" = some (Val.str name))
    (hnew : p.Infrastructures name = none)
    (htmpl : data "template" = some (Val.str tmplSource))
    (hvars : data "variables" = some (Val.map vars))
    (hread : (Infra.ReadTemplates env
      ({ Backend := none, Name := "", BackendName := "", TemplateSrc := "", TemplateDir := "",
         Templates := [], Variables := vars,
         ConfigData := fun k =>
           if k = "secret" then some ((p.configData "secret").getD Val.nil) else data k } :
        Infra.Infrastructure B T)
      tmplSource).2 = Status.ok)
    (hbackend : data "backend" = some (Val.str b))
    (hunknown : p.Backends b = none) :
    (Infra.readInfrastructureObj env p data).2
      = Status.error ("Backend '" ++ b ++ "' not found, infra: ''") := by
  have ht : ¬ ("template" = "secret") := by decide
  have hv : ¬ ("variables" = "secret") := by decide
  have hb : ¬ ("backend" = "secret") := by decide
  have hN := ReadTemplates_Name env
    ({ Backend := none, Name := "", BackendName := "", TemplateSrc := "", TemplateDir := "",
       Templates := [], Variables := vars,
       ConfigData := fun k =>
         if k = "secret" then some ((p.configData "secret").getD Val.nil) else data k } :
      Infra.Infrastructure B T) tmplSource
  unfold Infra.readInfrastructureObj
  simp only [hname, hnew, Option.isSome_none, Bool.false_eq_true, if_false, ht, hv, hb,
    htmpl, hvars, hbackend]
  split
  · rename_i infra hrt
    rw [hrt] at hN
    simp only [hunknown]
    rw [show infra.Name = "" from hN, String.append_empty, String.append_assoc _ _ "'"]
    rfl
  · rename_i i st hne hrt
    rw [hrt] at hread
    exact absurd hread hne

/-- C26 at the failing input: the object with name `net`, template `tmpl`, no variables
and the unregistered backend `gcs` gets the error "Backend 'gcs' not found, infra: ''",
in which the name `net` does not occur. -/
theorem readInfrastructureObj_unknown_backend_witness :
    (Infra.readInfrastructureObj Infra.exGoodTemplates Infra.exInfraProject Infra.exInfraObj).2
      = Status.error ("Backend '" ++ "gcs" ++ "' not found, infra: ''") ∧
    ¬ Contains ("Backend '" ++ "gcs" ++ "' not found, infra: ''") "net" :=
  ⟨readInfrastructureObj_unknown_backend Infra.exGoodTemplates Infra.exInfraProject
      Infra.exInfraObj "net" "tmpl" "gcs" [] rfl rfl rfl rfl rfl rfl rfl,
    fun h => absurd (Contains_data _ _ h) (by decide)⟩


/-! ## Variable names: claim C25 -/

/-- Facts about the ASCII characters: lower-casing a letter or digit gives a lower-case
letter or a digit, which lower-casing does not change. -/
theorem ascii_toLower : ∀ n : Fin 128,
    (Char.ofNat n.val).isAlphanum = true →
      ((Char.ofNat n.val).toLower.isAlphanum = true ∧
       (Char.ofNat n.val).toLower.toLower = (Char.ofNat n.val).toLower ∧
       ((Char.ofNat n.val).toLower.isLower = true ∨
         (Char.ofNat n.val).toLower.isDigit = true)) := by
  decide

/-- The letters and digits of `[a-zA-Z0-9]` are ASCII characters. -/
theorem isAlphanum_lt (c : Char) (h : c.isAlphanum = true) : c.toNat < 128 := by
  simp only [Char.isAlphanum, Char.isAlpha, Char.isUpper, Char.isLower, Char.isDigit,
    Bool.or_eq_true, Bool.and_eq_true, decide_eq_true_eq] at h
  have key : ∀ m : Nat, m < 128 → c.val ≤ UInt32.ofNat m → c.toNat < 128 := by
    intro m hm hle
    have := UInt32.toNat_le_of_le (Nat.lt_trans hm (by decide)) hle
    show c.val.toNat < 128
    omega
  rcases h with (⟨_, h⟩ | ⟨_, h⟩) | ⟨_, h⟩
  · exact key 90 (by decide) h
  · exact key 122 (by decide) h
  · exact key 57 (by decide) h

/-- Lower-casing a letter or digit of `[a-zA-Z0-9]`. -/
theorem isAlphanum_toLower (c : Char) (h : c.isAlphanum = true) :
    c.toLower.isAlphanum = true ∧ c.toLower.toLower = c.toLower ∧
      (c.toLower.isLower = true ∨ c.toLower.isDigit = true) := by
  have hlt := isAlphanum_lt c h
  have hc : Char.ofNat c.toNat = c := Char.ofNat_toNat c
  have := ascii_toLower ⟨c.toNat, hlt⟩
  simp only [hc] at this
  exact this h

/-- The result of `ConvertToTfVarName` is normalised. -/
theorem replaceRuns_normalised :
    ∀ (l : List Char) (b : Bool), Normalised b ((replaceRuns b l).map Char.toLower) := by
  intro l
  induction l with
  | nil => intro b; simp [replaceRuns, Normalised]
  | cons c cs ih =>
    intro b
    unfold replaceRuns
    by_cases hc : c.isAlphanum = true
    · obtain ⟨h1, h2, _⟩ := isAlphanum_toLower c hc
      simp only [hc, if_true, List.map_cons]
      exact Or.inl ⟨h1, h2, ih false⟩
    · cases b with
      | true =>
        simp only [hc, if_false, if_true, Bool.false_eq_true]
        exact ih true
      | false =>
        simp only [hc, if_false, Bool.false_eq_true, List.map_cons]
        exact Or.inr ⟨by decide, rfl, ih true⟩

/-- On a normalised name the replacement and the lower-casing change nothing. -/
theorem replaceRuns_of_normalised :
    ∀ (l : List Char) (b : Bool), Normalised b l → (replaceRuns b l).map Char.toLower = l := by
  intro l
  induction l with
  | nil => intro b _; rfl
  | cons c cs ih =>
    intro b h
    unfold replaceRuns
    rcases h with ⟨h1, h2, h3⟩ | ⟨h1, h2, h3⟩
    · simp only [h1, if_true, List.map_cons, h2, ih false h3]
    · subst h1
      subst h2
      have hu : ('_' : Char).isAlphanum = false := by decide
      simp only [hu, Bool.false_eq_true, if_false, List.map_cons, ih true h3]
      rfl

/-- A normalised name holds only underscores, letters `a-z` and digits. -/
theorem normalised_chars :
    ∀ (l : List Char) (b : Bool), Normalised b l →
      ∀ c ∈ l, c = '_' ∨ c.isLower = true ∨ c.isDigit = true := by
  intro l
  induction l with
  | nil => intro b _ c hc; cases hc
  | cons x xs ih =>
    intro b h c hc
    rcases h with ⟨h1, h2, h3⟩ | ⟨h1, _, h3⟩
    · rcases List.mem_cons.mp hc with rfl | hc'
      · have := (isAlphanum_toLower c h1).2.2
        rw [h2] at this
        exact Or.inr this
      · exact ih false h3 c hc'
    · rcases List.mem_cons.mp hc with rfl | hc'
      · exact Or.inl h1
      · exact ih true h3 c hc'

/-- A normalised name has no two consecutive underscores. -/
theorem normalised_chain :
    ∀ (l : List Char) (b : Bool), Normalised b l →
      List.Chain' (fun x y => ¬ (x = '_' ∧ y = '_')) l ∧ (b = true → ∀ x ∈ l.head?, x ≠ '_') := by
  intro l
  induction l with
  | nil => intro b _; simp
  | cons x xs ih =>
    intro b h
    have hu : ('_' : Char).isAlphanum = false := by decide
    rcases h with ⟨h1, _, h3⟩ | ⟨h1, h2, h3⟩
    · have hx : x ≠ '_' := by
        intro hx; rw [hx, hu] at h1; cases h1
      refine ⟨?_, ?_⟩
      · rw [List.chain'_cons']
        exact ⟨fun y _ hxy => hx hxy.1, (ih false h3).1⟩
      · intro _ y hy
        simp at hy
        rw [← hy]; exact hx
    · refine ⟨?_, ?_⟩
      · rw [List.chain'_cons']
        exact ⟨fun y hy hxy => (ih true h3).2 rfl y hy hxy.2, (ih true h3).1⟩
      · intro hb; rw [hb] at h2; cases h2

/-- The replacement keeps the letters and digits, in their order. -/
theorem replaceRuns_filter :
    ∀ (l : List Char) (b : Bool),
      (replaceRuns b l).filter Char.isAlphanum = l.filter Char.isAlphanum := by
  intro l
  induction l with
  | nil => intro b; rfl
  | cons c cs ih =>
    intro b
    have hu : ('_' : Char).isAlphanum = false := by decide
    unfold replaceRuns
    by_cases hc : c.isAlphanum = true
    · simp only [hc, if_true, List.filter_cons_of_pos, ih false]
    · cases b with
      | true =>
        simp only [hc, if_false, if_true, Bool.false_eq_true]
        rw [ih true, List.filter_cons_of_neg hc]
      | false =>
        simp only [hc, if_false, Bool.false_eq_true]
        rw [List.filter_cons_of_neg (by simp [hu]), ih true, List.filter_cons_of_neg hc]

/-- The replacement copies a prefix of letters and digits. -/
theorem replaceRuns_alnum :
    ∀ (a l : List Char), (∀ c ∈ a, c.isAlphanum = true) →
      replaceRuns false (a ++ l) = a ++ replaceRuns false l := by
  intro a
  induction a with
  | nil => intro l _; rfl
  | cons c cs ih =>
    intro l h
    have hc : c.isAlphanum = true := h c (List.mem_cons_self _ _)
    simp only [List.cons_append, replaceRuns, hc, if_true, List.append_eq]
    rw [ih l (fun x hx => h x (List.mem_cons_of_mem _ hx))]

/-- Inside a run of other characters the replacement writes nothing up to the end of the
run. -/
theorem replaceRuns_inRun :
    ∀ (r l : List Char), (∀ c ∈ r, c.isAlphanum = false) →
      (∀ c ∈ l.head?, c.isAlphanum = true) →
      replaceRuns true (r ++ l) = replaceRuns false l := by
  intro r
  induction r with
  | nil =>
    intro l _ hl
    cases l with
    | nil => rfl
    | cons c cs =>
      have hc : c.isAlphanum = true := hl c rfl
      simp only [List.nil_append, replaceRuns, hc, if_true]
  | cons c cs ih =>
    intro l h hl
    have hc : c.isAlphanum = false := h c (List.mem_cons_self _ _)
    simp only [List.cons_append, replaceRuns, hc, Bool.false_eq_true, if_false, if_true]
    exact ih l (fun x hx => h x (List.mem_cons_of_mem _ hx)) hl

/-- The replacement writes letters, digits and underscores only. -/
theorem replaceRuns_mem :
    ∀ (l : List Char) (b : Bool), ∀ c ∈ replaceRuns b l, c.isAlphanum = true ∨ c = '_' := by
  intro l
  induction l with
  | nil => intro b c hc; cases hc
  | cons x xs ih =>
    intro b c hc
    unfold replaceRuns at hc
    by_cases hx : x.isAlphanum = true
    · simp only [hx, if_true] at hc
      rcases List.mem_cons.mp hc with rfl | hc'
      · exact Or.inl hx
      · exact ih false c hc'
    · cases b with
      | true =>
        simp only [hx, if_false, if_true, Bool.false_eq_true] at hc
        exact ih true c hc
      | false =>
        simp only [hx, if_false, Bool.false_eq_true] at hc
        rcases List.mem_cons.mp hc with rfl | hc'
        · exact Or.inr rfl
        · exact ih true c hc'

/-- The lower-casing keeps the letters and digits of the replacement apart from its
underscores. -/
theorem filter_map_toLower (l : List Char) (b : Bool) :
    ((replaceRuns b l).map Char.toLower).filter Char.isAlphanum
      = ((replaceRuns b l).filter Char.isAlphanum).map Char.toLower := by
  rw [List.filter_map]
  congr 1
  apply List.filter_congr
  intro c hc
  rcases replaceRuns_mem l b c hc with h | h
  · simp only [Function.comp_apply, h, (isAlphanum_toLower c h).1]
  · subst h
    decide

/-- C25 (variable-name normalisation).  For every string `name`,
`ConvertToTfVarName(ConvertToTfVarName(name)) = ConvertToTfVarName(name)`; every character
of the result is an underscore, a letter `a-z` or a digit `0-9`; no two consecutive
characters of the result are underscores.  The result is `name` with every maximal run
of characters outside `[a-zA-Z0-9]` replaced by a single underscore and then lower-cased:
its letters and digits are the lower-cased letters and digits of `name` in the same
order; a `name` of letters and digits only gives `name` lower-cased; and when `name` is
a prefix of letters and digits, a non-empty run of other characters and a rest that is
empty or starts with a letter or digit, the result is the lower-cased prefix, one
underscore and the result for the rest. -/
theorem ConvertToTfVarName_idempotent (name : String) :
    ConvertToTfVarName (ConvertToTfVarName name) = ConvertToTfVarName name ∧
    (∀ c ∈ (ConvertToTfVarName name).data, c = '_' ∨ c.isLower = true ∨ c.isDigit = true) ∧
    List.Chain' (fun x y => ¬ (x = '_' ∧ y = '_')) (ConvertToTfVarName name).data ∧
    (ConvertToTfVarName name).data.filter Char.isAlphanum
      = (name.data.filter Char.isAlphanum).map Char.toLower ∧
    ((∀ c ∈ name.data, c.isAlphanum = true) →
      ConvertToTfVarName name = String.mk (name.data.map Char.toLower)) ∧
    (∀ a r l : List Char, name.data = a ++ r ++ l → (∀ c ∈ a, c.isAlphanum = true) →
      r ≠ [] → (∀ c ∈ r, c.isAlphanum = false) → (∀ c ∈ l.head?, c.isAlphanum = true) →
      ConvertToTfVarName name = String.mk
        (a.map Char.toLower ++ '_' :: (ConvertToTfVarName (String.mk l)).data)) := by
  have hn := replaceRuns_normalised name.data false
  refine ⟨?_, normalised_chars _ false hn, (normalised_chain _ false hn).1, ?_, ?_, ?_⟩
  · show String.mk ((replaceRuns false ((replaceRuns false name.data).map Char.toLower)).map
      Char.toLower) = String.mk ((replaceRuns false name.data).map Char.toLower)
    rw [replaceRuns_of_normalised _ false hn]
  · show ((replaceRuns false name.data).map Char.toLower).filter Char.isAlphanum
      = (name.data.filter Char.isAlphanum).map Char.toLower
    rw [filter_map_toLower, replaceRuns_filter]
  · intro hall
    show String.mk ((replaceRuns false name.data).map Char.toLower)
      = String.mk (name.data.map Char.toLower)
    have h := replaceRuns_alnum name.data [] hall
    simp only [replaceRuns, List.append_nil] at h
    rw [h]
  · intro a r l hname ha hr hrun hl
    show String.mk ((replaceRuns false name.data).map Char.toLower)
      = String.mk (a.map Char.toLower ++ '_' :: (replaceRuns false l).map Char.toLower)
    rw [hname, List.append_assoc, replaceRuns_alnum a (r ++ l) ha]
    cases r with
    | nil => exact absurd rfl hr
    | cons c cs =>
      have hc : c.isAlphanum = false := hrun c (List.mem_cons_self _ _)
      simp only [List.cons_append, replaceRuns, hc, Bool.false_eq_true, if_false, List.append_eq]
      rw [replaceRuns_inRun cs l (fun x hx => hrun x (List.mem_cons_of_mem _ hx)) hl,
        List.map_append, List.map_cons]
      rfl

/-- The normalisation of a name with upper-case letters, runs of other characters and a
character outside ASCII. -/
theorem ConvertToTfVarName_example :
    ConvertToTfVarName "Hello, World--x__Y é9" = "hello_world_x_y_9" := by
  decide


/-- Beyond ASCII the key of a tag is decided by the tables of the package `unicode`: the
field `Name` with the tag `json:"é"` is encoded under `é` when `é` counts as a letter or
digit, and under `Name` otherwise. -/
theorem jsonKey_unicode_letter (unicodeLetterOrDigit : Char → Bool) :
    State.jsonKey unicodeLetterOrDigit "Name" "json:\"é\""
      = if unicodeLetterOrDigit 'é' = true then some "é" else some "Name" := by
  have ht : State.tagGet "json:\"é\"" "json" = "é" := by decide
  have hv : State.isValidTagChar unicodeLetterOrDigit 'é' = unicodeLetterOrDigit 'é' := rfl
  unfold State.jsonKey
  simp only [ht]
  have hd : ("é" : String).data.takeWhile (fun c => c ≠ ',') = ['é'] := by decide
  have hne : ¬ (("é" : String) = "-") := by decide
  simp only [hne, if_false, hd, List.all_cons, List.all_nil, Bool.and_true, hv]
  have hne2 : (String.mk ['é'] ≠ "") := by decide
  simp only [hne2, true_and, ne_eq, not_false_eq_true]

end Cdev
